import Mathlib

/-!
# RPGCombat: a shallow embedding of `rpg_system.cpp`

Conventions of the embedding.

* C++ `int` is `Int`; signed overflow is undefined in C++ and is not modelled.
  Integer division `/` of the source truncates toward zero: `Int.tdiv`.
* A `Combatant*` is an index into `World.combatants` (the objects the pointers
  refer to); reading an index outside the list gives `default` and a write
  there is dropped.
* A `float` is kept as an exact fraction (`Frac`); comparisons are the exact
  ones, rounding is not modelled. `getDistance` returns a square root: the
  model keeps the radicand and compares squares.
* Random draws are explicit arguments.
* Console output is not modelled.
-/

namespace RPG

/-! ## Exact fractions standing for `float` values -/

/-- The value `num / den` (`den` is positive in every value the model builds). -/
structure Frac where
  num : Int
  den : Nat
deriving DecidableEq

namespace Frac

/-- An `int` converted to `float`. -/
def ofInt (n : Int) : Frac := ⟨n, 1⟩

/-- The difference `a - b`. -/
def sub (a b : Frac) : Frac := ⟨a.num * b.den - b.num * a.den, a.den * b.den⟩

/-- The product of an `int` and a `float`. -/
def mulInt (n : Int) (a : Frac) : Frac := ⟨n * a.num, a.den⟩

/-- The comparison `a <= b`. -/
def le (a b : Frac) : Bool := decide (a.num * b.den ≤ b.num * a.den)

/-- The comparison `a > b`. -/
def gt (a b : Frac) : Bool := !(le a b)

/-- The conversion `static_cast<int>`: truncation toward zero. -/
def trunc (a : Frac) : Int := a.num.tdiv a.den

/-- The function `std::ceil`, converted to `int`. -/
def ceil (a : Frac) : Int := -((-a.num) / a.den)

/-- The comparison `sqrt n <= r` for an integer radicand `n >= 0`. -/
def sqrtLe (n : Int) (r : Frac) : Bool :=
  decide (0 ≤ r.num) && decide (n * (r.den * r.den) ≤ r.num * r.num)

end Frac

/-! ## Constants and helper functions -/

def COST_MOVE_BASE : Int := 1
def COST_MOVE_PENALTY : Int := 6
def COST_GUARD : Int := 2
def COST_ITEM : Int := 3
def COST_SPELL : Int := 4
def COST_ATTACK : Int := 6

/-- The largest `int`: `std::numeric_limits<int>::max()`. -/
def INT_MAX : Int := 2147483647

/-- The call `getRandomInt(min, max)`: the raw draw `raw` is brought into
`[min, max]`. -/
def getRandomInt (min max : Int) (raw : Nat) : Int :=
  min + ((raw % (max - min + 1).toNat : Nat) : Int)

/-- The radicand of `getDistance(x1, y1, x2, y2)`. -/
def getDistanceSq (x1 y1 x2 y2 : Int) : Int :=
  (x2 - x1) * (x2 - x1) + (y2 - y1) * (y2 - y1)

/-- The elemental multiplier of an attack element against an armor element. -/
def getElementalMultiplier (atk dfn : String) : Frac :=
  if atk = dfn ∧ atk ≠ "None" ∧ atk ≠ "" then ⟨1, 2⟩
  else if (atk = "Fire" ∧ dfn = "Ice") ∨ (atk = "Ice" ∧ dfn = "Fire") then ⟨2, 1⟩
  else if (atk = "Psi" ∧ dfn = "Bio") ∨ (atk = "Bio" ∧ dfn = "Psi") then ⟨2, 1⟩
  else if (atk = "Electricity" ∧ dfn = "Earth") ∨ (atk = "Earth" ∧ dfn = "Electricity") then ⟨2, 1⟩
  else if (atk = "Wind" ∧ dfn = "Poison") ∨ (atk = "Poison" ∧ dfn = "Wind") then ⟨2, 1⟩
  else ⟨1, 1⟩

/-- Element `n` of a list changed by `f`; a position outside the list changes
nothing. -/
def updAt {α : Type} : List α → Nat → (α → α) → List α
  | [], _, _ => []
  | a :: l, 0, f => f a :: l
  | a :: l, n + 1, f => a :: updAt l n f

/-! ## Entity definitions -/

structure StatusEffect where
  name : String
  durationTicks : Int
  potency : Int
deriving DecidableEq

structure Item where
  name : String
  quantity : Int
  range : Frac
  category : String
  potency : Int
deriving DecidableEq

structure Armor where
  name : String
  damageResistance : Int
  damageThreshold : Int
  evasion : Frac
  elementType : String
  magicalDefense : Int
deriving DecidableEq

/-- The six-argument constructor `Armor::Armor`. -/
def Armor.create (n : String) (dr dt : Int) (eva : Frac) (elem : String) (magDef : Int) : Armor :=
  { name := n
    damageResistance := dr
    damageThreshold := if elem ≠ "Earth" then 0 else dt
    evasion := if elem ≠ "Wind" then ⟨0, 1⟩ else eva
    elementType := elem
    magicalDefense := if elem ≠ "Naughtium" then 0 else magDef }

/-- The default constructor `Armor::Armor()`. -/
def Armor.naked : Armor :=
  { name := "Naked", damageResistance := 0, damageThreshold := 0, evasion := ⟨0, 1⟩,
    elementType := "Standard", magicalDefense := 0 }

structure Weapon where
  name : String
  physicalAttack : Int
  accuracy : Frac
  range : Frac
  numberOfAttacks : Int
  elementType : String
deriving DecidableEq

/-- The default constructor `Weapon::Weapon()`. -/
def Weapon.fists : Weapon :=
  { name := "Fists", physicalAttack := 1, accuracy := ⟨1, 1⟩, range := ⟨1, 1⟩,
    numberOfAttacks := 1, elementType := "Physical" }

structure Spell where
  name : String
  magicalAttack : Int
  mpCost : Int
  range : Frac
  duration : Int
  elementType : String
  aoe : Int
  category : String
deriving DecidableEq

structure Combatant where
  name : String
  team : String
  maxHealth : Int
  currentHealth : Int
  maxMagicPoints : Int
  currentMagicPoints : Int
  initiative : Int
  morale : Int
  guarding : Bool
  fled : Bool
  equippedArmor : Armor
  equippedWeapon : Weapon
  knownSpells : List Spell
  inventory : List Item
  statuses : List StatusEffect
  xPos : Int
  yPos : Int
deriving DecidableEq

namespace Combatant

/-- The constructor `Combatant::Combatant`. -/
def create (n teamName : String) (hp mp init mor : Int) : Combatant :=
  { name := n, team := teamName, maxHealth := hp, currentHealth := hp,
    maxMagicPoints := mp, currentMagicPoints := mp, initiative := init, morale := mor,
    guarding := false, fled := false, equippedArmor := Armor.naked,
    equippedWeapon := Weapon.fists, knownSpells := [], inventory := [], statuses := [],
    xPos := -1, yPos := -1 }

instance : Inhabited Combatant := ⟨create "" "" 0 0 0 0⟩

def isAlive (c : Combatant) : Bool := decide (c.currentHealth > 0) && !c.fled

def isBroken (c : Combatant) : Bool := decide (c.morale < 0)

/-- The loop of `getEffectiveDR` over the statuses. -/
def acidLoop : Int → List StatusEffect → Int
  | dr, [] => dr
  | dr, s :: rest => acidLoop (if s.name = "Acid" then dr - s.potency else dr) rest

def getEffectiveDR (c : Combatant) : Int :=
  let dr := acidLoop c.equippedArmor.damageResistance c.statuses
  if dr < -80 then -80 else dr

def setPosition (c : Combatant) (x y : Int) : Combatant := { c with xPos := x, yPos := y }

def equipArmor (c : Combatant) (armor : Armor) : Combatant := { c with equippedArmor := armor }

def equipWeapon (c : Combatant) (weapon : Weapon) : Combatant := { c with equippedWeapon := weapon }

def learnSpell (c : Combatant) (spell : Spell) : Combatant :=
  { c with knownSpells := c.knownSpells ++ [spell] }

def startTurn (c : Combatant) : Combatant :=
  if c.guarding then { c with guarding := false } else c

/-- One pass of the inner loop of `addTicks` over the statuses, from health `h`:
the health after the pass and the statuses that remain. -/
def tickStatuses : Int → List StatusEffect → Int × List StatusEffect
  | h, [] => (h, [])
  | h, s :: rest =>
    let h1 := if s.name = "Burn" then (if h - s.potency < 0 then 0 else h - s.potency) else h
    let d := s.durationTicks - 1
    let r := tickStatuses h1 rest
    if d ≤ 0 then r else (r.1, { s with durationTicks := d } :: r.2)

/-- The outer loop of `addTicks`: `n` iterations are left. -/
def tickLoop : Nat → Combatant → Combatant
  | 0, c => c
  | n + 1, c =>
    let r := tickStatuses c.currentHealth c.statuses
    let c1 := { c with currentHealth := r.1, statuses := r.2 }
    if c1.currentHealth ≤ 0 then c1 else tickLoop n c1

def addTicks (c : Combatant) (ticks : Int) : Combatant :=
  tickLoop ticks.toNat { c with initiative := c.initiative + ticks }

def guard (c : Combatant) : Combatant := { c with guarding := true }

def flee (c : Combatant) : Combatant := { c with fled := true, xPos := -1, yPos := -1 }

def reduceMorale (c : Combatant) (amount : Int) : Combatant :=
  { c with morale := c.morale - amount }

def regainMorale (c : Combatant) (amount : Int) : Combatant :=
  { c with morale := c.morale + amount }

def drainMP (c : Combatant) (amount : Int) : Combatant :=
  { c with currentMagicPoints :=
      if c.currentMagicPoints - amount < 0 then 0 else c.currentMagicPoints - amount }

def restoreMP (c : Combatant) (amount : Int) : Combatant :=
  { c with currentMagicPoints :=
      if c.currentMagicPoints + amount > c.maxMagicPoints then c.maxMagicPoints
      else c.currentMagicPoints + amount }

def applyStatus (c : Combatant) (name : String) (duration potency : Int) : Combatant :=
  { c with statuses := c.statuses ++ [{ name := name, durationTicks := duration, potency := potency }] }

def heal (c : Combatant) (amount : Int) : Combatant :=
  { c with currentHealth :=
      if c.currentHealth + amount > c.maxHealth then c.maxHealth else c.currentHealth + amount }

/-- The statement `item.quantity--` of `useItem` on `inventory[n]`. -/
def consumeItem (c : Combatant) (n : Nat) : Combatant :=
  { c with inventory := updAt c.inventory n (fun i => { i with quantity := i.quantity - 1 }) }

/-- The statement `currentMagicPoints -= spell.mpCost` of `castSpell`. -/
def spendMP (c : Combatant) (cost : Int) : Combatant :=
  { c with currentMagicPoints := c.currentMagicPoints - cost }

/-- The health update at the head of `takeDamage`. -/
def loseHealth (c : Combatant) (amount : Int) : Combatant :=
  { c with currentHealth := if c.currentHealth - amount < 0 then 0 else c.currentHealth - amount }

def checkRange (c target : Combatant) (range : Frac) : Bool :=
  if c.xPos = -1 ∨ target.xPos = -1 then true
  else Frac.sqrtLe (getDistanceSq c.xPos c.yPos target.xPos target.yPos) range

end Combatant

/-! ## The world: the combatant objects and the grid -/

structure Grid where
  width : Int
  height : Int
  combatantMap : List (List (Option Nat))
deriving DecidableEq

namespace Grid

/-- The constructor `Grid::Grid(w, h)`: `h` rows of `w` empty cells. -/
def create (w h : Int) : Grid :=
  { width := w, height := h, combatantMap := List.replicate h.toNat (List.replicate w.toNat none) }

/-- The read `combatantMap[y][x]`; outside the vectors the model reads no
occupant. -/
def cell (g : Grid) (x y : Int) : Option Nat :=
  if x < 0 ∨ y < 0 then none else (g.combatantMap.getD y.toNat []).getD x.toNat none

/-- The write `combatantMap[y][x] = v`; outside the vectors the write is
dropped. -/
def setCell (g : Grid) (x y : Int) (v : Option Nat) : Grid :=
  if x < 0 ∨ y < 0 then g
  else { g with combatantMap := updAt g.combatantMap y.toNat (fun row => updAt row x.toNat (fun _ => v)) }

def getCombatantAt (g : Grid) (x y : Int) : Option Nat :=
  if x < 0 ∨ x ≥ g.width ∨ y < 0 ∨ y ≥ g.height then none else g.cell x y

/-- The cells in the order of the scan of `castSpell`: rows outermost. -/
def scanOrder (g : Grid) : List (Int × Int) :=
  (List.range g.height.toNat).foldr
    (fun y acc => (List.range g.width.toNat).map (fun x => ((x : Int), (y : Int))) ++ acc) []

end Grid

structure World where
  combatants : List Combatant
  grid : Grid
deriving DecidableEq

namespace World

/-- The object a pointer refers to. -/
def get (w : World) (id : Nat) : Combatant := w.combatants.getD id default

/-- The object behind a pointer changed by `f`. -/
def upd (w : World) (id : Nat) (f : Combatant → Combatant) : World :=
  { w with combatants := updAt w.combatants id f }

end World

/-- The arrays `checkX`, `checkY` of `takeDamage` and `moveCombatant`, as pairs. -/
def checkXY : List (Int × Int) := [(0, 1), (0, -1), (1, 0), (-1, 0)]

/-! ## Grid operations -/

def placeCombatant (w : World) (c : Nat) (x y : Int) : Bool × World :=
  if x < 0 ∨ x ≥ w.grid.width ∨ y < 0 ∨ y ≥ w.grid.height then (false, w)
  else if w.grid.cell x y ≠ none then (false, w)
  else
    let oldX := (w.get c).xPos
    let oldY := (w.get c).yPos
    let g1 := if oldX ≠ -1 ∧ oldY ≠ -1 then w.grid.setCell oldX oldY none else w.grid
    let g2 := g1.setCell x y (some c)
    (true, { combatants := updAt w.combatants c (fun k => k.setPosition x y), grid := g2 })

/-- The adjacency loop of `moveCombatant`, over the offsets that are left. -/
def engagedLoop (w : World) (c : Nat) (curX curY : Int) : List (Int × Int) → Bool
  | [] => false
  | d :: rest =>
    let nx := curX + d.1
    let ny := curY + d.2
    if nx ≥ 0 ∧ nx < w.grid.width ∧ ny ≥ 0 ∧ ny < w.grid.height then
      match w.grid.cell nx ny with
      | some o =>
        if (w.get o).team ≠ (w.get c).team ∧ (w.get o).isAlive = true then true
        else engagedLoop w c curX curY rest
      | none => engagedLoop w c curX curY rest
    else engagedLoop w c curX curY rest

def moveCombatant (w : World) (c : Nat) (dx dy : Int) : Int × World :=
  let curX := (w.get c).xPos
  let curY := (w.get c).yPos
  if curX = -1 then (0, w)
  else
    let isEngaged := engagedLoop w c curX curY checkXY
    let tickCost := if isEngaged then COST_MOVE_BASE + COST_MOVE_PENALTY else COST_MOVE_BASE
    let newX := curX + dx
    let newY := curY + dy
    if newX < 0 ∨ newX ≥ w.grid.width ∨ newY < 0 ∨ newY ≥ w.grid.height then
      (tickCost, { combatants := updAt w.combatants c Combatant.flee,
                   grid := w.grid.setCell curX curY none })
    else if w.grid.cell newX newY ≠ none then (0, w)
    else
      (tickCost, { combatants := updAt w.combatants c (fun k => k.setPosition newX newY),
                   grid := (w.grid.setCell curX curY none).setCell newX newY (some c) })

/-! ## Damage resolution -/

/-- The head of `takeDamage`: the health loss, the morale loss of a Psi hit and
the mana drain of an Electricity hit. -/
def damageSelf (w : World) (self : Nat) (amount : Int) (element : String) : World :=
  let w1 := w.upd self (fun c => c.loseHealth amount)
  let w2 := if element = "Psi" then w1.upd self (fun c => c.reduceMorale amount) else w1
  if element = "Electricity" then w2.upd self (fun c => c.drainMP (amount.tdiv 2)) else w2

/-- The body of the reflection loop of `takeDamage` for the offset `d`;
`reflect wi n` is the call `neighbor->takeDamage(reflectDmg, "Reflect", grid)`. -/
def reflectStep (reflect : World → Nat → World) (self : Nat) (wi : World) (d : Int × Int) : World :=
  match wi.grid.getCombatantAt ((wi.get self).xPos + d.1) ((wi.get self).yPos + d.2) with
  | some neighbor =>
    if (wi.get neighbor).isAlive = true ∧ (wi.get neighbor).team ≠ (wi.get self).team then
      reflect wi neighbor
    else wi
  | none => wi

/-- The method `takeDamage` of combatant `self`, with `fuel` bounding the depth
of the Poison reflections; `hasGrid` says that the grid pointer is not null. -/
def takeDamageAux : Nat → World → Nat → Int → String → Bool → World
  | fuel, w, self, amount, element, hasGrid =>
    let w3 := damageSelf w self amount element
    if (w3.get self).equippedArmor.elementType = "Poison" ∧ hasGrid = true
        ∧ (w3.get self).xPos ≠ -1 then
      if amount.tdiv 2 > 0 then
        match fuel with
        | 0 => w3
        | f + 1 =>
          checkXY.foldl
            (reflectStep (fun wi n => takeDamageAux f wi n (amount.tdiv 2) "Reflect" true) self) w3
      else w3
    else w3

/-- The method `takeDamage`: a reflection halves the amount, so `amount` levels
are enough. -/
def takeDamage (w : World) (self : Nat) (amount : Int) (element : String) (hasGrid : Bool) : World :=
  takeDamageAux amount.toNat w self amount element hasGrid

/-! ## Combat actions -/

/-- The draws of one sub-attack: the hit roll, the raw draw of the damage
multiplier and the critical-hit roll. -/
structure AttackRoll where
  hit : Frac
  multiplier : Nat
  crit : Frac

/-- The damage figures of a sub-attack that hits. -/
structure HitDamage where
  productDamage : Int
  finalDamage : Int
  critDamage : Int
deriving DecidableEq

/-- The value of `baseDR` in `attack`: the effective resistance, the guard bonus
and the second floor. -/
def attackBaseDR (target : Combatant) : Int :=
  let dr0 := target.getEffectiveDR
  let dr1 := if target.guarding = true then dr0 + 100 else dr0
  if dr1 < -80 then -80 else dr1

/-- The damage computation of `attack` for a sub-attack that hits. -/
def hitDamage (attacker target : Combatant) (r : AttackRoll) : HitDamage :=
  let weapon := attacker.equippedWeapon
  let armor := target.equippedArmor
  let multiplier := getRandomInt 7 13 r.multiplier
  let productDamage := (weapon.physicalAttack * multiplier).tdiv 10
  let isCrit := Frac.le r.crit ⟨5, 100⟩
  let critDamage := if isCrit = true then productDamage else 0
  let resisted :=
    if isCrit = true then 0
    else
      let damageAfterThreshold :=
        if productDamage - armor.damageThreshold < 1 then 1
        else productDamage - armor.damageThreshold
      (damageAfterThreshold * 100).tdiv (100 + attackBaseDR target)
  let elemMult := getElementalMultiplier weapon.elementType armor.elementType
  { productDamage := productDamage
    finalDamage := (Frac.mulInt resisted elemMult).trunc
    critDamage := critDamage }

/-- The elemental side effects of a hit, written once for `attack` and once for
`applySpellEffect` in the source: `burnBase` is `productDamage` in `attack` and
`spell.magicalAttack` in `castSpell`, `damage` is the damage after the
elemental multiplier. -/
def elementalSideEffect (w : World) (self victim : Nat) (elem : String) (burnBase damage : Int) :
    World :=
  if elem = "Fire" then w.upd victim (fun c => c.applyStatus "Burn" 5 (burnBase.tdiv 20))
  else if elem = "Acid" then w.upd victim (fun c => c.applyStatus "Acid" 7 (damage.tdiv 3))
  else if elem = "Ice" then w.upd victim (fun c => c.addTicks (Frac.mulInt damage ⟨1, 100⟩).ceil)
  else if elem = "Bio" then w.upd self (fun c => c.heal (damage.tdiv 2))
  else w

/-- The body of the loop of `attack` for a living target. -/
def attackStep (w : World) (self target : Nat) (r : AttackRoll) : World :=
  let weapon := (w.get self).equippedWeapon
  let hitChance := Frac.sub weapon.accuracy (w.get target).equippedArmor.evasion
  if Frac.gt r.hit hitChance = true then w
  else
    let d := hitDamage (w.get self) (w.get target) r
    takeDamage (elementalSideEffect w self target weapon.elementType d.productDamage d.finalDamage)
      target (d.finalDamage + d.critDamage) weapon.elementType true

/-- The loop of `attack`: `n` sub-attacks are left, the next one is number `i`. -/
def attackLoop (self target : Nat) (rolls : Nat → AttackRoll) : Nat → Nat → World → World
  | 0, _, w => w
  | n + 1, i, w =>
    if (w.get target).isAlive = true then
      attackLoop self target rolls n (i + 1) (attackStep w self target (rolls i))
    else w

def attack (w : World) (self target : Nat) (rolls : Nat → AttackRoll) : Bool × World :=
  if (w.get self).checkRange (w.get target) (w.get self).equippedWeapon.range = false then (false, w)
  else (true, attackLoop self target rolls (w.get self).equippedWeapon.numberOfAttacks.toNat 0 w)

/-- The damage of `applySpellEffect` on a victim, after the elemental multiplier. -/
def spellDamage (spell : Spell) (victim : Combatant) : Int :=
  let armor := victim.equippedArmor
  let magicDef := if armor.magicalDefense < -80 then -80 else armor.magicalDefense
  let damage := (spell.magicalAttack * 100).tdiv (100 + magicDef)
  let elemMult := getElementalMultiplier spell.elementType armor.elementType
  (Frac.mulInt damage elemMult).trunc

/-- The lambda `applySpellEffect` of `castSpell`. -/
def applySpellEffect (w : World) (self victim : Nat) (spell : Spell) : World :=
  let damage := spellDamage spell (w.get victim)
  takeDamage (elementalSideEffect w self victim spell.elementType spell.magicalAttack damage)
    victim damage spell.elementType true

/-- The body of the scan of `castSpell` at cell `p = (x, y)`. -/
def castSpellCell (self target : Nat) (spell : Spell) (w : World) (p : Int × Int) : World :=
  match w.grid.getCombatantAt p.1 p.2 with
  | none => w
  | some potential =>
    if (w.get potential).isAlive = true then
      if Frac.sqrtLe (getDistanceSq (w.get target).xPos (w.get target).yPos p.1 p.2)
          (Frac.ofInt spell.aoe) = true then
        if spell.category = "Buff" then
          (if (w.get potential).team = (w.get self).team then applySpellEffect w self potential spell
           else w)
        else
          (if (w.get potential).team = (w.get self).team then w
           else applySpellEffect w self potential spell)
      else w
    else w

def castSpell (w : World) (self target : Nat) (spellIndex : Int) : Bool × World :=
  if spellIndex < 0 ∨ spellIndex ≥ (w.get self).knownSpells.length then (false, w)
  else
    match (w.get self).knownSpells[spellIndex.toNat]? with
    | none => (false, w)
    | some spell =>
      if (w.get self).currentMagicPoints < spell.mpCost then (false, w)
      else if (w.get self).checkRange (w.get target) spell.range = false then (false, w)
      else
        let w1 := w.upd self (fun c => c.spendMP spell.mpCost)
        if (w1.get target).xPos = -1 then (false, w1)
        else (true, w1.grid.scanOrder.foldl (castSpellCell self target spell) w1)

def useItem (w : World) (self target : Nat) (itemIndex : Int) : Bool × World :=
  if itemIndex < 0 ∨ itemIndex ≥ (w.get self).inventory.length then (false, w)
  else
    match (w.get self).inventory[itemIndex.toNat]? with
    | none => (false, w)
    | some item =>
      if item.quantity ≤ 0 then (false, w)
      else if (w.get self).checkRange (w.get target) item.range = false then (false, w)
      else
        let w1 := w.upd self (fun c => c.consumeItem itemIndex.toNat)
        if item.category = "Healing" then (true, w1.upd target (fun c => c.heal item.potency))
        else if item.category = "RestoreMP" then
          (true, w1.upd target (fun c => c.restoreMP item.potency))
        else (true, w1)

/-! ## Battle manager -/

/-- The loop of `getNextActiveCombatant`: the pair `minInit`, `tiedCombatants`
after the participants that are left. -/
def nextLoop (w : World) : Int → List Nat → List Nat → Int × List Nat
  | minInit, tied, [] => (minInit, tied)
  | minInit, tied, c :: rest =>
    if (w.get c).isAlive = false then nextLoop w minInit tied rest
    else if (w.get c).initiative < minInit then nextLoop w (w.get c).initiative [c] rest
    else if (w.get c).initiative = minInit then nextLoop w minInit (tied ++ [c]) rest
    else nextLoop w minInit tied rest

/-- The method `getNextActiveCombatant`; `raw` is the raw tie-break draw and
`none` is the null pointer. -/
def getNextActiveCombatant (w : World) (participants : List Nat) (raw : Nat) : Option Nat :=
  let tied := (nextLoop w INT_MAX [] participants).2
  if tied.isEmpty = true then none
  else if tied.length = 1 then tied[0]?
  else tied[(getRandomInt 0 ((tied.length : Int) - 1) raw).toNat]?

/-- The loop of `getWinner`: the flags `goodAlive`, `badAlive`. -/
def winnerLoop (w : World) : Bool × Bool → List Nat → Bool × Bool
  | flags, [] => flags
  | flags, c :: rest =>
    if (w.get c).isAlive = true then
      let good := if (w.get c).team = "Good Guys" then true else flags.1
      let bad := if (w.get c).team = "Bad Guys" then true else flags.2
      winnerLoop w (good, bad) rest
    else winnerLoop w flags rest

def getWinner (w : World) (participants : List Nat) : String :=
  let flags := winnerLoop w (false, false) participants
  if flags.1 = false ∧ flags.2 = false then "Draw"
  else if flags.1 = false then "Bad Guys"
  else if flags.2 = false then "Good Guys"
  else "None"

/-! ## Definitions used to state the properties -/

/-- The four pairs of opposed elements, in either order. -/
def opposedElements (a b : String) : Prop :=
  (a = "Fire" ∧ b = "Ice") ∨ (a = "Ice" ∧ b = "Fire")
  ∨ (a = "Psi" ∧ b = "Bio") ∨ (a = "Bio" ∧ b = "Psi")
  ∨ (a = "Electricity" ∧ b = "Earth") ∨ (a = "Earth" ∧ b = "Electricity")
  ∨ (a = "Wind" ∧ b = "Poison") ∨ (a = "Poison" ∧ b = "Wind")

/-- Team `t` has a living member among the participants. -/
def teamAlive (w : World) (participants : List Nat) (t : String) : Bool :=
  participants.any (fun p => (w.get p).isAlive && decide ((w.get p).team = t))

/-- A roster of one living Good Guy and one dead Bad Guy. -/
def c3a : Combatant := Combatant.create "A" "Good Guys" 10 5 0 0
def c3b : Combatant := { Combatant.create "B" "Bad Guys" 10 5 0 0 with currentHealth := 0 }
/-- The world of the roster above. -/
def c3World : World := ⟨[c3a, c3b], Grid.create 2 2⟩

/-- The invariant of the loop of `getNextActiveCombatant` after the
participants `seen`. -/
def NextInv (w : World) (minInit : Int) (tied seen : List Nat) : Prop :=
  (∀ c ∈ tied, c ∈ seen ∧ (w.get c).isAlive = true ∧ (w.get c).initiative = minInit)
  ∧ (∀ q ∈ seen, (w.get q).isAlive = true → minInit ≤ (w.get q).initiative)
  ∧ (tied = [] → (∀ q ∈ seen, (w.get q).isAlive = false) ∧ minInit = INT_MAX)

/-- Two living participants tied at initiative 3 and a dead one at initiative 1. -/
def c2World : World :=
  ⟨[ { Combatant.create "A" "Good Guys" 10 5 3 0 with currentHealth := 4 },
     { Combatant.create "B" "Bad Guys" 10 5 1 0 with currentHealth := 0 },
     Combatant.create "C" "Bad Guys" 10 5 3 0 ], Grid.create 2 2⟩

/-- The grid is a rectangle: `height` rows of `width` cells, as `Grid::Grid`
builds it. -/
def Grid.WF (g : Grid) : Prop :=
  g.combatantMap.length = g.height.toNat ∧ ∀ row ∈ g.combatantMap, row.length = g.width.toNat

instance (g : Grid) : Decidable g.WF := by unfold Grid.WF; infer_instance

/-- Combatant `c` stands on the grid: the cell of its stored position holds it. -/
def placed (w : World) (c : Nat) : Prop :=
  w.grid.getCombatantAt (w.get c).xPos (w.get c).yPos = some c

instance (w : World) (c : Nat) : Decidable (placed w c) := by unfold placed; infer_instance

/-- Cell `(x, y)` holds a living combatant of a team other than the team of `c`. -/
def enemyAt (w : World) (c : Nat) (x y : Int) : Bool :=
  match w.grid.getCombatantAt x y with
  | some o => decide ((w.get o).team ≠ (w.get c).team) && (w.get o).isAlive
  | none => false

/-- One of the four orthogonal neighbours of the cell of `c` holds a living
combatant of another team. -/
def engaged (w : World) (c : Nat) : Bool :=
  enemyAt w c (w.get c).xPos ((w.get c).yPos + 1)
  || enemyAt w c (w.get c).xPos ((w.get c).yPos - 1)
  || enemyAt w c ((w.get c).xPos + 1) (w.get c).yPos
  || enemyAt w c ((w.get c).xPos - 1) (w.get c).yPos

/-- A 3 by 3 grid: a Good Guy at (1, 1) with a living Bad Guy next to it at
(2, 1), and a Bad Guy alone at (0, 0). -/
def gridWorld : World :=
  ⟨[ { Combatant.create "A" "Good Guys" 10 5 0 0 with xPos := 1, yPos := 1 },
     { Combatant.create "B" "Bad Guys" 10 5 0 0 with xPos := 2, yPos := 1 },
     { Combatant.create "C" "Bad Guys" 10 5 0 0 with xPos := 0, yPos := 0 } ],
   (((Grid.create 3 3).setCell 1 1 (some 0)).setCell 2 1 (some 1)).setCell 0 0 (some 2)⟩

/-- The resource bounds of one combatant. -/
def Combatant.Bounded (c : Combatant) : Prop :=
  0 ≤ c.currentHealth ∧ c.currentHealth ≤ c.maxHealth
  ∧ 0 ≤ c.currentMagicPoints ∧ c.currentMagicPoints ≤ c.maxMagicPoints

instance (c : Combatant) : Decidable c.Bounded := by unfold Combatant.Bounded; infer_instance

/-- The magnitudes a combatant carries are not negative: the attack of its
weapon, the cost and the attack of its spells, the potency of its items and the
potency of its Burn statuses. -/
def Combatant.NonnegStats (c : Combatant) : Prop :=
  0 ≤ c.equippedWeapon.physicalAttack
  ∧ (∀ s ∈ c.knownSpells, 0 ≤ s.mpCost ∧ 0 ≤ s.magicalAttack)
  ∧ (∀ i ∈ c.inventory, 0 ≤ i.potency)
  ∧ (∀ s ∈ c.statuses, s.name = "Burn" → 0 ≤ s.potency)

instance (c : Combatant) : Decidable c.NonnegStats := by unfold Combatant.NonnegStats; infer_instance

/-- Every combatant of the world is within its bounds and carries no negative
magnitude. -/
def World.Sane (w : World) : Prop := ∀ c ∈ w.combatants, c.Bounded ∧ c.NonnegStats

instance (w : World) : Decidable w.Sane := by unfold World.Sane; infer_instance

/-- Every combatant of the world is within its resource bounds. -/
def World.Bounded (w : World) : Prop := ∀ c ∈ w.combatants, c.Bounded

instance (w : World) : Decidable w.Bounded := by unfold World.Bounded; infer_instance

/-- A caster with 10/10 health and 5/5 mana at (0, 0). -/
def c1Caster : Combatant :=
  { Combatant.create "A" "Good Guys" 10 5 0 0 with
    xPos := 0, yPos := 0,
    equippedWeapon := { Weapon.fists with physicalAttack := 3, range := ⟨5, 1⟩ },
    knownSpells := [{ name := "Bolt", magicalAttack := 4, mpCost := 2, range := ⟨5, 1⟩,
                      duration := 0, elementType := "None", aoe := 0, category := "Debuff" }],
    inventory := [{ name := "Potion", quantity := 1, range := ⟨5, 1⟩, category := "Healing",
                    potency := 3 }] }

/-- An opponent with 10/10 health and 5/5 mana at (1, 0). -/
def c1Target : Combatant :=
  { Combatant.create "B" "Bad Guys" 10 5 0 0 with xPos := 1, yPos := 0 }

/-- The grid of the two combatants above. -/
def c1Grid : Grid := ((Grid.create 2 1).setCell 0 0 (some 0)).setCell 1 0 (some 1)

/-- The world of the two combatants above. -/
def c1World : World := ⟨[c1Caster, c1Target], c1Grid⟩

/-- The world above with the caster changed by `f`. -/
def c1With (f : Combatant → Combatant) : World := ⟨[f c1Caster, c1Target], c1Grid⟩

/-- Draws of a sub-attack that hits and is critical. -/
def critRoll : AttackRoll := ⟨⟨0, 1⟩, 3, ⟨0, 1⟩⟩

/-- Draws of a sub-attack that hits and is not critical. -/
def plainRoll : AttackRoll := ⟨⟨0, 1⟩, 3, ⟨1, 1⟩⟩

/-- The world `c1World` with the opponent off the grid: unplaced, at (-1, -1). -/
def unplacedTargetWorld : World :=
  ⟨[c1Caster, Combatant.create "B" "Bad Guys" 10 5 0 0], (Grid.create 2 1).setCell 0 0 (some 0)⟩

/-- The caster of `c1World` at (0, 0) and the opponent at (9, 0), out of the
range 5 of the weapon, the spell and the item of the caster. -/
def farTargetWorld : World :=
  ⟨[c1Caster, { Combatant.create "B" "Bad Guys" 10 5 0 0 with xPos := 9, yPos := 0 }],
   ((Grid.create 10 1).setCell 0 0 (some 0)).setCell 9 0 (some 1)⟩

/-- The function `f` on combatants keeps the team and the armor. -/
def KeepsKit (f : Combatant → Combatant) : Prop :=
  ∀ c, (f c).team = c.team ∧ (f c).equippedArmor = c.equippedArmor

/-- Every combatant has in `w1` the team and the armor it has in `w`. -/
def SameKit (w w1 : World) : Prop :=
  ∀ j, (w1.get j).team = (w.get j).team ∧ (w1.get j).equippedArmor = (w.get j).equippedArmor

/-- The armor of the default constructor with the element "Poison". -/
def poisonArmor : Armor := { Armor.naked with name := "Toxic", elementType := "Poison" }

/-- A row of three cells: the caster (Good Guys) at (0, 0), an opponent in Poison
armor at (1, 0) and a teammate of the caster at (2, 0). The spell of the
caster is a "Debuff". -/
def poisonDebuffWorld : World :=
  ⟨[ c1Caster,
     { Combatant.create "B" "Bad Guys" 10 5 0 0 with xPos := 1, yPos := 0, equippedArmor := poisonArmor },
     { Combatant.create "C" "Good Guys" 10 5 0 0 with xPos := 2, yPos := 0 } ],
   (((Grid.create 3 1).setCell 0 0 (some 0)).setCell 1 0 (some 1)).setCell 2 0 (some 2)⟩

/-- The same row with a "Buff" spell: the caster at (0, 0), a teammate in Poison
armor at (1, 0) and an opponent at (2, 0). -/
def poisonBuffWorld : World :=
  ⟨[ { c1Caster with knownSpells := c1Caster.knownSpells.map (fun s => { s with category := "Buff" }) },
     { Combatant.create "B" "Good Guys" 10 5 0 0 with xPos := 1, yPos := 0, equippedArmor := poisonArmor },
     { Combatant.create "C" "Bad Guys" 10 5 0 0 with xPos := 2, yPos := 0 } ],
   (((Grid.create 3 1).setCell 0 0 (some 0)).setCell 1 0 (some 1)).setCell 2 0 (some 2)⟩

/-- The row of `poisonDebuffWorld` without the Poison armor. -/
def plainRowWorld : World :=
  ⟨[ c1Caster,
     { Combatant.create "B" "Bad Guys" 10 5 0 0 with xPos := 1, yPos := 0 },
     { Combatant.create "C" "Good Guys" 10 5 0 0 with xPos := 2, yPos := 0 } ],
   (((Grid.create 3 1).setCell 0 0 (some 0)).setCell 1 0 (some 1)).setCell 2 0 (some 2)⟩

/-- The combatants a spell of the given category must leave alone: those of
another team for a "Buff", the teammates of the caster other than the caster
for any other category. -/
def spared (w : World) (self : Nat) (category : String) (j : Nat) : Prop :=
  if category = "Buff" then (w.get j).team ≠ (w.get self).team
  else j ≠ self ∧ (w.get j).team = (w.get self).team

/-- The fields of a combatant that no damage, status, tick or mana operation
writes: everything but health, mana, initiative, morale and the statuses. -/
def Combatant.fixedPart (c : Combatant) :
    String × String × Int × Int × Bool × Bool × Armor × Weapon × List Spell × List Item × Int × Int :=
  (c.name, c.team, c.maxHealth, c.maxMagicPoints, c.guarding, c.fled, c.equippedArmor,
    c.equippedWeapon, c.knownSpells, c.inventory, c.xPos, c.yPos)

/-- The function `f` on combatants keeps the fixed part. -/
def KeepsFixed (f : Combatant → Combatant) : Prop := ∀ c, (f c).fixedPart = c.fixedPart

/-- Every combatant has in `w1` the fixed part it has in `w`. -/
def SameFixed (w w1 : World) : Prop := ∀ j, (w1.get j).fixedPart = (w.get j).fixedPart

/-- A combatant with 40/40 health whose only status is a Burn of duration 5 and
potency 3. -/
def burningCombatant : Combatant :=
  (Combatant.create "A" "Good Guys" 40 5 0 0).applyStatus "Burn" 5 3

/-- The sum of the potencies of the Acid statuses. -/
def acidSum (statuses : List StatusEffect) : Int :=
  ((statuses.filter (fun s => decide (s.name = "Acid"))).map (fun s => s.potency)).sum

/-- The amount of a non-critical hit as the specification writes it: attack `P`,
multiplier `m`, threshold `DT`, resistance `R`, Acid sum `A`, the guarding flag
and the elemental multiplier `e`. -/
def nonCritAmount (P m DT R A : Int) (guarding : Bool) (e : Frac) : Int :=
  Frac.trunc (Frac.mulInt
    ((max 1 ((P * m).tdiv 10 - DT) * 100).tdiv
      (100 + max (-80) (max (-80) (R - A) + (if guarding = true then 100 else 0)))) e)

/-- An attacker with a weapon of attack 50 and element "Fire". -/
def fireAttacker : Combatant :=
  { Combatant.create "A" "Good Guys" 10 5 0 0 with
    xPos := 0, yPos := 0,
    equippedWeapon := { Weapon.fists with physicalAttack := 50, elementType := "Fire" } }

/-- A guarding target in Ice armor of resistance 40 and threshold 5 that carries
an Acid status of potency 10 and a Burn. -/
def acidTarget : Combatant :=
  { Combatant.create "B" "Bad Guys" 100 5 0 0 with
    xPos := 1, yPos := 0, guarding := true,
    equippedArmor := { Armor.naked with damageResistance := 40, damageThreshold := 5,
                                        elementType := "Ice" },
    statuses := [{ name := "Acid", durationTicks := 7, potency := 10 },
                 { name := "Burn", durationTicks := 5, potency := 1 }] }

/-- The body of the reflection loop of `takeDamage` when the recursive call can
report that the depth bound is used up. -/
def reflectStepChecked (reflect : World → Nat → Option World) (self : Nat) (wi : World)
    (d : Int × Int) : Option World :=
  match wi.grid.getCombatantAt ((wi.get self).xPos + d.1) ((wi.get self).yPos + d.2) with
  | some neighbor =>
    if (wi.get neighbor).isAlive = true ∧ (wi.get neighbor).team ≠ (wi.get self).team then
      reflect wi neighbor
    else some wi
  | none => some wi

/-- The method `takeDamage` with a checked bound on the depth of the
reflections: the result is `none` when a reflection is due and `fuel` is used
up, and the world after the call otherwise. -/
def takeDamageChecked : Nat → World → Nat → Int → String → Bool → Option World
  | fuel, w, self, amount, element, hasGrid =>
    let w3 := damageSelf w self amount element
    if (w3.get self).equippedArmor.elementType = "Poison" ∧ hasGrid = true
        ∧ (w3.get self).xPos ≠ -1 then
      if amount.tdiv 2 > 0 then
        match fuel with
        | 0 => none
        | f + 1 =>
          checkXY.foldl
            (fun acc d => acc.bind (fun wi =>
              reflectStepChecked
                (fun wj n => takeDamageChecked f wj n (amount.tdiv 2) "Reflect" true) self wi d))
            (some w3)
      else some w3
    else some w3

/-- Two enemies in Poison armor next to each other, with 100/100 health. -/
def poisonDuelWorld : World :=
  ⟨[ { Combatant.create "A" "Good Guys" 100 5 0 0 with
       xPos := 0, yPos := 0, equippedArmor := poisonArmor },
     { Combatant.create "B" "Bad Guys" 100 5 0 0 with
       xPos := 1, yPos := 0, equippedArmor := poisonArmor } ],
   ((Grid.create 2 1).setCell 0 0 (some 0)).setCell 1 0 (some 1)⟩

/-- The number of sub-attacks of the loop of `attack` that are misses: the loop
`attackLoop` with a counter at the statement `continue`. -/
def attackMisses (self target : Nat) (rolls : Nat → AttackRoll) : Nat → Nat → World → Nat
  | 0, _, _ => 0
  | n + 1, i, w =>
    if (w.get target).isAlive = true then
      (if Frac.gt (rolls i).hit
          (Frac.sub (w.get self).equippedWeapon.accuracy (w.get target).equippedArmor.evasion) = true
        then 1 else 0)
      + attackMisses self target rolls n (i + 1) (attackStep w self target (rolls i))
    else 0

/-- An attacker whose weapon has accuracy 1.0 and fires three times, next to a
target of evasion 0.0 with 100/100 health. -/
def sureHitWorld : World :=
  ⟨[ { Combatant.create "A" "Good Guys" 10 5 0 0 with
       xPos := 0, yPos := 0,
       equippedWeapon := { Weapon.fists with physicalAttack := 10, numberOfAttacks := 3 } },
     { Combatant.create "B" "Bad Guys" 100 5 0 0 with xPos := 1, yPos := 0 } ],
   ((Grid.create 2 1).setCell 0 0 (some 0)).setCell 1 0 (some 1)⟩

/-- Draws whose hit roll is the largest one, 1.0, and that are not critical. -/
def worstRoll : AttackRoll := ⟨⟨1, 1⟩, 0, ⟨1, 1⟩⟩

/-- The grid and the stored positions agree: the grid is a rectangle, every
occupant of a cell has that cell as its stored position, and every combatant is
unplaced, at (-1, -1), or stands on the cell of its stored position. -/
def Consistent (w : World) : Prop :=
  w.grid.WF
  ∧ (∀ x y c, w.grid.getCombatantAt x y = some c → (w.get c).xPos = x ∧ (w.get c).yPos = y)
  ∧ (∀ c, ((w.get c).xPos = -1 ∧ (w.get c).yPos = -1) ∨ placed w c)

/-- One call of a public operation. The direct call of `flee` on a combatant is
a step only when `direct` is true; `placeCombatant` is called with a pointer
to a combatant of the world. -/
inductive Step (direct : Bool) : World → World → Prop
  | place (w : World) (c : Nat) (x y : Int) :
      c < w.combatants.length → Step direct w (placeCombatant w c x y).2
  | move (w : World) (c : Nat) (dx dy : Int) : Step direct w (moveCombatant w c dx dy).2
  | takeDamage (w : World) (id : Nat) (amount : Int) (element : String) (hasGrid : Bool) :
      Step direct w (takeDamage w id amount element hasGrid)
  | attack (w : World) (self target : Nat) (rolls : Nat → AttackRoll) :
      Step direct w (attack w self target rolls).2
  | castSpell (w : World) (self target : Nat) (spellIndex : Int) :
      Step direct w (castSpell w self target spellIndex).2
  | addTicks (w : World) (id : Nat) (ticks : Int) :
      Step direct w (w.upd id (fun c => c.addTicks ticks))
  | flee (w : World) (id : Nat) : direct = true → Step direct w (w.upd id Combatant.flee)

/-- The states reached from an empty grid and unplaced combatants. -/
inductive Reachable (direct : Bool) : World → Prop
  | start (cs : List Combatant) (width height : Int) :
      (∀ c ∈ cs, c.xPos = -1 ∧ c.yPos = -1) → Reachable direct ⟨cs, Grid.create width height⟩
  | step (w w1 : World) : Reachable direct w → Step direct w w1 → Reachable direct w1

/-- Two unplaced combatants and an empty grid of 3 by 1 cells. -/
def startWorld : World :=
  ⟨[Combatant.create "A" "Good Guys" 10 5 0 0, Combatant.create "B" "Bad Guys" 10 5 0 0],
   Grid.create 3 1⟩

/-- The area rule for the occupant `q` of cell `(x, y)`, read in the state `w`
before the cast: `q` is alive, the cell is at squared distance at most
`aoe * aoe` from the cell of the primary target, and `q` passes the team filter
(the team of the caster for a "Buff", another team for any other category). -/
def spellRule (w : World) (self target : Nat) (spell : Spell) (x y : Int) (q : Nat) : Prop :=
  (w.get q).isAlive = true
  ∧ (x - (w.get target).xPos) * (x - (w.get target).xPos)
      + (y - (w.get target).yPos) * (y - (w.get target).yPos) ≤ spell.aoe * spell.aoe
  ∧ (if spell.category = "Buff" then (w.get q).team = (w.get self).team
     else (w.get q).team ≠ (w.get self).team)

instance (w : World) (self target : Nat) (spell : Spell) (x y : Int) (q : Nat) :
    Decidable (spellRule w self target spell x y q) := by unfold spellRule; infer_instance

/-- The combatant the area rule selects at cell `p`: the occupant of `p` before
the cast, when the rule holds for it. -/
def spellTargetAt (w : World) (self target : Nat) (spell : Spell) (p : Int × Int) : Option Nat :=
  match w.grid.getCombatantAt p.1 p.2 with
  | none => none
  | some q => if spellRule w self target spell p.1 p.2 q then some q else none

/-- The combatants the area rule selects, in the order of the scan. -/
def spellTargets (w : World) (self target : Nat) (spell : Spell) : List Nat :=
  w.grid.scanOrder.filterMap (spellTargetAt w self target spell)

/-- Combatant `q` is selected by the area rule: it is the occupant of a cell for
which the rule holds. -/
def spellSelects (w : World) (self target : Nat) (spell : Spell) (q : Nat) : Prop :=
  ∃ x y : Int, w.grid.getCombatantAt x y = some q ∧ spellRule w self target spell x y q

/-- A "Debuff" spell of attack 4 and cost 2 that reaches the cells at distance
at most 1 from the primary target. -/
def areaSpell : Spell :=
  { name := "Wave", magicalAttack := 4, mpCost := 2, range := ⟨5, 1⟩, duration := 0,
    elementType := "None", aoe := 1, category := "Debuff" }

/-- A caster that knows `areaSpell` and two opponents, placed on a row of three
cells by `placeCombatant`: the caster at (0, 0), the opponents at (1, 0) and
(2, 0). -/
def areaWorld : World :=
  (placeCombatant (placeCombatant (placeCombatant
    ⟨[ { Combatant.create "A" "Good Guys" 10 5 0 0 with knownSpells := [areaSpell] },
       Combatant.create "B" "Bad Guys" 10 5 0 0,
       Combatant.create "C" "Bad Guys" 10 5 0 0 ], Grid.create 3 1⟩ 0 0 0).2 1 1 0).2 2 2 0).2

/-- The spell `areaSpell` with the radius -1. -/
def negAreaSpell : Spell := { areaSpell with aoe := -1 }

/-- The world `c1World` with a caster whose spell has the radius -1. -/
def negAreaWorld : World := c1With (fun c => { c with knownSpells := [negAreaSpell] })

/-- A row of three cells in which the opponent with stored position (1, 0) is
entered in the cells (1, 0) and (2, 0). -/
def twoCellWorld : World :=
  ⟨[ { c1Caster with knownSpells := [areaSpell] }, c1Target ],
   (((Grid.create 3 1).setCell 0 0 (some 0)).setCell 1 0 (some 1)).setCell 2 0 (some 1)⟩

/-- A "Bio" spell of category "Buff" with the negative attack -40. -/
def drainSpell : Spell :=
  { areaSpell with magicalAttack := -40, elementType := "Bio", category := "Buff" }

/-- A caster at (1, 0) that knows `drainSpell`, with a teammate at (0, 0). -/
def drainWorld : World :=
  ⟨[ { c1Caster with xPos := 1, yPos := 0, knownSpells := [drainSpell] },
     { Combatant.create "B" "Good Guys" 10 5 0 0 with xPos := 0, yPos := 0 } ],
   ((Grid.create 2 1).setCell 1 0 (some 0)).setCell 0 0 (some 1)⟩

/-- The world `c1World` with the target at health 0. -/
def deadTargetWorld : World :=
  ⟨[ { c1Caster with equippedWeapon := { c1Caster.equippedWeapon with numberOfAttacks := 3 } },
     { c1Target with currentHealth := 0 } ], c1Grid⟩

/-- The value of `magicDef` in `applySpellEffect`: the magical defense of the
armor of the victim, floored at -80. -/
def spellMagicDef (victim : Combatant) : Int :=
  if victim.equippedArmor.magicalDefense < -80 then -80 else victim.equippedArmor.magicalDefense

/-- A call of `placeCombatant` or of `moveCombatant` on the combatant with the
number `c`. -/
inductive GridOp where
  | place (c : Nat) (x y : Int)
  | move (c : Nat) (dx dy : Int)

/-- The state after the call. -/
def GridOp.run (w : World) : GridOp → World
  | GridOp.place c x y => (placeCombatant w c x y).2
  | GridOp.move c dx dy => (moveCombatant w c dx dy).2

/-- The pointer handed to the call refers to one of the `n` combatants. -/
def GridOp.valid (n : Nat) : GridOp → Prop
  | GridOp.place c _ _ => c < n
  | GridOp.move c _ _ => c < n

instance (n : Nat) (op : GridOp) : Decidable (op.valid n) := by
  cases op <;> unfold GridOp.valid <;> infer_instance

/-- Two placements, a move onto an occupied cell, a move to a free cell, a
placement of a placed combatant on another cell and a move off the grid. -/
def c25Ops : List GridOp :=
  [GridOp.place 0 0 0, GridOp.place 1 1 0, GridOp.move 0 1 0, GridOp.move 1 1 0,
   GridOp.place 0 1 0, GridOp.move 1 1 0]

/-- Every status of the combatant has a remaining duration above 0. -/
def Combatant.PositiveDurations (c : Combatant) : Prop :=
  ∀ s ∈ c.statuses, 0 < s.durationTicks

instance (c : Combatant) : Decidable c.PositiveDurations := by
  unfold Combatant.PositiveDurations; infer_instance

/-- A call of one of the public operations that write statuses. -/
inductive StatusOp where
  | applyStatus (c : Nat) (name : String) (duration potency : Int)
  | addTicks (c : Nat) (ticks : Int)
  | attack (self target : Nat) (rolls : Nat → AttackRoll)
  | castSpell (self target : Nat) (spellIndex : Int)

/-- The state after the call. -/
def StatusOp.run (w : World) : StatusOp → World
  | StatusOp.applyStatus c name duration potency =>
    w.upd c (fun k => k.applyStatus name duration potency)
  | StatusOp.addTicks c ticks => w.upd c (fun k => k.addTicks ticks)
  | StatusOp.attack self target rolls => (RPG.attack w self target rolls).2
  | StatusOp.castSpell self target spellIndex => (RPG.castSpell w self target spellIndex).2

/-- A call of `applyStatus` is made with a duration above 0. -/
def StatusOp.positive : StatusOp → Prop
  | StatusOp.applyStatus _ _ duration _ => 0 < duration
  | _ => True

instance (op : StatusOp) : Decidable op.positive := by
  cases op <;> unfold StatusOp.positive <;> infer_instance

/-- One pass of `addTicks` over the statuses as the specification describes it:
every duration goes down by 1 and a status that reaches 0 is removed. -/
def tickedStatuses (l : List StatusEffect) : List StatusEffect :=
  l.filterMap (fun s =>
    if s.durationTicks - 1 ≤ 0 then none else some { s with durationTicks := s.durationTicks - 1 })

/-- The attacker `fireAttacker` with a "Fire" weapon of three attacks and a
target of 500 health, both placed. -/
def burnWorld : World :=
  ⟨[ { fireAttacker with
        equippedWeapon := { fireAttacker.equippedWeapon with numberOfAttacks := 3 } },
     { Combatant.create "B" "Bad Guys" 500 5 0 0 with xPos := 1, yPos := 0 } ], c1Grid⟩

/-- An attack with three hits, a Burn of duration 2, four ticks and another
attack. -/
def c22Ops : List StatusOp :=
  [StatusOp.attack 0 1 (fun _ => plainRoll), StatusOp.applyStatus 1 "Burn" 2 0,
   StatusOp.addTicks 1 4, StatusOp.attack 0 1 (fun _ => plainRoll)]

/-- The world `c1World` with the caster at health 0, a "Bio" weapon of attack 50
and a "Bio" spell of attack 4. -/
def deadLeechWorld : World :=
  ⟨[ { c1Caster with
        currentHealth := 0,
        equippedWeapon := { c1Caster.equippedWeapon with physicalAttack := 50, elementType := "Bio" },
        knownSpells := c1Caster.knownSpells.map (fun s => { s with elementType := "Bio" }) },
     c1Target ], c1Grid⟩

/-- A combatant at health 0 that carries a Burn of the negative potency -5. -/
def deadBurning : Combatant :=
  { c1Target with currentHealth := 0,
                  statuses := [{ name := "Burn", durationTicks := 5, potency := -5 }] }

/-- The participant belongs to one of the two teams `getWinner` names. -/
def inNamedTeam (w : World) (p : Nat) : Bool :=
  decide ((w.get p).team = "Good Guys" ∨ (w.get p).team = "Bad Guys")

/-- A roster with a dead Good Guy, a dead Bad Guy and a living member of a
third team. -/
def thirdTeamWorld : World :=
  ⟨[ { Combatant.create "A" "Good Guys" 10 5 0 0 with currentHealth := 0 },
     { Combatant.create "B" "Bad Guys" 10 5 0 0 with currentHealth := 0 },
     Combatant.create "N" "Neutrals" 10 5 0 0 ], Grid.create 2 2⟩

/-! ## The computations of `attack` and `castSpell` in machine arithmetic

The definitions above compute in unbounded integers and exact fractions. The
definitions below follow the same statements with the arithmetic of the
machine: an `int` operation stores its result modulo 2^32, an `int` becomes a
`float` of 24 significant bits, and a distance is the `float` nearest to the
root. -/

/-- The smallest `int`: `std::numeric_limits<int>::min()`. -/
def INT_MIN : Int := -2147483648

/-- The value an `int` operation stores: the exact result brought into the range
of `int` modulo 2^32. -/
def wrap32 (x : Int) : Int := (x + 2147483648) % 4294967296 - 2147483648

/-- The number of halvings that bring `a` below 2^24. -/
def floatShift : Nat → Nat → Nat
  | 0, _ => 0
  | fuel + 1, a => if a < 16777216 then 0 else floatShift fuel (a / 2) + 1

/-- The conversion of an `int` to `float`: the nearest value with a significand
of 24 bits, a tie going to the even significand. -/
def floatOfInt (n : Int) : Int :=
  let a := n.natAbs
  let k := floatShift 64 a
  let q := a / 2 ^ k
  let r := a % 2 ^ k
  let m := if 2 ^ k < 2 * r ∨ (2 * r = 2 ^ k ∧ q % 2 = 1) then q + 1 else q
  if n < 0 then -((m * 2 ^ k : Nat) : Int) else ((m * 2 ^ k : Nat) : Int)

/-- The expression `static_cast<int>(n * mult)` for an `int` `n` and a `float`
`mult`: `n` becomes a `float`, the product with 0.5, 1 or 2 is exact, and the
conversion to `int` truncates; outside the range of `int` the conversion is
undefined, and the model returns `INT_MIN`, as the x86 conversion does. -/
def scaleByFloat (n : Int) (mult : Frac) : Int :=
  let v := (Frac.mulInt (floatOfInt n) mult).trunc
  if v < INT_MIN ∨ INT_MAX < v then INT_MIN else v

/-- The `float` literal `0.05f`: 13421773 / 2^28. -/
def float005 : Frac := ⟨13421773, 268435456⟩

/-- The number of bits of `n`. -/
def bitLength : Nat → Nat → Nat
  | 0, _ => 0
  | fuel + 1, n => if n = 0 then 0 else bitLength fuel (n / 2) + 1

/-- The integer square root of `n`, found bit by bit below bit `b`, from the
value `r`. -/
def isqrtAux (n : Nat) : Nat → Nat → Nat
  | 0, r => r
  | b + 1, r =>
    if (r + 2 ^ b) * (r + 2 ^ b) ≤ n then isqrtAux n b (r + 2 ^ b) else isqrtAux n b r

/-- The value of `getDistance` for the radicand `n`, returned as `float`: the
`float` nearest to the root of `n`, a tie going to the even significand. The
source takes the root in `double` and converts it to `float`; below 2^52 the
radicand is exact in `double` and the two roundings give the `float` nearest
to the root. -/
def floatSqrt (n : Int) : Frac :=
  let a := n.toNat
  if a = 0 then ⟨0, 1⟩
  else
    let e := (bitLength 128 a - 1) / 2
    if e ≤ 23 then
      let m := a * 4 ^ (23 - e)
      let q := isqrtAux m 24 0
      let r := if (2 * q + 1) * (2 * q + 1) ≤ 4 * m then q + 1 else q
      ⟨(r : Int), 2 ^ (23 - e)⟩
    else
      let d := 4 ^ (e - 23)
      let q := isqrtAux (a / d) 24 0
      let r :=
        if (2 * q + 1) * (2 * q + 1) * d < 4 * a
            ∨ ((2 * q + 1) * (2 * q + 1) * d = 4 * a ∧ q % 2 = 1) then q + 1
        else q
      ⟨((r * 2 ^ (e - 23) : Nat) : Int), 1⟩

/-- The `float` nearest to the rational `x`, a tie going to the even
significand: the result of a `float` operation whose exact result is `x`. The
quotient of the numerator scaled by `2 ^ k` and the denominator lies between
2^23 and 2^24 and is rounded to an integer. -/
def floatOfFrac (x : Frac) : Frac :=
  let a := x.num.natAbs
  if a = 0 ∨ x.den = 0 then x
  else
    let s : Int := (bitLength a a : Int) - (bitLength x.den x.den : Int)
    let k0 : Int := 24 - s
    let n0 := (a * 2 ^ k0.toNat) / (x.den * 2 ^ (-k0).toNat)
    let k : Int := if n0 < 16777216 then k0 else k0 - 1
    let n := a * 2 ^ k.toNat
    let d := x.den * 2 ^ (-k).toNat
    let q := n / d
    let r := n % d
    let m := if d < 2 * r ∨ (2 * r = d ∧ q % 2 = 1) then q + 1 else q
    if x.num < 0 then ⟨-((m * 2 ^ (-k).toNat : Nat) : Int), 2 ^ k.toNat⟩
    else ⟨((m * 2 ^ (-k).toNat : Nat) : Int), 2 ^ k.toNat⟩

/-- The radicand of `getDistance` with the differences `x2 - x1` and `y2 - y1`
as the `int` operations they are; the squares and their sum are taken in
`double`, and are exact below 2^53. -/
def getDistanceSq32 (x1 y1 x2 y2 : Int) : Int :=
  wrap32 (x2 - x1) * wrap32 (x2 - x1) + wrap32 (y2 - y1) * wrap32 (y2 - y1)

/-- The method `checkRange` with the distance as the `float` it is. -/
def checkRange32 (c target : Combatant) (range : Frac) : Bool :=
  if c.xPos = -1 ∨ target.xPos = -1 then true
  else !(Frac.gt (floatSqrt (getDistanceSq32 c.xPos c.yPos target.xPos target.yPos)) range)

/-- The loop of `getEffectiveDR` with `dr -= s.potency` as an `int` operation. -/
def acidLoop32 : Int → List StatusEffect → Int
  | dr, [] => dr
  | dr, s :: rest => acidLoop32 (if s.name = "Acid" then wrap32 (dr - s.potency) else dr) rest

/-- The method `getEffectiveDR` in `int` arithmetic. -/
def getEffectiveDR32 (c : Combatant) : Int :=
  let dr := acidLoop32 c.equippedArmor.damageResistance c.statuses
  if dr < -80 then -80 else dr

/-- The value of `baseDR` in `attack` in `int` arithmetic: the effective
resistance, the guard bonus and the second floor. -/
def attackBaseDR32 (target : Combatant) : Int :=
  let dr0 := getEffectiveDR32 target
  let dr1 := if target.guarding = true then wrap32 (dr0 + 100) else dr0
  if dr1 < -80 then -80 else dr1

/-- The value of `finalDamage` in `attack` after the else branch of a
non-critical hit, before the elemental multiplier, in `int` arithmetic. -/
def resistedDamage32 (attacker target : Combatant) (r : AttackRoll) : Int :=
  let productDamage :=
    (wrap32 (attacker.equippedWeapon.physicalAttack * getRandomInt 7 13 r.multiplier)).tdiv 10
  let afterThreshold := wrap32 (productDamage - target.equippedArmor.damageThreshold)
  let damageAfterThreshold := if afterThreshold < 1 then 1 else afterThreshold
  (wrap32 (damageAfterThreshold * 100)).tdiv (wrap32 (100 + attackBaseDR32 target))

/-- The damage computation of `attack` for a sub-attack that hits, in machine
arithmetic: the critical test against `0.05f`, the `int` operations modulo
2^32 and the elemental multiplier applied in `float`. -/
def hitDamage32 (attacker target : Combatant) (r : AttackRoll) : HitDamage :=
  let weapon := attacker.equippedWeapon
  let armor := target.equippedArmor
  let multiplier := getRandomInt 7 13 r.multiplier
  let productDamage := (wrap32 (weapon.physicalAttack * multiplier)).tdiv 10
  let isCrit := Frac.le r.crit float005
  let critDamage := if isCrit = true then productDamage else 0
  let resisted := if isCrit = true then 0 else resistedDamage32 attacker target r
  let elemMult := getElementalMultiplier weapon.elementType armor.elementType
  { productDamage := productDamage
    finalDamage := scaleByFloat resisted elemMult
    critDamage := critDamage }

/-- The body of the loop of `attack` for a living target, in machine
arithmetic: the hit chance is the `float` difference of accuracy and evasion;
of `finalDamage` and `critDamage` one is 0, so their sum does not overflow. -/
def attackStep32 (w : World) (self target : Nat) (r : AttackRoll) : World :=
  let weapon := (w.get self).equippedWeapon
  let hitChance := floatOfFrac (Frac.sub weapon.accuracy (w.get target).equippedArmor.evasion)
  if Frac.gt r.hit hitChance = true then w
  else
    let d := hitDamage32 (w.get self) (w.get target) r
    takeDamage (elementalSideEffect w self target weapon.elementType d.productDamage d.finalDamage)
      target (d.finalDamage + d.critDamage) weapon.elementType true

/-- The loop of `attack` in machine arithmetic. -/
def attackLoop32 (self target : Nat) (rolls : Nat → AttackRoll) : Nat → Nat → World → World
  | 0, _, w => w
  | n + 1, i, w =>
    if (w.get target).isAlive = true then
      attackLoop32 self target rolls n (i + 1) (attackStep32 w self target (rolls i))
    else w

/-- The method `attack` in machine arithmetic. -/
def attack32 (w : World) (self target : Nat) (rolls : Nat → AttackRoll) : Bool × World :=
  if checkRange32 (w.get self) (w.get target) (w.get self).equippedWeapon.range = false then
    (false, w)
  else (true, attackLoop32 self target rolls (w.get self).equippedWeapon.numberOfAttacks.toNat 0 w)

/-- The value of `baseDR` in `attack` with the statement
`if (baseDR < -80) baseDR = -80;` removed, in `int` arithmetic. -/
def attackBaseDRUnfloored32 (target : Combatant) : Int :=
  let dr0 := getEffectiveDR32 target
  if target.guarding = true then wrap32 (dr0 + 100) else dr0

/-- The damage computation of `attack` with the second floor removed. -/
def hitDamageUnfloored32 (attacker target : Combatant) (r : AttackRoll) : HitDamage :=
  let weapon := attacker.equippedWeapon
  let armor := target.equippedArmor
  let multiplier := getRandomInt 7 13 r.multiplier
  let productDamage := (wrap32 (weapon.physicalAttack * multiplier)).tdiv 10
  let isCrit := Frac.le r.crit float005
  let critDamage := if isCrit = true then productDamage else 0
  let resisted :=
    if isCrit = true then 0
    else
      let afterThreshold := wrap32 (productDamage - armor.damageThreshold)
      let damageAfterThreshold := if afterThreshold < 1 then 1 else afterThreshold
      (wrap32 (damageAfterThreshold * 100)).tdiv (wrap32 (100 + attackBaseDRUnfloored32 target))
  let elemMult := getElementalMultiplier weapon.elementType armor.elementType
  { productDamage := productDamage
    finalDamage := scaleByFloat resisted elemMult
    critDamage := critDamage }

/-- The body of the loop of `attack` with the second floor removed. -/
def attackStepUnfloored32 (w : World) (self target : Nat) (r : AttackRoll) : World :=
  let weapon := (w.get self).equippedWeapon
  let hitChance := floatOfFrac (Frac.sub weapon.accuracy (w.get target).equippedArmor.evasion)
  if Frac.gt r.hit hitChance = true then w
  else
    let d := hitDamageUnfloored32 (w.get self) (w.get target) r
    takeDamage (elementalSideEffect w self target weapon.elementType d.productDamage d.finalDamage)
      target (d.finalDamage + d.critDamage) weapon.elementType true

/-- The loop of `attack` with the second floor removed. -/
def attackLoopUnfloored32 (self target : Nat) (rolls : Nat → AttackRoll) :
    Nat → Nat → World → World
  | 0, _, w => w
  | n + 1, i, w =>
    if (w.get target).isAlive = true then
      attackLoopUnfloored32 self target rolls n (i + 1)
        (attackStepUnfloored32 w self target (rolls i))
    else w

/-- The method `attack` with the second floor of `baseDR` removed. -/
def attackUnfloored32 (w : World) (self target : Nat) (rolls : Nat → AttackRoll) : Bool × World :=
  if checkRange32 (w.get self) (w.get target) (w.get self).equippedWeapon.range = false then
    (false, w)
  else
    (true,
      attackLoopUnfloored32 self target rolls (w.get self).equippedWeapon.numberOfAttacks.toNat 0 w)

/-- The damage of `applySpellEffect` on a victim in machine arithmetic. -/
def spellDamage32 (spell : Spell) (victim : Combatant) : Int :=
  let damage := (wrap32 (spell.magicalAttack * 100)).tdiv (wrap32 (100 + spellMagicDef victim))
  scaleByFloat damage (getElementalMultiplier spell.elementType victim.equippedArmor.elementType)

/-- The lambda `applySpellEffect` of `castSpell` in machine arithmetic. -/
def applySpellEffect32 (w : World) (self victim : Nat) (spell : Spell) : World :=
  let damage := spellDamage32 spell (w.get victim)
  takeDamage (elementalSideEffect w self victim spell.elementType spell.magicalAttack damage)
    victim damage spell.elementType true

/-- The body of the scan of `castSpell` at cell `p = (x, y)` in machine
arithmetic: the test `dist <= spell.aoe` compares the `float` distance with
`aoe` converted to `float`. -/
def castSpellCell32 (self target : Nat) (spell : Spell) (w : World) (p : Int × Int) : World :=
  match w.grid.getCombatantAt p.1 p.2 with
  | none => w
  | some potential =>
    if (w.get potential).isAlive = true then
      if Frac.le (floatSqrt (getDistanceSq32 (w.get target).xPos (w.get target).yPos p.1 p.2))
          (Frac.ofInt (floatOfInt spell.aoe)) = true then
        if spell.category = "Buff" then
          (if (w.get potential).team = (w.get self).team then
            applySpellEffect32 w self potential spell
           else w)
        else
          (if (w.get potential).team = (w.get self).team then w
           else applySpellEffect32 w self potential spell)
      else w
    else w

/-- The method `castSpell` in machine arithmetic. -/
def castSpell32 (w : World) (self target : Nat) (spellIndex : Int) : Bool × World :=
  if spellIndex < 0 ∨ spellIndex ≥ (w.get self).knownSpells.length then (false, w)
  else
    match (w.get self).knownSpells[spellIndex.toNat]? with
    | none => (false, w)
    | some spell =>
      if (w.get self).currentMagicPoints < spell.mpCost then (false, w)
      else if checkRange32 (w.get self) (w.get target) spell.range = false then (false, w)
      else
        let w1 := w.upd self (fun c => c.spendMP spell.mpCost)
        if (w1.get target).xPos = -1 then (false, w1)
        else (true, w1.grid.scanOrder.foldl (castSpellCell32 self target spell) w1)

/-- The bound of the magnitudes below which no `int` operation of the damage
computations overflows and every amount is exact in `float`. -/
def RANGE : Int := 1000000

/-- The Acid statuses of the combatant have no negative potency and their
potencies sum to at most `slack`. -/
def Combatant.AcidInRange (c : Combatant) (slack : Int) : Prop :=
  (∀ s ∈ c.statuses, s.name = "Acid" → 0 ≤ s.potency) ∧ acidSum c.statuses ≤ slack

instance (c : Combatant) (slack : Int) : Decidable (c.AcidInRange slack) := by
  unfold Combatant.AcidInRange; infer_instance

/-- A critical roll that stands for the outcome `b` of the critical test. -/
def critAs (b : Bool) : Frac := if b = true then ⟨0, 1⟩ else ⟨1, 1⟩

/-- The draws `r` with the critical roll replaced by the outcome of the test
against `0.05f`. -/
def machineRoll (r : AttackRoll) : AttackRoll :=
  ⟨r.hit, r.multiplier, critAs (Frac.le r.crit float005)⟩

/-- The draws `machineRoll r` with a hit roll that equals the exact hit chance
of `a` against `t`, so that the sub-attack hits. -/
def hitRoll (a t : Combatant) (r : AttackRoll) : AttackRoll :=
  ⟨Frac.sub a.equippedWeapon.accuracy t.equippedArmor.evasion, r.multiplier,
    critAs (Frac.le r.crit float005)⟩

/-- The value of `finalDamage` in `attack` after the else branch of a
non-critical hit, before the elemental multiplier, in exact arithmetic. -/
def resistedDamage (attacker target : Combatant) (r : AttackRoll) : Int :=
  let productDamage :=
    (attacker.equippedWeapon.physicalAttack * getRandomInt 7 13 r.multiplier).tdiv 10
  let damageAfterThreshold :=
    if productDamage - target.equippedArmor.damageThreshold < 1 then 1
    else productDamage - target.equippedArmor.damageThreshold
  (damageAfterThreshold * 100).tdiv (100 + attackBaseDR target)

/-- The values the damage computation of `attack` reads from the attacker `a`
and the target `t` are within `RANGE`, and the Acid statuses of the target
within `slack`. -/
def HitInRange (a t : Combatant) (slack : Int) : Prop :=
  (-RANGE ≤ a.equippedWeapon.physicalAttack ∧ a.equippedWeapon.physicalAttack ≤ RANGE)
  ∧ (-RANGE ≤ t.equippedArmor.damageThreshold ∧ t.equippedArmor.damageThreshold ≤ RANGE)
  ∧ (-RANGE ≤ t.equippedArmor.damageResistance ∧ t.equippedArmor.damageResistance ≤ RANGE)
  ∧ t.AcidInRange slack

instance (a t : Combatant) (slack : Int) : Decidable (HitInRange a t slack) := by
  unfold HitInRange; infer_instance

/-- A guarding target in armor of resistance 2147483600. -/
def hugeResistTarget : Combatant :=
  { c1Target with
    guarding := true,
    equippedArmor := { Armor.naked with damageResistance := 2147483600 } }

/-- The world `c1World` with the guarding target of resistance 2147483600. -/
def hugeResistWorld : World := ⟨[c1Caster, hugeResistTarget], c1Grid⟩

/-- The caster of `c1World` with a weapon of attack 30000000. -/
def bigAttacker : Combatant :=
  { c1Caster with equippedWeapon := { c1Caster.equippedWeapon with physicalAttack := 30000000 } }

/-- A target with 100/100 health at (1, 0). -/
def c1Target100 : Combatant :=
  { Combatant.create "B" "Bad Guys" 100 5 0 0 with xPos := 1, yPos := 0 }

/-- An attacker with a weapon of attack 30000000 next to a target of 100/100
health. -/
def bigAttackWorld : World := ⟨[bigAttacker, c1Target100], c1Grid⟩

/-- An attacker with a weapon of attack 16777217 = 2^24 + 1. -/
def oddAttacker : Combatant :=
  { c1Caster with equippedWeapon := { c1Caster.equippedWeapon with physicalAttack := 16777217 } }

/-- The target of resistance 2147483600, not guarding. -/
def hugeResistUnguarded : Combatant := { hugeResistTarget with guarding := false }

/-- A target in armor of magical defense 2147483600. -/
def hugeMagicDefTarget : Combatant :=
  { c1Target with equippedArmor := { Armor.naked with magicalDefense := 2147483600 } }

/-- A target with 20000000/20000000 health at (1, 0). -/
def sturdyTarget : Combatant :=
  { Combatant.create "B" "Bad Guys" 20000000 5 0 0 with xPos := 1, yPos := 0 }

/-- The attacker with the weapon of attack 16777217 next to the target of
20000000 health. -/
def oddAttackWorld : World := ⟨[oddAttacker, sturdyTarget], c1Grid⟩

/-- The method `useItem` with the range check on the `float` distance. -/
def useItem32 (w : World) (self target : Nat) (itemIndex : Int) : Bool × World :=
  if itemIndex < 0 ∨ itemIndex ≥ (w.get self).inventory.length then (false, w)
  else
    match (w.get self).inventory[itemIndex.toNat]? with
    | none => (false, w)
    | some item =>
      if item.quantity ≤ 0 then (false, w)
      else if checkRange32 (w.get self) (w.get target) item.range = false then (false, w)
      else
        let w1 := w.upd self (fun c => c.consumeItem itemIndex.toNat)
        if item.category = "Healing" then (true, w1.upd target (fun c => c.heal item.potency))
        else if item.category = "RestoreMP" then
          (true, w1.upd target (fun c => c.restoreMP item.potency))
        else (true, w1)

/-- The stored position of the combatant is within 2^24 = 16777216 of the
origin, so that the differences of `getDistance` do not overflow and its
radicand is below 2^52. -/
def Combatant.PositionInRange (c : Combatant) : Prop :=
  (-16777216 ≤ c.xPos ∧ c.xPos ≤ 16777216) ∧ (-16777216 ≤ c.yPos ∧ c.yPos ≤ 16777216)

instance (c : Combatant) : Decidable c.PositionInRange := by
  unfold Combatant.PositionInRange; infer_instance

/-- The magnitudes of the combatant are within `RANGE`, so that no `int`
operation of `attack`, `castSpell`, `useItem`, `heal` and `restoreMP` on it
overflows and every damage is exact in `float`: the maxima of health and mana,
the attack of the weapon, the threshold, the resistance and the magical defense
of the armor, the attack of the spells and the potency of the items are at most
1000000 (threshold and resistance also at least -1000000), the weapon has at
most 100 attacks, the Acid potencies are not negative and sum to at most
1000000, and the position is within 16777216 of the origin. -/
def Combatant.InRange (c : Combatant) : Prop :=
  c.maxHealth ≤ RANGE ∧ c.maxMagicPoints ≤ RANGE
  ∧ c.equippedWeapon.physicalAttack ≤ RANGE
  ∧ c.equippedWeapon.numberOfAttacks ≤ 100
  ∧ (-RANGE ≤ c.equippedArmor.damageThreshold ∧ c.equippedArmor.damageThreshold ≤ RANGE)
  ∧ (-RANGE ≤ c.equippedArmor.damageResistance ∧ c.equippedArmor.damageResistance ≤ RANGE)
  ∧ c.equippedArmor.magicalDefense ≤ RANGE
  ∧ (∀ s ∈ c.knownSpells, s.magicalAttack ≤ RANGE)
  ∧ (∀ i ∈ c.inventory, i.potency ≤ RANGE)
  ∧ c.AcidInRange RANGE
  ∧ c.PositionInRange

instance (c : Combatant) : Decidable c.InRange := by unfold Combatant.InRange; infer_instance

/-- Every combatant of the world has its magnitudes within `RANGE`. -/
def World.InRange (w : World) : Prop := ∀ c ∈ w.combatants, c.InRange

instance (w : World) : Decidable w.InRange := by unfold World.InRange; infer_instance

/-- The grid is at most 16777216 = 2^24 cells wide and high and every
combatant has its magnitudes and its position in range. -/
def World.SpellInRange (w : World) : Prop :=
  (w.grid.width ≤ 16777216 ∧ w.grid.height ≤ 16777216) ∧ w.InRange

instance (w : World) : Decidable w.SpellInRange := by unfold World.SpellInRange; infer_instance

/-- A spell of radius 4096. -/
def wideSpell : Spell := { areaSpell with aoe := 4096 }

/-- A grid of 4097 by 2 cells with the caster at (0, 1), the primary target at
(0, 0) and a second opponent at (4096, 1), at squared distance 4096^2 + 1 from
the primary target. -/
def wideWorld : World :=
  ⟨[ { Combatant.create "A" "Good Guys" 10 5 0 0 with
        xPos := 0, yPos := 1, knownSpells := [wideSpell] },
     { Combatant.create "B" "Bad Guys" 10 5 0 0 with xPos := 0, yPos := 0 },
     { Combatant.create "C" "Bad Guys" 10 5 0 0 with xPos := 4096, yPos := 1 } ],
   (((Grid.create 4097 2).setCell 0 1 (some 0)).setCell 0 0 (some 1)).setCell 4096 1 (some 2)⟩

/-! # Theorems -/

theorem pair_swap (a b x y : String) :
    ((b = x ∧ a = y) ∨ (b = y ∧ a = x)) ↔ ((a = x ∧ b = y) ∨ (a = y ∧ b = x)) := by
  tauto

theorem not_or8 {A B C D E F G H : Prop} (h : ¬ (A ∨ B ∨ C ∨ D ∨ E ∨ F ∨ G ∨ H)) :
    ¬ (A ∨ B) ∧ ¬ (C ∨ D) ∧ ¬ (E ∨ F) ∧ ¬ (G ∨ H) := by
  tauto

theorem getElementalMultiplier_comm (a b : String) :
    getElementalMultiplier a b = getElementalMultiplier b a := by
  by_cases hab : a = b
  · subst hab; rfl
  · have hba : ¬ b = a := fun h => hab h.symm
    unfold getElementalMultiplier
    simp only [hab, hba, false_and, if_false]
    simp only [pair_swap a b "Fire" "Ice", pair_swap a b "Psi" "Bio",
      pair_swap a b "Electricity" "Earth", pair_swap a b "Wind" "Poison"]

theorem getElementalMultiplier_same (a : String) (h1 : a ≠ "None") (h2 : a ≠ "") :
    getElementalMultiplier a a = ⟨1, 2⟩ := by
  unfold getElementalMultiplier
  rw [if_pos ⟨rfl, h1, h2⟩]

theorem getElementalMultiplier_opposed (a b : String) (h : opposedElements a b) :
    getElementalMultiplier a b = ⟨2, 1⟩ := by
  unfold opposedElements at h
  rcases h with h | h | h | h | h | h | h | h <;> obtain ⟨rfl, rfl⟩ := h <;> decide

theorem getElementalMultiplier_other (a b : String)
    (h1 : ¬ (a = b ∧ a ≠ "None" ∧ a ≠ "")) (h2 : ¬ opposedElements a b) :
    getElementalMultiplier a b = ⟨1, 1⟩ := by
  unfold opposedElements at h2
  obtain ⟨n1, n2, n3, n4⟩ := not_or8 h2
  unfold getElementalMultiplier
  rw [if_neg h1, if_neg n1, if_neg n2, if_neg n3, if_neg n4]

/-- C8: getElementalMultiplier gives the same value for (a, b) and (b, a); it is
0.5 for an element against itself unless the element is "None" or the empty
string; it is 2.0 for the pairs Fire/Ice, Psi/Bio, Electricity/Earth and
Wind/Poison in either order; and it is 1.0 for every other pair, None/None and
empty/empty included. -/
theorem C8_getElementalMultiplier_table (a b : String) :
    getElementalMultiplier a b = getElementalMultiplier b a
    ∧ (a = b ∧ a ≠ "None" ∧ a ≠ "" → getElementalMultiplier a b = ⟨1, 2⟩)
    ∧ (opposedElements a b → getElementalMultiplier a b = ⟨2, 1⟩)
    ∧ (¬ (a = b ∧ a ≠ "None" ∧ a ≠ "") ∧ ¬ opposedElements a b →
        getElementalMultiplier a b = ⟨1, 1⟩)
    ∧ getElementalMultiplier "None" "None" = ⟨1, 1⟩
    ∧ getElementalMultiplier "" "" = ⟨1, 1⟩ := by
  refine ⟨getElementalMultiplier_comm a b, ?_, getElementalMultiplier_opposed a b, ?_, ?_, ?_⟩
  · rintro ⟨rfl, h1, h2⟩
    exact getElementalMultiplier_same a h1 h2
  · rintro ⟨h1, h2⟩
    exact getElementalMultiplier_other a b h1 h2
  · decide
  · decide

theorem winnerLoop_eq (w : World) (ps : List Nat) :
    ∀ fl : Bool × Bool, winnerLoop w fl ps =
      (fl.1 || teamAlive w ps "Good Guys", fl.2 || teamAlive w ps "Bad Guys") := by
  induction ps with
  | nil => intro fl; simp [winnerLoop, teamAlive]
  | cons c rest ih =>
    intro fl
    unfold winnerLoop
    by_cases ha : (w.get c).isAlive = true
    · rw [if_pos ha, ih]
      by_cases hg : (w.get c).team = "Good Guys" <;> by_cases hb : (w.get c).team = "Bad Guys" <;>
        simp [teamAlive, ha, hg, hb, List.any_cons]
    · rw [if_neg ha, ih]
      simp [teamAlive, ha, List.any_cons]

theorem getWinner_eq (w : World) (ps : List Nat) :
    getWinner w ps =
      (if teamAlive w ps "Good Guys" = false ∧ teamAlive w ps "Bad Guys" = false then "Draw"
       else if teamAlive w ps "Good Guys" = false then "Bad Guys"
       else if teamAlive w ps "Bad Guys" = false then "Good Guys"
       else "None") := by
  unfold getWinner
  rw [winnerLoop_eq]
  simp

theorem teamAlive_false_of_none (w : World) (ps : List Nat) (t : String)
    (h : ∀ p ∈ ps, (w.get p).isAlive = false) : teamAlive w ps t = false := by
  unfold teamAlive
  rw [List.any_eq_false]
  intro p hp
  simp [h p hp]

/-- C3: on a roster whose participants all belong to "Good Guys" or "Bad Guys",
getWinner returns "Draw" when no participant is alive, "Good Guys" when only
Good Guys have a living member, "Bad Guys" when only Bad Guys have one, and
"None" when both teams have one. -/
theorem C3_getWinner_two_teams (w : World) (ps : List Nat)
    (hteams : ∀ p ∈ ps, (w.get p).team = "Good Guys" ∨ (w.get p).team = "Bad Guys") :
    (getWinner w ps = "Draw" ↔ ∀ p ∈ ps, (w.get p).isAlive = false)
    ∧ (teamAlive w ps "Good Guys" = true ∧ teamAlive w ps "Bad Guys" = false →
        getWinner w ps = "Good Guys")
    ∧ (teamAlive w ps "Bad Guys" = true ∧ teamAlive w ps "Good Guys" = false →
        getWinner w ps = "Bad Guys")
    ∧ (teamAlive w ps "Good Guys" = true ∧ teamAlive w ps "Bad Guys" = true →
        getWinner w ps = "None") := by
  rw [getWinner_eq]
  refine ⟨?_, ?_, ?_, ?_⟩
  · constructor
    · intro h p hp
      by_cases hg : teamAlive w ps "Good Guys" = false
      · by_cases hb : teamAlive w ps "Bad Guys" = false
        · cases ha : (w.get p).isAlive
          · rfl
          · exfalso
            unfold teamAlive at hg hb
            rw [List.any_eq_false] at hg hb
            have h1 := hg p hp
            have h2 := hb p hp
            rcases hteams p hp with ht | ht <;> simp [ha, ht] at h1 h2
        · rw [if_neg (fun h => hb h.2), if_pos hg] at h
          exact absurd h (by decide)
      · rw [if_neg (fun h => hg h.1), if_neg hg] at h
        by_cases hb : teamAlive w ps "Bad Guys" = false
        · rw [if_pos hb] at h; exact absurd h (by decide)
        · rw [if_neg hb] at h; exact absurd h (by decide)
    · intro h
      rw [if_pos ⟨teamAlive_false_of_none w ps _ h, teamAlive_false_of_none w ps _ h⟩]
  · rintro ⟨hg, hb⟩
    simp [hg, hb]
  · rintro ⟨hb, hg⟩
    simp [hg, hb]
  · rintro ⟨hg, hb⟩
    simp [hg, hb]

theorem C3_getWinner_two_teams_witness :
    (∀ p ∈ [0, 1], (c3World.get p).team = "Good Guys" ∨ (c3World.get p).team = "Bad Guys")
    ∧ getWinner c3World [0, 1] = "Good Guys" :=
  ⟨by decide, (C3_getWinner_two_teams c3World [0, 1] (by decide)).2.1 (by decide)⟩

theorem nextLoop_inv (w : World) (rest : List Nat) :
    ∀ (minInit : Int) (tied seen : List Nat),
      (∀ p ∈ rest, (w.get p).initiative ≤ INT_MAX) →
      NextInv w minInit tied seen →
      NextInv w (nextLoop w minInit tied rest).1 (nextLoop w minInit tied rest).2 (seen ++ rest) := by
  induction rest with
  | nil => intro m tied seen _ h; simpa [nextLoop] using h
  | cons c rest ih =>
    intro m tied seen hmax hinv
    obtain ⟨i1, i2, i3⟩ := hinv
    have hmax' : ∀ p ∈ rest, (w.get p).initiative ≤ INT_MAX :=
      fun p hp => hmax p (List.mem_cons_of_mem _ hp)
    have hc := hmax c (List.mem_cons_self _ _)
    have happ : seen ++ c :: rest = (seen ++ [c]) ++ rest := by simp
    rw [happ]
    unfold nextLoop
    by_cases ha : (w.get c).isAlive = false
    · rw [if_pos ha]
      apply ih m tied (seen ++ [c]) hmax'
      refine ⟨?_, ?_, ?_⟩
      · intro k hk
        obtain ⟨a, b, d⟩ := i1 k hk
        exact ⟨List.mem_append_left _ a, b, d⟩
      · intro q hq hqa
        rcases List.mem_append.mp hq with hq | hq
        · exact i2 q hq hqa
        · rw [List.mem_singleton] at hq
          subst hq
          rw [ha] at hqa
          exact Bool.noConfusion hqa
      · intro ht
        obtain ⟨a, b⟩ := i3 ht
        refine ⟨?_, b⟩
        intro q hq
        rcases List.mem_append.mp hq with hq | hq
        · exact a q hq
        · rw [List.mem_singleton] at hq
          subst hq
          exact ha
    · rw [if_neg ha]
      have ha' : (w.get c).isAlive = true := by
        cases h : (w.get c).isAlive
        · exact absurd h ha
        · rfl
      by_cases hlt : (w.get c).initiative < m
      · rw [if_pos hlt]
        apply ih _ [c] (seen ++ [c]) hmax'
        refine ⟨?_, ?_, ?_⟩
        · intro k hk
          rw [List.mem_singleton] at hk
          subst hk
          exact ⟨List.mem_append_right _ (List.mem_singleton.mpr rfl), ha', rfl⟩
        · intro q hq hqa
          rcases List.mem_append.mp hq with hq | hq
          · exact le_trans (le_of_lt hlt) (i2 q hq hqa)
          · rw [List.mem_singleton] at hq
            subst hq
            exact le_refl _
        · intro ht
          exact absurd ht (List.cons_ne_nil _ _)
      · rw [if_neg hlt]
        by_cases heq : (w.get c).initiative = m
        · rw [if_pos heq]
          apply ih m (tied ++ [c]) (seen ++ [c]) hmax'
          refine ⟨?_, ?_, ?_⟩
          · intro k hk
            rcases List.mem_append.mp hk with hk | hk
            · obtain ⟨a, b, d⟩ := i1 k hk
              exact ⟨List.mem_append_left _ a, b, d⟩
            · rw [List.mem_singleton] at hk
              subst hk
              exact ⟨List.mem_append_right _ (List.mem_singleton.mpr rfl), ha', heq⟩
          · intro q hq hqa
            rcases List.mem_append.mp hq with hq | hq
            · exact i2 q hq hqa
            · rw [List.mem_singleton] at hq
              subst hq
              exact le_of_eq heq.symm
          · intro ht
            exact absurd ht (by simp)
        · rw [if_neg heq]
          have hgt : m < (w.get c).initiative :=
            lt_of_le_of_ne (not_lt.mp hlt) (fun h => heq h.symm)
          have hne : tied ≠ [] := by
            intro ht
            have := (i3 ht).2
            rw [this] at hgt
            exact absurd hc (not_le.mpr hgt)
          apply ih m tied (seen ++ [c]) hmax'
          refine ⟨?_, ?_, ?_⟩
          · intro k hk
            obtain ⟨a, b, d⟩ := i1 k hk
            exact ⟨List.mem_append_left _ a, b, d⟩
          · intro q hq hqa
            rcases List.mem_append.mp hq with hq | hq
            · exact i2 q hq hqa
            · rw [List.mem_singleton] at hq
              subst hq
              exact le_of_lt hgt
          · intro ht
            exact absurd ht hne

theorem nextLoop_final (w : World) (ps : List Nat)
    (hmax : ∀ p ∈ ps, (w.get p).initiative ≤ INT_MAX) :
    NextInv w (nextLoop w INT_MAX [] ps).1 (nextLoop w INT_MAX [] ps).2 ps := by
  have h := nextLoop_inv w ps INT_MAX [] [] hmax
    ⟨fun c hc => absurd hc (List.not_mem_nil c), fun q hq => absurd hq (List.not_mem_nil q),
      fun _ => ⟨fun q hq => absurd hq (List.not_mem_nil q), rfl⟩⟩
  simpa using h

theorem getRandomInt_index (n raw : Nat) (hn : 0 < n) :
    (getRandomInt 0 ((n : Int) - 1) raw).toNat < n := by
  unfold getRandomInt
  have h1 : ((n : Int) - 1 - 0 + 1).toNat = n := by
    have : ((n : Int) - 1 - 0 + 1) = (n : Int) := by ring
    rw [this]
    exact Int.toNat_natCast n
  rw [h1]
  have h2 : (0 : Int) + ((raw % n : Nat) : Int) = ((raw % n : Nat) : Int) := by ring
  rw [h2, Int.toNat_natCast]
  exact Nat.mod_lt _ hn

/-- The result of `getNextActiveCombatant` is an element of the tied list, and
it is `none` only when that list is empty. -/
theorem getNext_mem (w : World) (ps : List Nat) (raw : Nat) :
    ((nextLoop w INT_MAX [] ps).2 = [] ∧ getNextActiveCombatant w ps raw = none)
    ∨ (∃ c ∈ (nextLoop w INT_MAX [] ps).2, getNextActiveCombatant w ps raw = some c) := by
  unfold getNextActiveCombatant
  generalize (nextLoop w INT_MAX [] ps).2 = tied
  cases tied with
  | nil => left; simp
  | cons a l =>
    right
    simp only [List.isEmpty_cons, Bool.false_eq_true, if_false]
    by_cases h1 : (a :: l).length = 1
    · rw [if_pos h1]
      exact ⟨a, List.mem_cons_self _ _, by simp⟩
    · rw [if_neg h1]
      have hidx := getRandomInt_index (a :: l).length raw (by simp)
      refine ⟨(a :: l)[(getRandomInt 0 (((a :: l).length : Int) - 1) raw).toNat], ?_, ?_⟩
      · exact List.getElem_mem _
      · exact List.getElem?_eq_getElem hidx

/-- C2: getNextActiveCombatant returns none exactly when no participant is
alive; otherwise it returns a participant that is alive (health above 0 and
not fled) and whose initiative is at most that of every living participant. -/
theorem C2_getNextActiveCombatant_min_alive (w : World) (ps : List Nat) (raw : Nat)
    (hmax : ∀ p ∈ ps, (w.get p).initiative ≤ INT_MAX) :
    (getNextActiveCombatant w ps raw = none ↔ ∀ p ∈ ps, (w.get p).isAlive = false)
    ∧ (∀ c, getNextActiveCombatant w ps raw = some c →
        c ∈ ps ∧ (w.get c).isAlive = true
        ∧ (w.get c).currentHealth > 0 ∧ (w.get c).fled = false
        ∧ ∀ q ∈ ps, (w.get q).isAlive = true → (w.get c).initiative ≤ (w.get q).initiative) := by
  obtain ⟨i1, i2, i3⟩ := nextLoop_final w ps hmax
  constructor
  · constructor
    · intro hnone
      rcases getNext_mem w ps raw with ⟨ht, _⟩ | ⟨c, _, hc⟩
      · exact (i3 ht).1
      · rw [hc] at hnone
        exact Option.noConfusion hnone
    · intro hdead
      rcases getNext_mem w ps raw with ⟨_, hn⟩ | ⟨c, hc, _⟩
      · exact hn
      · obtain ⟨a, b, _⟩ := i1 c hc
        rw [hdead c a] at b
        exact Bool.noConfusion b
  · intro c hc
    rcases getNext_mem w ps raw with ⟨_, hn⟩ | ⟨k, hk, hs⟩
    · rw [hn] at hc
      exact Option.noConfusion hc
    · rw [hs] at hc
      have hkc : k = c := Option.some.inj hc
      subst hkc
      obtain ⟨a, b, d⟩ := i1 k hk
      have hb := b
      unfold Combatant.isAlive at hb
      simp only [Bool.and_eq_true, decide_eq_true_eq, Bool.not_eq_true'] at hb
      refine ⟨a, b, hb.1, hb.2, ?_⟩
      intro q hq hqa
      rw [d]
      exact i2 q hq hqa

theorem C2_getNextActiveCombatant_min_alive_witness :
    (∀ p ∈ [0, 1, 2], (c2World.get p).initiative ≤ INT_MAX)
    ∧ (getNextActiveCombatant c2World [0, 1, 2] 5 = some 2)
    ∧ (2 ∈ [0, 1, 2] ∧ (c2World.get 2).isAlive = true
        ∧ (c2World.get 2).currentHealth > 0 ∧ (c2World.get 2).fled = false
        ∧ ∀ q ∈ [0, 1, 2], (c2World.get q).isAlive = true →
            (c2World.get 2).initiative ≤ (c2World.get q).initiative) :=
  ⟨by decide, by decide,
    (C2_getNextActiveCombatant_min_alive c2World [0, 1, 2] 5 (by decide)).2 2 (by decide)⟩

theorem length_updAt {α : Type} (l : List α) (f : α → α) : ∀ n, (updAt l n f).length = l.length := by
  induction l with
  | nil => intro n; rfl
  | cons a l ih =>
    intro n
    cases n with
    | zero => rfl
    | succ n => simp [updAt, ih]

theorem getD_updAt_same {α : Type} (l : List α) (f : α → α) (d : α) :
    ∀ n, n < l.length → (updAt l n f).getD n d = f (l.getD n d) := by
  induction l with
  | nil => intro n h; simp at h
  | cons a l ih =>
    intro n h
    cases n with
    | zero => rfl
    | succ n =>
      simp only [updAt, List.getD_cons_succ]
      exact ih n (by simpa using h)

theorem getD_updAt_ne {α : Type} (l : List α) (f : α → α) (d : α) :
    ∀ n m, m ≠ n → (updAt l n f).getD m d = l.getD m d := by
  induction l with
  | nil => intro n m _; rfl
  | cons a l ih =>
    intro n m h
    cases n with
    | zero =>
      cases m with
      | zero => exact absurd rfl h
      | succ m => rfl
    | succ n =>
      cases m with
      | zero => rfl
      | succ m =>
        simp only [updAt, List.getD_cons_succ]
        exact ih n m (fun e => h (by rw [e]))

theorem updAt_of_length_le {α : Type} (l : List α) (f : α → α) :
    ∀ n, l.length ≤ n → updAt l n f = l := by
  induction l with
  | nil => intro n _; rfl
  | cons a l ih =>
    intro n h
    cases n with
    | zero => simp at h
    | succ n =>
      simp only [updAt]
      rw [ih n (by simpa using h)]

theorem mem_updAt {α : Type} (l : List α) (f : α → α) (b : α) :
    ∀ n, b ∈ updAt l n f → b ∈ l ∨ ∃ a ∈ l, b = f a := by
  induction l with
  | nil => intro n h; cases n <;> simp [updAt] at h
  | cons a l ih =>
    intro n h
    cases n with
    | zero =>
      simp only [updAt, List.mem_cons] at h
      rcases h with h | h
      · exact Or.inr ⟨a, List.mem_cons_self _ _, h⟩
      · exact Or.inl (List.mem_cons_of_mem _ h)
    | succ n =>
      simp only [updAt, List.mem_cons] at h
      rcases h with h | h
      · exact Or.inl (by rw [h]; exact List.mem_cons_self _ _)
      · rcases ih n h with h | ⟨k, hk, e⟩
        · exact Or.inl (List.mem_cons_of_mem _ h)
        · exact Or.inr ⟨k, List.mem_cons_of_mem _ hk, e⟩

theorem getD_mem_or_default {α : Type} (l : List α) (d : α) :
    ∀ n, n < l.length → l.getD n d ∈ l := by
  induction l with
  | nil => intro n h; simp at h
  | cons a l ih =>
    intro n h
    cases n with
    | zero => exact List.mem_cons_self _ _
    | succ n =>
      simp only [List.getD_cons_succ]
      exact List.mem_cons_of_mem _ (ih n (by simpa using h))

/-! ### The world as a store -/

theorem World.get_upd_same (w : World) (i : Nat) (f : Combatant → Combatant)
    (h : i < w.combatants.length) : (w.upd i f).get i = f (w.get i) :=
  getD_updAt_same w.combatants f default i h

theorem World.get_upd_ne (w : World) (i j : Nat) (f : Combatant → Combatant) (h : j ≠ i) :
    (w.upd i f).get j = w.get j :=
  getD_updAt_ne w.combatants f default i j h

theorem World.upd_grid (w : World) (i : Nat) (f : Combatant → Combatant) :
    (w.upd i f).grid = w.grid := rfl

theorem Grid.setCell_width (g : Grid) (x y : Int) (v : Option Nat) :
    (g.setCell x y v).width = g.width := by
  unfold Grid.setCell; split <;> rfl

theorem Grid.setCell_height (g : Grid) (x y : Int) (v : Option Nat) :
    (g.setCell x y v).height = g.height := by
  unfold Grid.setCell; split <;> rfl

theorem Grid.setCell_WF (g : Grid) (x y : Int) (v : Option Nat) (h : g.WF) :
    (g.setCell x y v).WF := by
  unfold Grid.setCell
  split
  · exact h
  · refine ⟨?_, ?_⟩
    · show (updAt g.combatantMap _ _).length = _
      rw [length_updAt]; exact h.1
    · intro row hrow
      rcases mem_updAt _ _ _ _ hrow with hr | ⟨r, hr, e⟩
      · exact h.2 row hr
      · rw [e, length_updAt]; exact h.2 r hr

/-- Reading a cell after a write to a cell inside the grid. -/
theorem Grid.getCombatantAt_setCell (g : Grid) (x y : Int) (v : Option Nat) (h : g.WF)
    (hx : 0 ≤ x ∧ x < g.width) (hy : 0 ≤ y ∧ y < g.height) (x1 y1 : Int) :
    (g.setCell x y v).getCombatantAt x1 y1 =
      if x1 = x ∧ y1 = y then v else g.getCombatantAt x1 y1 := by
  have hxn : ¬ x < 0 := not_lt.mpr hx.1
  have hyn : ¬ y < 0 := not_lt.mpr hy.1
  have hylen : y.toNat < g.combatantMap.length := by
    rw [h.1]; omega
  have hrow : (g.combatantMap.getD y.toNat []).length = g.width.toNat :=
    h.2 _ (getD_mem_or_default _ _ _ hylen)
  have hxlen : x.toNat < (g.combatantMap.getD y.toNat []).length := by
    rw [hrow]; omega
  unfold Grid.getCombatantAt
  rw [Grid.setCell_width, Grid.setCell_height]
  by_cases hb : x1 < 0 ∨ x1 ≥ g.width ∨ y1 < 0 ∨ y1 ≥ g.height
  · rw [if_pos hb, if_pos hb]
    split
    · rename_i he
      obtain ⟨e1, e2⟩ := he
      subst e1 e2
      exfalso
      rcases hb with hb | hb | hb | hb <;> omega
    · rfl
  · rw [if_neg hb, if_neg hb]
    have hx1 : ¬ x1 < 0 := fun h => hb (Or.inl h)
    have hy1 : ¬ y1 < 0 := fun h => hb (Or.inr (Or.inr (Or.inl h)))
    have hc : ∀ g1 : Grid, g1.cell x1 y1 =
        (g1.combatantMap.getD y1.toNat []).getD x1.toNat none := by
      intro g1
      unfold Grid.cell
      rw [if_neg (fun h => h.elim hx1 hy1)]
    have hs : (g.setCell x y v).combatantMap =
        updAt g.combatantMap y.toNat (fun row => updAt row x.toNat (fun _ => v)) := by
      unfold Grid.setCell
      rw [if_neg (fun h => h.elim hxn hyn)]
    rw [hc, hc, hs]
    by_cases hyy : y1 = y
    · subst hyy
      rw [getD_updAt_same _ _ _ _ hylen]
      by_cases hxx : x1 = x
      · subst hxx
        rw [getD_updAt_same _ _ _ _ hxlen, if_pos ⟨rfl, rfl⟩]
      · rw [getD_updAt_ne _ _ _ _ _ (by omega), if_neg (fun h => hxx h.1)]
    · rw [getD_updAt_ne _ _ _ _ _ (by omega), if_neg (fun h => hyy h.2)]

theorem engagedLoop_eq_any (w : World) (c : Nat) (x y : Int) (l : List (Int × Int)) :
    engagedLoop w c x y l = l.any (fun d => enemyAt w c (x + d.1) (y + d.2)) := by
  induction l with
  | nil => rfl
  | cons d rest ih =>
    unfold engagedLoop
    simp only [List.any_cons]
    rw [ih]
    unfold enemyAt Grid.getCombatantAt
    by_cases hb : x + d.1 ≥ 0 ∧ x + d.1 < w.grid.width ∧ y + d.2 ≥ 0 ∧ y + d.2 < w.grid.height
    · have hnb : ¬ (x + d.1 < 0 ∨ x + d.1 ≥ w.grid.width ∨ y + d.2 < 0 ∨ y + d.2 ≥ w.grid.height) := by
        omega
      rw [if_pos hb, if_neg hnb]
      cases hcell : w.grid.cell (x + d.1) (y + d.2) with
      | none => simp
      | some o =>
        by_cases he : (w.get o).team ≠ (w.get c).team ∧ (w.get o).isAlive = true
        · simp only [if_pos he]
          simp [he.1, he.2]
        · simp only [if_neg he]
          by_cases h1 : (w.get o).team = (w.get c).team
          · simp [h1]
          · have h2 : (w.get o).isAlive = false := by
              cases h : (w.get o).isAlive
              · rfl
              · exact absurd ⟨h1, h⟩ he
            simp [h1, h2]
    · have hnb : (x + d.1 < 0 ∨ x + d.1 ≥ w.grid.width ∨ y + d.2 < 0 ∨ y + d.2 ≥ w.grid.height) := by
        omega
      rw [if_neg hb, if_pos hnb]
      simp

theorem engagedLoop_eq_engaged (w : World) (c : Nat) :
    engagedLoop w c (w.get c).xPos (w.get c).yPos checkXY = engaged w c := by
  rw [engagedLoop_eq_any]
  unfold engaged checkXY
  simp only [List.any_cons, List.any_nil, add_zero, Bool.or_false, Bool.or_assoc]
  rfl

theorem placed_inBounds (w : World) (c : Nat) (h : placed w c) :
    (0 ≤ (w.get c).xPos ∧ (w.get c).xPos < w.grid.width)
    ∧ (0 ≤ (w.get c).yPos ∧ (w.get c).yPos < w.grid.height) := by
  unfold placed Grid.getCombatantAt at h
  by_cases hb : (w.get c).xPos < 0 ∨ (w.get c).xPos ≥ w.grid.width
      ∨ (w.get c).yPos < 0 ∨ (w.get c).yPos ≥ w.grid.height
  · rw [if_pos hb] at h
    exact Option.noConfusion h
  · omega

theorem getCombatantAt_eq_cell (g : Grid) (x y : Int)
    (hb : ¬ (x < 0 ∨ x ≥ g.width ∨ y < 0 ∨ y ≥ g.height)) :
    g.getCombatantAt x y = g.cell x y := by
  unfold Grid.getCombatantAt
  rw [if_neg hb]

/-- C4: a step of a combatant to a cell that is inside the grid and occupied
(the step (0, 0) of a placed combatant included) returns 0 and leaves the grid
and every combatant as they were. -/
theorem C4_moveCombatant_blocked (w : World) (c : Nat) (dx dy : Int)
    (hin : ¬ ((w.get c).xPos + dx < 0 ∨ (w.get c).xPos + dx ≥ w.grid.width
      ∨ (w.get c).yPos + dy < 0 ∨ (w.get c).yPos + dy ≥ w.grid.height))
    (hocc : w.grid.getCombatantAt ((w.get c).xPos + dx) ((w.get c).yPos + dy) ≠ none) :
    moveCombatant w c dx dy = (0, w) := by
  unfold moveCombatant
  simp only
  by_cases h1 : (w.get c).xPos = -1
  · rw [if_pos h1]
  · rw [if_neg h1, if_neg hin]
    rw [getCombatantAt_eq_cell _ _ _ hin] at hocc
    rw [if_pos hocc]

theorem C4_moveCombatant_blocked_witness :
    (¬ ((gridWorld.get 0).xPos + 0 < 0 ∨ (gridWorld.get 0).xPos + 0 ≥ gridWorld.grid.width
      ∨ (gridWorld.get 0).yPos + 0 < 0 ∨ (gridWorld.get 0).yPos + 0 ≥ gridWorld.grid.height))
    ∧ gridWorld.grid.getCombatantAt ((gridWorld.get 0).xPos + 0) ((gridWorld.get 0).yPos + 0) = some 0
    ∧ moveCombatant gridWorld 0 0 0 = (0, gridWorld) :=
  ⟨by decide, by decide, C4_moveCombatant_blocked gridWorld 0 0 0 (by decide) (by decide)⟩

/-- C5: a step of a placed combatant to a destination outside the grid marks it
as fled, sets its position to (-1, -1), empties the cell it stood on, leaves
every other cell unchanged and returns a non-zero cost: 7 when the combatant
was engaged, 1 otherwise. -/
theorem C5_moveCombatant_flee (w : World) (c : Nat) (dx dy : Int)
    (hwf : w.grid.WF) (hc : c < w.combatants.length) (hpl : placed w c)
    (hout : (w.get c).xPos + dx < 0 ∨ (w.get c).xPos + dx ≥ w.grid.width
      ∨ (w.get c).yPos + dy < 0 ∨ (w.get c).yPos + dy ≥ w.grid.height) :
    ((moveCombatant w c dx dy).2.get c).fled = true
    ∧ ((moveCombatant w c dx dy).2.get c).xPos = -1
    ∧ ((moveCombatant w c dx dy).2.get c).yPos = -1
    ∧ (moveCombatant w c dx dy).2.grid.getCombatantAt (w.get c).xPos (w.get c).yPos = none
    ∧ (∀ x y, ¬ (x = (w.get c).xPos ∧ y = (w.get c).yPos) →
        (moveCombatant w c dx dy).2.grid.getCombatantAt x y = w.grid.getCombatantAt x y)
    ∧ (moveCombatant w c dx dy).1 = (if engaged w c = true then 7 else 1)
    ∧ (moveCombatant w c dx dy).1 ≠ 0 := by
  obtain ⟨hx, hy⟩ := placed_inBounds w c hpl
  have h1 : ¬ (w.get c).xPos = -1 := by omega
  have hm : moveCombatant w c dx dy =
      ((if engaged w c = true then COST_MOVE_BASE + COST_MOVE_PENALTY else COST_MOVE_BASE),
       { combatants := updAt w.combatants c Combatant.flee,
         grid := w.grid.setCell (w.get c).xPos (w.get c).yPos none }) := by
    unfold moveCombatant
    simp only
    rw [if_neg h1, if_pos hout, engagedLoop_eq_engaged]
  rw [hm]
  have hget : (World.mk (updAt w.combatants c Combatant.flee)
      (w.grid.setCell (w.get c).xPos (w.get c).yPos none)).get c = (w.get c).flee :=
    getD_updAt_same w.combatants _ default c hc
  refine ⟨?_, ?_, ?_, ?_, ?_, ?_, ?_⟩
  · show (World.get _ c).fled = true
    rw [hget]; rfl
  · show (World.get _ c).xPos = -1
    rw [hget]; rfl
  · show (World.get _ c).yPos = -1
    rw [hget]; rfl
  · show Grid.getCombatantAt (w.grid.setCell _ _ none) _ _ = none
    rw [Grid.getCombatantAt_setCell _ _ _ _ hwf hx hy, if_pos ⟨rfl, rfl⟩]
  · intro x y hne
    show Grid.getCombatantAt (w.grid.setCell _ _ none) _ _ = _
    rw [Grid.getCombatantAt_setCell _ _ _ _ hwf hx hy, if_neg hne]
  · show (if engaged w c = true then COST_MOVE_BASE + COST_MOVE_PENALTY else COST_MOVE_BASE) = _
    split <;> rfl
  · show (if engaged w c = true then COST_MOVE_BASE + COST_MOVE_PENALTY else COST_MOVE_BASE) ≠ 0
    split <;> decide

theorem C5_moveCombatant_flee_witness :
    (gridWorld.grid.WF ∧ 0 < gridWorld.combatants.length ∧ placed gridWorld 0
      ∧ engaged gridWorld 0 = true)
    ∧ (((moveCombatant gridWorld 0 0 2).2.get 0).fled = true
    ∧ ((moveCombatant gridWorld 0 0 2).2.get 0).xPos = -1
    ∧ ((moveCombatant gridWorld 0 0 2).2.get 0).yPos = -1
    ∧ (moveCombatant gridWorld 0 0 2).2.grid.getCombatantAt (gridWorld.get 0).xPos (gridWorld.get 0).yPos = none
    ∧ (∀ x y, ¬ (x = (gridWorld.get 0).xPos ∧ y = (gridWorld.get 0).yPos) →
        (moveCombatant gridWorld 0 0 2).2.grid.getCombatantAt x y = gridWorld.grid.getCombatantAt x y)
    ∧ (moveCombatant gridWorld 0 0 2).1 = (if engaged gridWorld 0 = true then 7 else 1)
    ∧ (moveCombatant gridWorld 0 0 2).1 ≠ 0) :=
  ⟨by decide,
    C5_moveCombatant_flee gridWorld 0 0 2 (by decide) (by decide) (by decide) (by decide)⟩

/-- C6: a step of a placed combatant to an empty cell inside the grid moves it
there (its old cell is empty, the destination holds it, its stored position is
the destination, every other cell is unchanged) and returns
COST_MOVE_BASE + COST_MOVE_PENALTY = 7 when one of the four orthogonal
neighbours of its starting cell holds a living combatant of another team, and
COST_MOVE_BASE = 1 otherwise. -/
theorem C6_moveCombatant_relocate (w : World) (c : Nat) (dx dy : Int)
    (hwf : w.grid.WF) (hc : c < w.combatants.length) (hpl : placed w c)
    (hin : ¬ ((w.get c).xPos + dx < 0 ∨ (w.get c).xPos + dx ≥ w.grid.width
      ∨ (w.get c).yPos + dy < 0 ∨ (w.get c).yPos + dy ≥ w.grid.height))
    (hfree : w.grid.getCombatantAt ((w.get c).xPos + dx) ((w.get c).yPos + dy) = none) :
    (moveCombatant w c dx dy).2.grid.getCombatantAt (w.get c).xPos (w.get c).yPos = none
    ∧ (moveCombatant w c dx dy).2.grid.getCombatantAt ((w.get c).xPos + dx) ((w.get c).yPos + dy)
        = some c
    ∧ ((moveCombatant w c dx dy).2.get c).xPos = (w.get c).xPos + dx
    ∧ ((moveCombatant w c dx dy).2.get c).yPos = (w.get c).yPos + dy
    ∧ (∀ x y, ¬ (x = (w.get c).xPos ∧ y = (w.get c).yPos) →
        ¬ (x = (w.get c).xPos + dx ∧ y = (w.get c).yPos + dy) →
        (moveCombatant w c dx dy).2.grid.getCombatantAt x y = w.grid.getCombatantAt x y)
    ∧ (moveCombatant w c dx dy).1
        = (if engaged w c = true then COST_MOVE_BASE + COST_MOVE_PENALTY else COST_MOVE_BASE)
    ∧ COST_MOVE_BASE + COST_MOVE_PENALTY = 7 ∧ COST_MOVE_BASE = 1 := by
  obtain ⟨hx, hy⟩ := placed_inBounds w c hpl
  have h1 : ¬ (w.get c).xPos = -1 := by omega
  have hnx : 0 ≤ (w.get c).xPos + dx ∧ (w.get c).xPos + dx < w.grid.width := by omega
  have hny : 0 ≤ (w.get c).yPos + dy ∧ (w.get c).yPos + dy < w.grid.height := by omega
  have hcell : ¬ (w.grid.cell ((w.get c).xPos + dx) ((w.get c).yPos + dy) ≠ none) := by
    rw [← getCombatantAt_eq_cell _ _ _ hin, hfree]
    exact fun h => h rfl
  have hne : ¬ ((w.get c).xPos = (w.get c).xPos + dx ∧ (w.get c).yPos = (w.get c).yPos + dy) := by
    intro h
    rw [← h.1, ← h.2] at hfree
    unfold placed at hpl
    rw [hpl] at hfree
    exact Option.noConfusion hfree
  have hm : moveCombatant w c dx dy =
      ((if engaged w c = true then COST_MOVE_BASE + COST_MOVE_PENALTY else COST_MOVE_BASE),
       { combatants := updAt w.combatants c
           (fun k => k.setPosition ((w.get c).xPos + dx) ((w.get c).yPos + dy)),
         grid := (w.grid.setCell (w.get c).xPos (w.get c).yPos none).setCell
           ((w.get c).xPos + dx) ((w.get c).yPos + dy) (some c) }) := by
    unfold moveCombatant
    simp only
    rw [if_neg h1, if_neg hin, if_neg hcell, engagedLoop_eq_engaged]
  rw [hm]
  have hget : ∀ g1 : Grid, (World.mk (updAt w.combatants c
      (fun k => k.setPosition ((w.get c).xPos + dx) ((w.get c).yPos + dy))) g1).get c
      = (w.get c).setPosition ((w.get c).xPos + dx) ((w.get c).yPos + dy) :=
    fun _ => getD_updAt_same w.combatants _ default c hc
  have hwf1 := Grid.setCell_WF w.grid (w.get c).xPos (w.get c).yPos none hwf
  have hread : ∀ x y, Grid.getCombatantAt ((w.grid.setCell (w.get c).xPos (w.get c).yPos none).setCell
      ((w.get c).xPos + dx) ((w.get c).yPos + dy) (some c)) x y =
      if x = (w.get c).xPos + dx ∧ y = (w.get c).yPos + dy then some c
      else if x = (w.get c).xPos ∧ y = (w.get c).yPos then none
      else w.grid.getCombatantAt x y := by
    intro x y
    rw [Grid.getCombatantAt_setCell _ _ _ _ hwf1
      (by rw [Grid.setCell_width]; exact hnx) (by rw [Grid.setCell_height]; exact hny),
      Grid.getCombatantAt_setCell _ _ _ _ hwf hx hy]
  refine ⟨?_, ?_, ?_, ?_, ?_, ?_, by decide, by decide⟩
  · show Grid.getCombatantAt _ _ _ = none
    rw [hread, if_neg hne, if_pos ⟨rfl, rfl⟩]
  · show Grid.getCombatantAt _ _ _ = some c
    rw [hread, if_pos ⟨rfl, rfl⟩]
  · show (World.get _ c).xPos = _
    rw [hget]; rfl
  · show (World.get _ c).yPos = _
    rw [hget]; rfl
  · intro x y n1 n2
    show Grid.getCombatantAt _ _ _ = _
    rw [hread, if_neg n2, if_neg n1]
  · rfl

theorem C6_moveCombatant_relocate_witness :
    (gridWorld.grid.WF ∧ placed gridWorld 0 ∧ engaged gridWorld 0 = true
      ∧ placed gridWorld 2 ∧ engaged gridWorld 2 = false
      ∧ (moveCombatant gridWorld 0 0 1).1 = 7 ∧ (moveCombatant gridWorld 2 1 0).1 = 1)
    ∧ ((moveCombatant gridWorld 0 0 1).2.grid.getCombatantAt (gridWorld.get 0).xPos
          (gridWorld.get 0).yPos = none
      ∧ (moveCombatant gridWorld 0 0 1).2.grid.getCombatantAt ((gridWorld.get 0).xPos + 0)
          ((gridWorld.get 0).yPos + 1) = some 0
      ∧ ((moveCombatant gridWorld 0 0 1).2.get 0).xPos = (gridWorld.get 0).xPos + 0
      ∧ ((moveCombatant gridWorld 0 0 1).2.get 0).yPos = (gridWorld.get 0).yPos + 1
      ∧ (∀ x y, ¬ (x = (gridWorld.get 0).xPos ∧ y = (gridWorld.get 0).yPos) →
          ¬ (x = (gridWorld.get 0).xPos + 0 ∧ y = (gridWorld.get 0).yPos + 1) →
          (moveCombatant gridWorld 0 0 1).2.grid.getCombatantAt x y
            = gridWorld.grid.getCombatantAt x y)
      ∧ (moveCombatant gridWorld 0 0 1).1
          = (if engaged gridWorld 0 = true then COST_MOVE_BASE + COST_MOVE_PENALTY
             else COST_MOVE_BASE)
      ∧ COST_MOVE_BASE + COST_MOVE_PENALTY = 7 ∧ COST_MOVE_BASE = 1) :=
  ⟨by decide,
    C6_moveCombatant_relocate gridWorld 0 0 1 (by decide) (by decide) (by decide) (by decide)
      (by decide)⟩

/-- C7: placeCombatant returns false and changes nothing when the cell is outside
the grid or occupied; otherwise, for a combatant that is unplaced or stands on
the cell of its stored position, it returns true, the cell holds the combatant,
the stored position is the cell, the cell the combatant stood on before is
empty, and every other cell is unchanged. -/
theorem C7_placeCombatant_contract (w : World) (c : Nat) (x y : Int)
    (hwf : w.grid.WF) (hc : c < w.combatants.length)
    (hpos : ((w.get c).xPos = -1 ∧ (w.get c).yPos = -1) ∨ placed w c) :
    (((x < 0 ∨ x ≥ w.grid.width ∨ y < 0 ∨ y ≥ w.grid.height)
        ∨ w.grid.getCombatantAt x y ≠ none) → placeCombatant w c x y = (false, w))
    ∧ (¬ (x < 0 ∨ x ≥ w.grid.width ∨ y < 0 ∨ y ≥ w.grid.height) →
        w.grid.getCombatantAt x y = none →
        (placeCombatant w c x y).1 = true
        ∧ (placeCombatant w c x y).2.grid.getCombatantAt x y = some c
        ∧ ((placeCombatant w c x y).2.get c).xPos = x
        ∧ ((placeCombatant w c x y).2.get c).yPos = y
        ∧ (placed w c →
            (placeCombatant w c x y).2.grid.getCombatantAt (w.get c).xPos (w.get c).yPos = none)
        ∧ (∀ x1 y1, ¬ (x1 = x ∧ y1 = y) →
            ¬ (placed w c ∧ x1 = (w.get c).xPos ∧ y1 = (w.get c).yPos) →
            (placeCombatant w c x y).2.grid.getCombatantAt x1 y1 = w.grid.getCombatantAt x1 y1)) := by
  constructor
  · intro h
    unfold placeCombatant
    by_cases hb : x < 0 ∨ x ≥ w.grid.width ∨ y < 0 ∨ y ≥ w.grid.height
    · rw [if_pos hb]
    · rw [if_neg hb]
      rcases h with h | h
      · exact absurd h hb
      · rw [getCombatantAt_eq_cell _ _ _ hb] at h
        rw [if_pos h]
  · intro hb hfree
    have hxy : (0 ≤ x ∧ x < w.grid.width) ∧ (0 ≤ y ∧ y < w.grid.height) := by omega
    have hcell : ¬ (w.grid.cell x y ≠ none) := by
      rw [← getCombatantAt_eq_cell _ _ _ hb, hfree]
      exact fun h => h rfl
    have hget : ∀ g1 : Grid, (World.mk (updAt w.combatants c (fun k => k.setPosition x y)) g1).get c
        = (w.get c).setPosition x y :=
      fun _ => getD_updAt_same w.combatants _ default c hc
    rcases hpos with ⟨ux, uy⟩ | hpl
    · have hnp : ¬ placed w c := by
        intro hp
        have := (placed_inBounds w c hp).1.1
        omega
      have hm : placeCombatant w c x y =
          (true, { combatants := updAt w.combatants c (fun k => k.setPosition x y),
                   grid := w.grid.setCell x y (some c) }) := by
        unfold placeCombatant
        simp only
        rw [if_neg hb, if_neg hcell, if_neg (fun h => h.1 ux)]
      rw [hm]
      refine ⟨rfl, ?_, ?_, ?_, ?_, ?_⟩
      · show Grid.getCombatantAt _ _ _ = some c
        rw [Grid.getCombatantAt_setCell _ _ _ _ hwf hxy.1 hxy.2, if_pos ⟨rfl, rfl⟩]
      · show (World.get _ c).xPos = x
        rw [hget]; rfl
      · show (World.get _ c).yPos = y
        rw [hget]; rfl
      · intro hp; exact absurd hp hnp
      · intro x1 y1 n1 _
        show Grid.getCombatantAt _ _ _ = _
        rw [Grid.getCombatantAt_setCell _ _ _ _ hwf hxy.1 hxy.2, if_neg n1]
    · obtain ⟨hx, hy⟩ := placed_inBounds w c hpl
      have hne : ¬ ((w.get c).xPos = x ∧ (w.get c).yPos = y) := by
        intro h
        have hp := hpl
        unfold placed at hp
        rw [h.1, h.2, hfree] at hp
        exact Option.noConfusion hp
      have hm : placeCombatant w c x y =
          (true, { combatants := updAt w.combatants c (fun k => k.setPosition x y),
                   grid := (w.grid.setCell (w.get c).xPos (w.get c).yPos none).setCell x y (some c) }) := by
        unfold placeCombatant
        simp only
        rw [if_neg hb, if_neg hcell, if_pos ⟨by omega, by omega⟩]
      rw [hm]
      have hwf1 := Grid.setCell_WF w.grid (w.get c).xPos (w.get c).yPos none hwf
      have hread : ∀ x1 y1, Grid.getCombatantAt
          ((w.grid.setCell (w.get c).xPos (w.get c).yPos none).setCell x y (some c)) x1 y1 =
          if x1 = x ∧ y1 = y then some c
          else if x1 = (w.get c).xPos ∧ y1 = (w.get c).yPos then none
          else w.grid.getCombatantAt x1 y1 := by
        intro x1 y1
        rw [Grid.getCombatantAt_setCell _ _ _ _ hwf1
          (by rw [Grid.setCell_width]; exact hxy.1) (by rw [Grid.setCell_height]; exact hxy.2),
          Grid.getCombatantAt_setCell _ _ _ _ hwf hx hy]
      refine ⟨rfl, ?_, ?_, ?_, ?_, ?_⟩
      · show Grid.getCombatantAt _ _ _ = some c
        rw [hread, if_pos ⟨rfl, rfl⟩]
      · show (World.get _ c).xPos = x
        rw [hget]; rfl
      · show (World.get _ c).yPos = y
        rw [hget]; rfl
      · intro _
        show Grid.getCombatantAt _ _ _ = none
        rw [hread, if_neg hne, if_pos ⟨rfl, rfl⟩]
      · intro x1 y1 n1 n2
        show Grid.getCombatantAt _ _ _ = _
        rw [hread, if_neg n1, if_neg (fun h => n2 ⟨hpl, h.1, h.2⟩)]

theorem C7_placeCombatant_contract_witness :
    (gridWorld.grid.WF ∧ 0 < gridWorld.combatants.length ∧ placed gridWorld 0
      ∧ gridWorld.grid.getCombatantAt 2 2 = none)
    ∧ ((placeCombatant gridWorld 0 2 2).1 = true
        ∧ (placeCombatant gridWorld 0 2 2).2.grid.getCombatantAt 2 2 = some 0
        ∧ ((placeCombatant gridWorld 0 2 2).2.get 0).xPos = 2
        ∧ ((placeCombatant gridWorld 0 2 2).2.get 0).yPos = 2
        ∧ (placed gridWorld 0 →
            (placeCombatant gridWorld 0 2 2).2.grid.getCombatantAt (gridWorld.get 0).xPos
              (gridWorld.get 0).yPos = none)
        ∧ (∀ x1 y1, ¬ (x1 = 2 ∧ y1 = 2) →
            ¬ (placed gridWorld 0 ∧ x1 = (gridWorld.get 0).xPos ∧ y1 = (gridWorld.get 0).yPos) →
            (placeCombatant gridWorld 0 2 2).2.grid.getCombatantAt x1 y1
              = gridWorld.grid.getCombatantAt x1 y1)) :=
  ⟨by decide,
    (C7_placeCombatant_contract gridWorld 0 2 2 (by decide) (by decide) (Or.inr (by decide))).2
      (by decide) (by decide)⟩

theorem tickStatuses_sane (l : List StatusEffect) :
    ∀ h : Int, 0 ≤ h → (∀ s ∈ l, s.name = "Burn" → 0 ≤ s.potency) →
      0 ≤ (Combatant.tickStatuses h l).1 ∧ (Combatant.tickStatuses h l).1 ≤ h
      ∧ (∀ s ∈ (Combatant.tickStatuses h l).2, s.name = "Burn" → 0 ≤ s.potency) := by
  induction l with
  | nil =>
    intro h hh _
    refine ⟨hh, le_refl _, ?_⟩
    intro s hs
    exact absurd hs (List.not_mem_nil s)
  | cons s rest ih =>
    intro h hh hb
    have hrest : ∀ t ∈ rest, t.name = "Burn" → 0 ≤ t.potency :=
      fun t ht => hb t (List.mem_cons_of_mem _ ht)
    have hs := hb s (List.mem_cons_self _ _)
    have h1 : 0 ≤ (if s.name = "Burn" then (if h - s.potency < 0 then 0 else h - s.potency) else h)
        ∧ (if s.name = "Burn" then (if h - s.potency < 0 then 0 else h - s.potency) else h) ≤ h := by
      by_cases hn : s.name = "Burn"
      · have := hs hn
        rw [if_pos hn]
        split <;> omega
      · rw [if_neg hn]
        exact ⟨hh, le_refl _⟩
    obtain ⟨a, b, d⟩ := ih _ h1.1 hrest
    unfold Combatant.tickStatuses
    simp only
    split
    · exact ⟨a, le_trans b h1.2, d⟩
    · refine ⟨a, le_trans b h1.2, ?_⟩
      intro t ht
      rcases List.mem_cons.mp ht with e | ht
      · subst e
        exact hs
      · exact d t ht

theorem tickLoop_sane (n : Nat) :
    ∀ c : Combatant, c.Bounded ∧ c.NonnegStats →
      (Combatant.tickLoop n c).Bounded ∧ (Combatant.tickLoop n c).NonnegStats := by
  induction n with
  | zero => intro c h; exact h
  | succ n ih =>
    intro c h
    obtain ⟨⟨b1, b2, b3, b4⟩, s1, s2, s3, s4⟩ := h
    obtain ⟨a, b, d⟩ := tickStatuses_sane c.statuses c.currentHealth b1 s4
    have hstep : (Combatant.Bounded { c with
          currentHealth := (Combatant.tickStatuses c.currentHealth c.statuses).1,
          statuses := (Combatant.tickStatuses c.currentHealth c.statuses).2 })
        ∧ (Combatant.NonnegStats { c with
          currentHealth := (Combatant.tickStatuses c.currentHealth c.statuses).1,
          statuses := (Combatant.tickStatuses c.currentHealth c.statuses).2 }) :=
      ⟨⟨a, le_trans b b2, b3, b4⟩, s1, s2, s3, d⟩
    unfold Combatant.tickLoop
    simp only
    split
    · exact hstep
    · exact ih _ hstep

theorem addTicks_sane (c : Combatant) (ticks : Int) (h : c.Bounded ∧ c.NonnegStats) :
    (c.addTicks ticks).Bounded ∧ (c.addTicks ticks).NonnegStats :=
  tickLoop_sane _ _ h

theorem loseHealth_sane (c : Combatant) (amount : Int) (ha : 0 ≤ amount)
    (h : c.Bounded ∧ c.NonnegStats) :
    (c.loseHealth amount).Bounded ∧ (c.loseHealth amount).NonnegStats := by
  obtain ⟨⟨b1, b2, b3, b4⟩, hs⟩ := h
  refine ⟨⟨?_, ?_, b3, b4⟩, hs⟩
  · show 0 ≤ (if c.currentHealth - amount < 0 then 0 else c.currentHealth - amount)
    split <;> omega
  · show (if c.currentHealth - amount < 0 then 0 else c.currentHealth - amount) ≤ c.maxHealth
    split <;> omega

theorem heal_sane (c : Combatant) (amount : Int) (ha : 0 ≤ amount)
    (h : c.Bounded ∧ c.NonnegStats) :
    (c.heal amount).Bounded ∧ (c.heal amount).NonnegStats := by
  obtain ⟨⟨b1, b2, b3, b4⟩, hs⟩ := h
  refine ⟨⟨?_, ?_, b3, b4⟩, hs⟩
  · show 0 ≤ (if c.currentHealth + amount > c.maxHealth then c.maxHealth else c.currentHealth + amount)
    split <;> omega
  · show (if c.currentHealth + amount > c.maxHealth then c.maxHealth else c.currentHealth + amount)
      ≤ c.maxHealth
    split <;> omega

theorem drainMP_sane (c : Combatant) (amount : Int) (ha : 0 ≤ amount)
    (h : c.Bounded ∧ c.NonnegStats) :
    (c.drainMP amount).Bounded ∧ (c.drainMP amount).NonnegStats := by
  obtain ⟨⟨b1, b2, b3, b4⟩, hs⟩ := h
  refine ⟨⟨b1, b2, ?_, ?_⟩, hs⟩
  · show 0 ≤ (if c.currentMagicPoints - amount < 0 then 0 else c.currentMagicPoints - amount)
    split <;> omega
  · show (if c.currentMagicPoints - amount < 0 then 0 else c.currentMagicPoints - amount)
      ≤ c.maxMagicPoints
    split <;> omega

theorem restoreMP_sane (c : Combatant) (amount : Int) (ha : 0 ≤ amount)
    (h : c.Bounded ∧ c.NonnegStats) :
    (c.restoreMP amount).Bounded ∧ (c.restoreMP amount).NonnegStats := by
  obtain ⟨⟨b1, b2, b3, b4⟩, hs⟩ := h
  refine ⟨⟨b1, b2, ?_, ?_⟩, hs⟩
  · show 0 ≤ (if c.currentMagicPoints + amount > c.maxMagicPoints then c.maxMagicPoints
      else c.currentMagicPoints + amount)
    split <;> omega
  · show (if c.currentMagicPoints + amount > c.maxMagicPoints then c.maxMagicPoints
      else c.currentMagicPoints + amount) ≤ c.maxMagicPoints
    split <;> omega

theorem reduceMorale_sane (c : Combatant) (amount : Int) (h : c.Bounded ∧ c.NonnegStats) :
    (c.reduceMorale amount).Bounded ∧ (c.reduceMorale amount).NonnegStats := h

theorem applyStatus_sane (c : Combatant) (name : String) (duration potency : Int)
    (hp : name = "Burn" → 0 ≤ potency) (h : c.Bounded ∧ c.NonnegStats) :
    (c.applyStatus name duration potency).Bounded
    ∧ (c.applyStatus name duration potency).NonnegStats := by
  obtain ⟨hb, s1, s2, s3, s4⟩ := h
  refine ⟨hb, s1, s2, s3, ?_⟩
  intro s hs
  have hs' : s ∈ c.statuses ++ [{ name := name, durationTicks := duration, potency := potency }] := hs
  rcases List.mem_append.mp hs' with hs' | hs'
  · exact s4 s hs'
  · rw [List.mem_singleton] at hs'
    subst hs'
    exact hp

theorem spendMP_sane (c : Combatant) (cost : Int) (h0 : 0 ≤ cost)
    (h1 : ¬ c.currentMagicPoints < cost) (h : c.Bounded ∧ c.NonnegStats) :
    (c.spendMP cost).Bounded ∧ (c.spendMP cost).NonnegStats := by
  obtain ⟨⟨b1, b2, b3, b4⟩, hs⟩ := h
  refine ⟨⟨b1, b2, ?_, ?_⟩, hs⟩
  · show 0 ≤ c.currentMagicPoints - cost
    omega
  · show c.currentMagicPoints - cost ≤ c.maxMagicPoints
    omega

theorem consumeItem_sane (c : Combatant) (n : Nat) (h : c.Bounded ∧ c.NonnegStats) :
    (c.consumeItem n).Bounded ∧ (c.consumeItem n).NonnegStats := by
  obtain ⟨hb, s1, s2, s3, s4⟩ := h
  refine ⟨hb, s1, s2, ?_, s4⟩
  intro i hi
  have hi' : i ∈ updAt c.inventory n (fun i => { i with quantity := i.quantity - 1 }) := hi
  rcases mem_updAt _ _ _ _ hi' with hi' | ⟨k, hk, e⟩
  · exact s3 i hi'
  · rw [e]
    exact s3 k hk

theorem default_sane : (default : Combatant).Bounded ∧ (default : Combatant).NonnegStats := by
  decide

theorem World.get_sane (w : World) (h : w.Sane) (i : Nat) :
    (w.get i).Bounded ∧ (w.get i).NonnegStats := by
  by_cases hi : i < w.combatants.length
  · exact h _ (getD_mem_or_default _ _ _ hi)
  · have : w.get i = default := by
      unfold World.get
      exact List.getD_eq_default _ _ (not_lt.mp hi)
    rw [this]
    exact default_sane

theorem World.upd_sane (w : World) (i : Nat) (f : Combatant → Combatant) (h : w.Sane)
    (hf : ∀ c : Combatant, c.Bounded ∧ c.NonnegStats → (f c).Bounded ∧ (f c).NonnegStats) :
    (w.upd i f).Sane := by
  intro c hc
  rcases mem_updAt _ _ _ _ hc with hc | ⟨k, hk, e⟩
  · exact h c hc
  · rw [e]
    exact hf k (h k hk)

theorem mem_updAt_getD {α : Type} (l : List α) (f : α → α) (b d : α) :
    ∀ n, b ∈ updAt l n f → b ∈ l ∨ (n < l.length ∧ b = f (l.getD n d)) := by
  induction l with
  | nil => intro n h; cases n <;> simp [updAt] at h
  | cons a l ih =>
    intro n h
    cases n with
    | zero =>
      simp only [updAt, List.mem_cons] at h
      rcases h with h | h
      · exact Or.inr ⟨by simp, h⟩
      · exact Or.inl (List.mem_cons_of_mem _ h)
    | succ n =>
      simp only [updAt, List.mem_cons] at h
      rcases h with h | h
      · exact Or.inl (by rw [h]; exact List.mem_cons_self _ _)
      · rcases ih n h with h | ⟨hk, e⟩
        · exact Or.inl (List.mem_cons_of_mem _ h)
        · exact Or.inr ⟨by simpa using hk, by simpa using e⟩

theorem foldl_sane {α : Type} (step : World → α → World)
    (hstep : ∀ w a, w.Sane → (step w a).Sane) (l : List α) :
    ∀ w : World, w.Sane → (l.foldl step w).Sane := by
  induction l with
  | nil => intro w h; exact h
  | cons a l ih => intro w h; exact ih _ (hstep w a h)

theorem damageSelf_sane (w : World) (self : Nat) (amount : Int) (element : String)
    (ha : 0 ≤ amount) (h : w.Sane) : (damageSelf w self amount element).Sane := by
  unfold damageSelf
  have h1 := World.upd_sane w self (fun c => c.loseHealth amount) h
    (fun c hc => loseHealth_sane c amount ha hc)
  have h2 : (if element = "Psi" then
      (w.upd self (fun c => c.loseHealth amount)).upd self (fun c => c.reduceMorale amount)
      else w.upd self (fun c => c.loseHealth amount)).Sane := by
    split
    · exact World.upd_sane _ _ _ h1 (fun c hc => reduceMorale_sane c amount hc)
    · exact h1
  simp only
  split
  · exact World.upd_sane _ _ _ h2
      (fun c hc => drainMP_sane c _ (Int.tdiv_nonneg ha (by decide)) hc)
  · exact h2

theorem reflectStep_sane (reflect : World → Nat → World)
    (hr : ∀ w n, w.Sane → (reflect w n).Sane) (self : Nat) (wi : World) (d : Int × Int)
    (h : wi.Sane) : (reflectStep reflect self wi d).Sane := by
  unfold reflectStep
  split
  · split
    · exact hr _ _ h
    · exact h
  · exact h

theorem takeDamageAux_sane (fuel : Nat) :
    ∀ (w : World) (self : Nat) (amount : Int) (element : String) (hasGrid : Bool),
      0 ≤ amount → w.Sane → (takeDamageAux fuel w self amount element hasGrid).Sane := by
  induction fuel with
  | zero =>
    intro w self amount element hasGrid ha h
    have h3 := damageSelf_sane w self amount element ha h
    unfold takeDamageAux
    simp only
    split
    · split
      · exact h3
      · exact h3
    · exact h3
  | succ f ih =>
    intro w self amount element hasGrid ha h
    have h3 := damageSelf_sane w self amount element ha h
    unfold takeDamageAux
    simp only
    split
    · split
      · apply foldl_sane _ _ _ _ h3
        intro wi d hwi
        exact reflectStep_sane _
          (fun w1 n h1 => ih w1 n _ _ _ (Int.tdiv_nonneg ha (by decide)) h1) _ _ _ hwi
      · exact h3
    · exact h3

theorem takeDamage_sane (w : World) (self : Nat) (amount : Int) (element : String)
    (hasGrid : Bool) (ha : 0 ≤ amount) (h : w.Sane) :
    (takeDamage w self amount element hasGrid).Sane :=
  takeDamageAux_sane _ w self amount element hasGrid ha h

theorem elementalSideEffect_sane (w : World) (self victim : Nat) (elem : String)
    (burnBase damage : Int) (hb : 0 ≤ burnBase) (hd : 0 ≤ damage) (h : w.Sane) :
    (elementalSideEffect w self victim elem burnBase damage).Sane := by
  unfold elementalSideEffect
  split
  · exact World.upd_sane _ _ _ h
      (fun c hc => applyStatus_sane c _ _ _ (fun _ => Int.tdiv_nonneg hb (by decide)) hc)
  · split
    · exact World.upd_sane _ _ _ h
        (fun c hc => applyStatus_sane c _ _ _ (fun e => absurd e (by decide)) hc)
    · split
      · exact World.upd_sane _ _ _ h (fun c hc => addTicks_sane c _ hc)
      · split
        · exact World.upd_sane _ _ _ h
            (fun c hc => heal_sane c _ (Int.tdiv_nonneg hd (by decide)) hc)
        · exact h

theorem getElementalMultiplier_num_nonneg (a b : String) :
    0 ≤ (getElementalMultiplier a b).num := by
  unfold getElementalMultiplier
  split
  · decide
  · split
    · decide
    · split
      · decide
      · split
        · decide
        · split <;> decide

theorem trunc_mulInt_nonneg (n : Int) (e : Frac) (hn : 0 ≤ n) (he : 0 ≤ e.num) :
    0 ≤ (Frac.mulInt n e).trunc := by
  unfold Frac.mulInt Frac.trunc
  exact Int.tdiv_nonneg (mul_nonneg hn he) (Int.ofNat_nonneg _)

theorem getRandomInt_ge (lo hi : Int) (raw : Nat) : lo ≤ getRandomInt lo hi raw := by
  unfold getRandomInt
  have : (0 : Int) ≤ ((raw % (hi - lo + 1).toNat : Nat) : Int) := Int.ofNat_nonneg _
  omega

theorem getEffectiveDR_ge (c : Combatant) : -80 ≤ c.getEffectiveDR := by
  unfold Combatant.getEffectiveDR
  simp only
  split <;> omega

theorem attackBaseDR_ge (c : Combatant) : -80 ≤ attackBaseDR c := by
  unfold attackBaseDR
  simp only
  split <;> omega

theorem hitDamage_nonneg (a t : Combatant) (r : AttackRoll)
    (hp : 0 ≤ a.equippedWeapon.physicalAttack) :
    0 ≤ (hitDamage a t r).productDamage ∧ 0 ≤ (hitDamage a t r).finalDamage
    ∧ 0 ≤ (hitDamage a t r).critDamage := by
  have hm : 0 ≤ getRandomInt 7 13 r.multiplier := le_trans (by decide) (getRandomInt_ge 7 13 _)
  have hpd : 0 ≤ (a.equippedWeapon.physicalAttack * getRandomInt 7 13 r.multiplier).tdiv 10 :=
    Int.tdiv_nonneg (mul_nonneg hp hm) (by decide)
  have hdr := attackBaseDR_ge t
  unfold hitDamage
  simp only
  refine ⟨hpd, ?_, ?_⟩
  · apply trunc_mulInt_nonneg _ _ _ (getElementalMultiplier_num_nonneg _ _)
    split
    · exact le_refl _
    · apply Int.tdiv_nonneg
      · split <;> omega
      · omega
  · split
    · exact hpd
    · exact le_refl _

theorem attackStep_sane (w : World) (self target : Nat) (r : AttackRoll) (h : w.Sane) :
    (attackStep w self target r).Sane := by
  have hs := (World.get_sane w h self).2.1
  obtain ⟨h1, h2, h3⟩ := hitDamage_nonneg (w.get self) (w.get target) r hs
  unfold attackStep
  simp only
  split
  · exact h
  · exact takeDamage_sane _ _ _ _ _ (add_nonneg h2 h3)
      (elementalSideEffect_sane _ _ _ _ _ _ h1 h2 h)

theorem attackLoop_sane (self target : Nat) (rolls : Nat → AttackRoll) (n : Nat) :
    ∀ (i : Nat) (w : World), w.Sane → (attackLoop self target rolls n i w).Sane := by
  induction n with
  | zero => intro i w h; exact h
  | succ n ih =>
    intro i w h
    unfold attackLoop
    split
    · exact ih _ _ (attackStep_sane _ _ _ _ h)
    · exact h

theorem attack_sane (w : World) (self target : Nat) (rolls : Nat → AttackRoll) (h : w.Sane) :
    (attack w self target rolls).2.Sane := by
  unfold attack
  split
  · exact h
  · exact attackLoop_sane _ _ _ _ _ _ h

theorem spellDamage_nonneg (spell : Spell) (v : Combatant) (hm : 0 ≤ spell.magicalAttack) :
    0 ≤ spellDamage spell v := by
  unfold spellDamage
  simp only
  apply trunc_mulInt_nonneg _ _ _ (getElementalMultiplier_num_nonneg _ _)
  apply Int.tdiv_nonneg
  · omega
  · split <;> omega

theorem applySpellEffect_sane (w : World) (self victim : Nat) (spell : Spell)
    (hm : 0 ≤ spell.magicalAttack) (h : w.Sane) : (applySpellEffect w self victim spell).Sane := by
  have hd := spellDamage_nonneg spell (w.get victim) hm
  unfold applySpellEffect
  simp only
  exact takeDamage_sane _ _ _ _ _ hd (elementalSideEffect_sane _ _ _ _ _ _ hm hd h)

theorem castSpellCell_sane (self target : Nat) (spell : Spell) (hm : 0 ≤ spell.magicalAttack)
    (w : World) (p : Int × Int) (h : w.Sane) : (castSpellCell self target spell w p).Sane := by
  unfold castSpellCell
  split
  · exact h
  · split
    · split
      · split
        · split
          · exact applySpellEffect_sane _ _ _ _ hm h
          · exact h
        · split
          · exact h
          · exact applySpellEffect_sane _ _ _ _ hm h
      · exact h
    · exact h

theorem castSpell_sane (w : World) (self target : Nat) (spellIndex : Int) (h : w.Sane) :
    (castSpell w self target spellIndex).2.Sane := by
  have hs := (World.get_sane w h self).2.2.1
  unfold castSpell
  split
  · exact h
  · split
    · exact h
    · rename_i spell hspell
      have hmem : spell ∈ (w.get self).knownSpells := List.getElem?_mem hspell
      obtain ⟨hc, hm⟩ := hs spell hmem
      split
      · exact h
      · rename_i hmp
        split
        · exact h
        · have h1 : (w.upd self (fun c => c.spendMP spell.mpCost)).Sane := by
            intro c hcm
            rcases mem_updAt_getD _ _ _ default _ hcm with hcm | ⟨hk, e⟩
            · exact h c hcm
            · rw [e]
              exact spendMP_sane _ _ hc hmp (World.get_sane w h self)
          simp only
          split
          · exact h1
          · exact foldl_sane _ (fun w1 p h2 => castSpellCell_sane _ _ _ hm w1 p h2) _ _ h1

theorem useItem_sane (w : World) (self target : Nat) (itemIndex : Int) (h : w.Sane) :
    (useItem w self target itemIndex).2.Sane := by
  have hs := (World.get_sane w h self).2.2.2.1
  unfold useItem
  split
  · exact h
  · split
    · exact h
    · rename_i item hitem
      have hp : 0 ≤ item.potency := hs item (List.getElem?_mem hitem)
      have h1 : (w.upd self (fun c => c.consumeItem itemIndex.toNat)).Sane :=
        World.upd_sane _ _ _ h (fun c hc => consumeItem_sane c _ hc)
      split
      · exact h
      · split
        · exact h
        · simp only
          split
          · exact World.upd_sane _ _ _ h1 (fun c hc => heal_sane c _ hp hc)
          · split
            · exact World.upd_sane _ _ _ h1 (fun c hc => restoreMP_sane c _ hp hc)
            · exact h1

theorem World.Sane.bounded {w : World} (h : w.Sane) : w.Bounded := fun c hc => (h c hc).1

theorem World.get_upd (w : World) (i j : Nat) (f : Combatant → Combatant) :
    (w.upd i f).get j = if j = i ∧ i < w.combatants.length then f (w.get i) else w.get j := by
  by_cases hj : j = i
  · subst hj
    by_cases hl : j < w.combatants.length
    · rw [if_pos ⟨rfl, hl⟩]
      exact World.get_upd_same w j f hl
    · rw [if_neg (fun h => hl h.2)]
      unfold World.upd World.get
      rw [updAt_of_length_le _ _ _ (not_lt.mp hl)]
  · rw [if_neg (fun h => hj h.1)]
    exact World.get_upd_ne w i j f hj

/-- A field that `f` keeps is kept by `upd` at every index. -/
theorem World.get_upd_field {β : Type} (proj : Combatant → β) (w : World) (i j : Nat)
    (f : Combatant → Combatant) (hf : ∀ c, proj (f c) = proj c) :
    proj ((w.upd i f).get j) = proj (w.get j) := by
  rw [World.get_upd]
  split
  · rename_i h
    rw [hf, h.1]
  · rfl

/-- C10, as stated, fails: castSpell on a target that is off the grid returns
false after the mana of the caster has gone from 5 to 3. -/
theorem C10_failed_cast_counterexample :
    (castSpell unplacedTargetWorld 0 1 0).1 = false
    ∧ (unplacedTargetWorld.get 0).currentMagicPoints = 5
    ∧ ((castSpell unplacedTargetWorld 0 1 0).2.get 0).currentMagicPoints = 3
    ∧ (castSpell unplacedTargetWorld 0 1 0).2 ≠ unplacedTargetWorld := by
  refine ⟨by decide, by decide, by decide, by decide⟩

/-- C10, amended: when attack or useItem returns false, and when castSpell returns
false for a primary target that is placed (its x is not -1), the combatants and
the grid are exactly what they were before the call. -/
theorem C10_failed_action_unchanged (w : World) (self target : Nat) :
    (∀ rolls : Nat → AttackRoll,
        (attack w self target rolls).1 = false → (attack w self target rolls).2 = w)
    ∧ (∀ itemIndex : Int,
        (useItem w self target itemIndex).1 = false → (useItem w self target itemIndex).2 = w)
    ∧ (∀ spellIndex : Int,
        (castSpell w self target spellIndex).1 = false → (w.get target).xPos ≠ -1 →
        (castSpell w self target spellIndex).2 = w) := by
  refine ⟨?_, ?_, ?_⟩
  · intro rolls
    unfold attack
    split
    · intro _; rfl
    · intro h; exact Bool.noConfusion h
  · intro itemIndex
    unfold useItem
    split
    · intro _; rfl
    · split
      · intro _; rfl
      · split
        · intro _; rfl
        · split
          · intro _; rfl
          · simp only
            split
            · intro h; exact Bool.noConfusion h
            · split
              · intro h; exact Bool.noConfusion h
              · intro h; exact Bool.noConfusion h
  · intro spellIndex
    unfold castSpell
    split
    · intro _ _; rfl
    · split
      · intro _ _; rfl
      · rename_i spell _
        split
        · intro _ _; rfl
        · split
          · intro _ _; rfl
          · simp only
            split
            · rename_i hx
              intro _ hplaced
              rw [World.get_upd_field (fun c => c.xPos) w self target
                (fun c => c.spendMP spell.mpCost) (fun _ => rfl)] at hx
              exact absurd hx hplaced
            · intro h; exact Bool.noConfusion h

theorem C10_failed_action_unchanged_witness :
    ((attack farTargetWorld 0 1 (fun _ => plainRoll)).1 = false
      ∧ (useItem farTargetWorld 0 1 0).1 = false
      ∧ (castSpell farTargetWorld 0 1 0).1 = false
      ∧ (farTargetWorld.get 1).xPos ≠ -1)
    ∧ (attack farTargetWorld 0 1 (fun _ => plainRoll)).2 = farTargetWorld
    ∧ (useItem farTargetWorld 0 1 0).2 = farTargetWorld
    ∧ (castSpell farTargetWorld 0 1 0).2 = farTargetWorld :=
  ⟨by decide,
    (C10_failed_action_unchanged farTargetWorld 0 1).1 (fun _ => plainRoll) (by decide),
    (C10_failed_action_unchanged farTargetWorld 0 1).2.1 0 (by decide),
    (C10_failed_action_unchanged farTargetWorld 0 1).2.2 0 (by decide) (by decide)⟩

theorem SameKit.refl (w : World) : SameKit w w := fun _ => ⟨rfl, rfl⟩

theorem SameKit.trans {w w1 w2 : World} (h1 : SameKit w w1) (h2 : SameKit w1 w2) :
    SameKit w w2 :=
  fun j => ⟨(h2 j).1.trans (h1 j).1, (h2 j).2.trans (h1 j).2⟩

theorem upd_sameKit (w : World) (i : Nat) (f : Combatant → Combatant) (hf : KeepsKit f) :
    SameKit w (w.upd i f) := by
  intro j
  exact ⟨World.get_upd_field (fun c => c.team) w i j f (fun c => (hf c).1),
    World.get_upd_field (fun c => c.equippedArmor) w i j f (fun c => (hf c).2)⟩

theorem tickLoop_kit (n : Nat) :
    ∀ c : Combatant, (Combatant.tickLoop n c).team = c.team
      ∧ (Combatant.tickLoop n c).equippedArmor = c.equippedArmor := by
  induction n with
  | zero => intro c; exact ⟨rfl, rfl⟩
  | succ n ih =>
    intro c
    unfold Combatant.tickLoop
    simp only
    split
    · exact ⟨rfl, rfl⟩
    · exact ih _

theorem keepsKit_addTicks (ticks : Int) : KeepsKit (fun c => c.addTicks ticks) :=
  fun _ => tickLoop_kit _ _

theorem keepsKit_loseHealth (a : Int) : KeepsKit (fun c => c.loseHealth a) := fun _ => ⟨rfl, rfl⟩

theorem keepsKit_reduceMorale (a : Int) : KeepsKit (fun c => c.reduceMorale a) :=
  fun _ => ⟨rfl, rfl⟩

theorem keepsKit_drainMP (a : Int) : KeepsKit (fun c => c.drainMP a) := fun _ => ⟨rfl, rfl⟩

theorem keepsKit_heal (a : Int) : KeepsKit (fun c => c.heal a) := fun _ => ⟨rfl, rfl⟩

theorem keepsKit_spendMP (a : Int) : KeepsKit (fun c => c.spendMP a) := fun _ => ⟨rfl, rfl⟩

theorem keepsKit_applyStatus (n : String) (d p : Int) : KeepsKit (fun c => c.applyStatus n d p) :=
  fun _ => ⟨rfl, rfl⟩

theorem damageSelf_sameKit (w : World) (self : Nat) (amount : Int) (element : String) :
    SameKit w (damageSelf w self amount element) := by
  unfold damageSelf
  simp only
  have h1 := upd_sameKit w self _ (keepsKit_loseHealth amount)
  have h2 : SameKit w (if element = "Psi" then
      (w.upd self (fun c => c.loseHealth amount)).upd self (fun c => c.reduceMorale amount)
      else w.upd self (fun c => c.loseHealth amount)) := by
    split
    · exact h1.trans (upd_sameKit _ self _ (keepsKit_reduceMorale amount))
    · exact h1
  split
  · exact h2.trans (upd_sameKit _ self _ (keepsKit_drainMP _))
  · exact h2

theorem damageSelf_frame (w : World) (self : Nat) (amount : Int) (element : String) (j : Nat)
    (hj : j ≠ self) : (damageSelf w self amount element).get j = w.get j := by
  unfold damageSelf
  simp only
  split
  · rw [World.get_upd_ne _ _ _ _ hj]
    split
    · rw [World.get_upd_ne _ _ _ _ hj, World.get_upd_ne _ _ _ _ hj]
    · rw [World.get_upd_ne _ _ _ _ hj]
  · split
    · rw [World.get_upd_ne _ _ _ _ hj, World.get_upd_ne _ _ _ _ hj]
    · rw [World.get_upd_ne _ _ _ _ hj]

theorem damageSelf_grid (w : World) (self : Nat) (amount : Int) (element : String) :
    (damageSelf w self amount element).grid = w.grid := by
  unfold damageSelf
  simp only
  split
  · split <;> rfl
  · split <;> rfl

/-- Without Poison armor on the target, `takeDamage` is its head: no reflection. -/
theorem takeDamageAux_of_not_poison (fuel : Nat) (w : World) (self : Nat) (amount : Int)
    (element : String) (hasGrid : Bool)
    (hnp : (w.get self).equippedArmor.elementType ≠ "Poison") :
    takeDamageAux fuel w self amount element hasGrid = damageSelf w self amount element := by
  have hk := (damageSelf_sameKit w self amount element self).2
  have hc : ¬ ((damageSelf w self amount element).get self).equippedArmor.elementType = "Poison" := by
    rw [hk]; exact hnp
  cases fuel with
  | zero =>
    unfold takeDamageAux
    simp only
    rw [if_neg (fun h => hc h.1)]
  | succ f =>
    unfold takeDamageAux
    simp only
    rw [if_neg (fun h => hc h.1)]

theorem takeDamage_of_not_poison (w : World) (self : Nat) (amount : Int)
    (element : String) (hasGrid : Bool)
    (hnp : (w.get self).equippedArmor.elementType ≠ "Poison") :
    takeDamage w self amount element hasGrid = damageSelf w self amount element :=
  takeDamageAux_of_not_poison _ w self amount element hasGrid hnp

theorem elementalSideEffect_sameKit (w : World) (self victim : Nat) (elem : String)
    (burnBase damage : Int) : SameKit w (elementalSideEffect w self victim elem burnBase damage) := by
  unfold elementalSideEffect
  split
  · exact upd_sameKit _ _ _ (keepsKit_applyStatus _ _ _)
  · split
    · exact upd_sameKit _ _ _ (keepsKit_applyStatus _ _ _)
    · split
      · exact upd_sameKit _ _ _ (keepsKit_addTicks _)
      · split
        · exact upd_sameKit _ _ _ (keepsKit_heal _)
        · exact SameKit.refl w

theorem elementalSideEffect_frame (w : World) (self victim : Nat) (elem : String)
    (burnBase damage : Int) (j : Nat) (h1 : j ≠ victim) (h2 : j ≠ self) :
    (elementalSideEffect w self victim elem burnBase damage).get j = w.get j := by
  unfold elementalSideEffect
  split
  · exact World.get_upd_ne _ _ _ _ h1
  · split
    · exact World.get_upd_ne _ _ _ _ h1
    · split
      · exact World.get_upd_ne _ _ _ _ h1
      · split
        · exact World.get_upd_ne _ _ _ _ h2
        · rfl

theorem elementalSideEffect_grid (w : World) (self victim : Nat) (elem : String)
    (burnBase damage : Int) :
    (elementalSideEffect w self victim elem burnBase damage).grid = w.grid := by
  unfold elementalSideEffect
  split
  · rfl
  · split
    · rfl
    · split
      · rfl
      · split <;> rfl

/-- On a victim without Poison armor the spell effect touches the victim and the
caster only, and keeps every team and armor. -/
theorem applySpellEffect_of_not_poison (w : World) (self victim : Nat) (spell : Spell)
    (hnp : (w.get victim).equippedArmor.elementType ≠ "Poison") :
    SameKit w (applySpellEffect w self victim spell)
    ∧ (applySpellEffect w self victim spell).grid = w.grid
    ∧ ∀ j, j ≠ victim → j ≠ self → (applySpellEffect w self victim spell).get j = w.get j := by
  have hk := elementalSideEffect_sameKit w self victim spell.elementType spell.magicalAttack
    (spellDamage spell (w.get victim))
  have hnp1 : ((elementalSideEffect w self victim spell.elementType spell.magicalAttack
      (spellDamage spell (w.get victim))).get victim).equippedArmor.elementType ≠ "Poison" := by
    rw [(hk victim).2]; exact hnp
  unfold applySpellEffect
  simp only
  rw [takeDamage_of_not_poison _ _ _ _ _ hnp1]
  refine ⟨hk.trans (damageSelf_sameKit _ _ _ _), ?_, ?_⟩
  · rw [damageSelf_grid, elementalSideEffect_grid]
  · intro j h1 h2
    rw [damageSelf_frame _ _ _ _ _ h1, elementalSideEffect_frame _ _ _ _ _ _ _ h1 h2]

theorem spared_ne_self (w : World) (self : Nat) (category : String) (j : Nat)
    (h : spared w self category j) : j ≠ self := by
  unfold spared at h
  split at h
  · intro e
    rw [e] at h
    exact h rfl
  · exact h.1

/-- One cell of the scan keeps the teams and armors and leaves the spared
combatants alone, when no combatant wears Poison armor. -/
theorem castSpellCell_spared (w : World) (self target : Nat) (spell : Spell)
    (hnp : ∀ j, (w.get j).equippedArmor.elementType ≠ "Poison")
    (wi : World) (p : Int × Int)
    (hk : SameKit w wi) (hf : ∀ j, spared w self spell.category j → wi.get j = w.get j) :
    SameKit w (castSpellCell self target spell wi p)
    ∧ ∀ j, spared w self spell.category j → (castSpellCell self target spell wi p).get j = w.get j := by
  have happly : ∀ potential : Nat,
      ¬ spared w self spell.category potential →
      SameKit w (applySpellEffect wi self potential spell)
      ∧ ∀ j, spared w self spell.category j →
          (applySpellEffect wi self potential spell).get j = w.get j := by
    intro potential hns
    have hnpi : (wi.get potential).equippedArmor.elementType ≠ "Poison" := by
      rw [(hk potential).2]; exact hnp potential
    obtain ⟨a, _, c⟩ := applySpellEffect_of_not_poison wi self potential spell hnpi
    refine ⟨hk.trans a, ?_⟩
    intro j hj
    have h1 : j ≠ potential := by
      intro e
      rw [e] at hj
      exact hns hj
    rw [c j h1 (spared_ne_self w self _ j hj)]
    exact hf j hj
  unfold castSpellCell
  split
  · exact ⟨hk, hf⟩
  · rename_i potential _
    split
    · split
      · split
        · rename_i hbuff
          split
          · rename_i hteam
            apply happly
            unfold spared
            rw [if_pos hbuff]
            intro hne
            apply hne
            rw [← (hk potential).1, ← (hk self).1]
            exact hteam
          · exact ⟨hk, hf⟩
        · rename_i hbuff
          split
          · exact ⟨hk, hf⟩
          · rename_i hteam
            apply happly
            unfold spared
            rw [if_neg hbuff]
            intro hsp
            apply hteam
            rw [(hk potential).1, (hk self).1]
            exact hsp.2
      · exact ⟨hk, hf⟩
    · exact ⟨hk, hf⟩

theorem castSpell_scan_spared (w : World) (self target : Nat) (spell : Spell)
    (hnp : ∀ j, (w.get j).equippedArmor.elementType ≠ "Poison") (cells : List (Int × Int)) :
    ∀ wi : World, SameKit w wi →
      (∀ j, spared w self spell.category j → wi.get j = w.get j) →
      ∀ j, spared w self spell.category j →
        (cells.foldl (castSpellCell self target spell) wi).get j = w.get j := by
  induction cells with
  | nil => intro wi _ hf j hj; exact hf j hj
  | cons p rest ih =>
    intro wi hk hf j hj
    obtain ⟨a, b⟩ := castSpellCell_spared w self target spell hnp wi p hk hf
    exact ih _ a b j hj

theorem get_not_poison (w : World)
    (hnp : ∀ c ∈ w.combatants, c.equippedArmor.elementType ≠ "Poison") (j : Nat) :
    (w.get j).equippedArmor.elementType ≠ "Poison" := by
  by_cases hj : j < w.combatants.length
  · exact hnp _ (getD_mem_or_default _ _ _ hj)
  · have : w.get j = default := by
      unfold World.get
      exact List.getD_eq_default _ _ (not_lt.mp hj)
    rw [this]
    decide

/-- C9, as stated, fails through the reflection of Poison armor. A "Debuff" cast
on an opponent in Poison armor takes 2 health from the teammate of the caster
that stands next to that opponent; a "Buff" cast on a teammate in Poison armor
takes 2 health from the opponent next to that teammate. -/
theorem C9_poison_reflection_counterexample :
    ((castSpell poisonDebuffWorld 0 1 0).1 = true
      ∧ (poisonDebuffWorld.get 2).team = (poisonDebuffWorld.get 0).team
      ∧ (poisonDebuffWorld.get 2).currentHealth = 10
      ∧ ((castSpell poisonDebuffWorld 0 1 0).2.get 2).currentHealth = 8)
    ∧ ((castSpell poisonBuffWorld 0 1 0).1 = true
      ∧ (poisonBuffWorld.get 2).team ≠ (poisonBuffWorld.get 0).team
      ∧ (poisonBuffWorld.get 2).currentHealth = 10
      ∧ ((castSpell poisonBuffWorld 0 1 0).2.get 2).currentHealth = 8) := by
  refine ⟨⟨by decide, by decide, by decide, by decide⟩, by decide, by decide, by decide, by decide⟩

/-- C9, amended: when no combatant wears Poison armor, a castSpell of category
"Buff" leaves every combatant of a team other than the caster's exactly as it
was, and a castSpell of any other category leaves every combatant of the
caster's team other than the caster exactly as it was; `spell` is the spell
at `spellIndex`, and the cast need not even succeed. -/
theorem C9_castSpell_team_filter (w : World) (self target : Nat) (spellIndex : Int) (spell : Spell)
    (hnp : ∀ c ∈ w.combatants, c.equippedArmor.elementType ≠ "Poison")
    (hspell : (w.get self).knownSpells[spellIndex.toNat]? = some spell) :
    (spell.category = "Buff" → ∀ j, (w.get j).team ≠ (w.get self).team →
        (castSpell w self target spellIndex).2.get j = w.get j)
    ∧ (spell.category ≠ "Buff" → ∀ j, j ≠ self → (w.get j).team = (w.get self).team →
        (castSpell w self target spellIndex).2.get j = w.get j) := by
  have hmain : ∀ j, spared w self spell.category j →
      (castSpell w self target spellIndex).2.get j = w.get j := by
    intro j hj
    have hjs := spared_ne_self w self _ j hj
    unfold castSpell
    split
    · rfl
    · rw [hspell]
      simp only
      split
      · rfl
      · split
        · rfl
        · split
          · exact World.get_upd_ne _ _ _ _ hjs
          · exact castSpell_scan_spared w self target spell (get_not_poison w hnp) _ _
              (upd_sameKit w self _ (keepsKit_spendMP _))
              (fun k hk => World.get_upd_ne _ _ _ _ (spared_ne_self w self _ k hk)) j hj
  constructor
  · intro hb j hj
    apply hmain
    unfold spared
    rw [if_pos hb]
    exact hj
  · intro hb j h1 h2
    apply hmain
    unfold spared
    rw [if_neg hb]
    exact ⟨h1, h2⟩

theorem C9_castSpell_team_filter_witness :
    ((∀ c ∈ plainRowWorld.combatants, c.equippedArmor.elementType ≠ "Poison")
      ∧ (castSpell plainRowWorld 0 1 0).1 = true
      ∧ ((castSpell plainRowWorld 0 1 0).2.get 1).currentHealth = 6)
    ∧ (castSpell plainRowWorld 0 1 0).2.get 2 = plainRowWorld.get 2 :=
  ⟨by decide,
    (C9_castSpell_team_filter plainRowWorld 0 1 0 _ (by decide) rfl).2 (by decide) 2
      (by decide) (by decide)⟩

theorem SameFixed.refl_fixed (w : World) : SameFixed w w := fun _ => rfl

theorem SameFixed.trans_fixed {w w1 w2 : World} (h1 : SameFixed w w1) (h2 : SameFixed w1 w2) :
    SameFixed w w2 :=
  fun j => (h2 j).trans (h1 j)

theorem SameFixed.team {w w1 : World} (h : SameFixed w w1) (j : Nat) :
    (w1.get j).team = (w.get j).team := congrArg (fun t => t.2.1) (h j)

theorem SameFixed.fled {w w1 : World} (h : SameFixed w w1) (j : Nat) :
    (w1.get j).fled = (w.get j).fled := congrArg (fun t => t.2.2.2.2.2.1) (h j)

theorem SameFixed.guarding {w w1 : World} (h : SameFixed w w1) (j : Nat) :
    (w1.get j).guarding = (w.get j).guarding := congrArg (fun t => t.2.2.2.2.1) (h j)

theorem SameFixed.armor {w w1 : World} (h : SameFixed w w1) (j : Nat) :
    (w1.get j).equippedArmor = (w.get j).equippedArmor :=
  congrArg (fun t => t.2.2.2.2.2.2.1) (h j)

theorem SameFixed.weapon {w w1 : World} (h : SameFixed w w1) (j : Nat) :
    (w1.get j).equippedWeapon = (w.get j).equippedWeapon :=
  congrArg (fun t => t.2.2.2.2.2.2.2.1) (h j)

theorem SameFixed.xPos {w w1 : World} (h : SameFixed w w1) (j : Nat) :
    (w1.get j).xPos = (w.get j).xPos := congrArg (fun t => t.2.2.2.2.2.2.2.2.2.2.1) (h j)

theorem SameFixed.yPos {w w1 : World} (h : SameFixed w w1) (j : Nat) :
    (w1.get j).yPos = (w.get j).yPos := congrArg (fun t => t.2.2.2.2.2.2.2.2.2.2.2) (h j)

theorem upd_sameFixed (w : World) (i : Nat) (f : Combatant → Combatant) (hf : KeepsFixed f) :
    SameFixed w (w.upd i f) :=
  fun j => World.get_upd_field Combatant.fixedPart w i j f hf

theorem tickLoop_fixed (n : Nat) :
    ∀ c : Combatant, (Combatant.tickLoop n c).fixedPart = c.fixedPart := by
  induction n with
  | zero => intro c; rfl
  | succ n ih =>
    intro c
    unfold Combatant.tickLoop
    simp only
    split
    · rfl
    · exact ih _

theorem keepsFixed_addTicks (ticks : Int) : KeepsFixed (fun c => c.addTicks ticks) :=
  fun _ => tickLoop_fixed _ _

theorem keepsFixed_loseHealth (a : Int) : KeepsFixed (fun c => c.loseHealth a) := fun _ => rfl

theorem keepsFixed_reduceMorale (a : Int) : KeepsFixed (fun c => c.reduceMorale a) := fun _ => rfl

theorem keepsFixed_drainMP (a : Int) : KeepsFixed (fun c => c.drainMP a) := fun _ => rfl

theorem keepsFixed_heal (a : Int) : KeepsFixed (fun c => c.heal a) := fun _ => rfl

theorem keepsFixed_spendMP (a : Int) : KeepsFixed (fun c => c.spendMP a) := fun _ => rfl

theorem keepsFixed_applyStatus (n : String) (d p : Int) :
    KeepsFixed (fun c => c.applyStatus n d p) := fun _ => rfl

theorem damageSelf_sameFixed (w : World) (self : Nat) (amount : Int) (element : String) :
    SameFixed w (damageSelf w self amount element) := by
  unfold damageSelf
  simp only
  have h1 := upd_sameFixed w self _ (keepsFixed_loseHealth amount)
  have h2 : SameFixed w (if element = "Psi" then
      (w.upd self (fun c => c.loseHealth amount)).upd self (fun c => c.reduceMorale amount)
      else w.upd self (fun c => c.loseHealth amount)) := by
    split
    · exact h1.trans_fixed (upd_sameFixed _ self _ (keepsFixed_reduceMorale amount))
    · exact h1
  split
  · exact h2.trans_fixed (upd_sameFixed _ self _ (keepsFixed_drainMP _))
  · exact h2

/-- A fold of steps that keep the grid and the fixed parts keeps them. -/
theorem foldl_sameFixed {α : Type} (step : World → α → World)
    (hstep : ∀ w a, SameFixed w (step w a) ∧ (step w a).grid = w.grid) (l : List α) :
    ∀ w : World, SameFixed w (l.foldl step w) ∧ (l.foldl step w).grid = w.grid := by
  induction l with
  | nil => intro w; exact ⟨SameFixed.refl_fixed w, rfl⟩
  | cons a l ih =>
    intro w
    obtain ⟨h1, h2⟩ := hstep w a
    obtain ⟨h3, h4⟩ := ih (step w a)
    exact ⟨h1.trans_fixed h3, h4.trans h2⟩

theorem reflectStep_sameFixed (reflect : World → Nat → World)
    (hr : ∀ w n, SameFixed w (reflect w n) ∧ (reflect w n).grid = w.grid)
    (self : Nat) (wi : World) (d : Int × Int) :
    SameFixed wi (reflectStep reflect self wi d) ∧ (reflectStep reflect self wi d).grid = wi.grid := by
  unfold reflectStep
  split
  · split
    · exact hr _ _
    · exact ⟨SameFixed.refl_fixed wi, rfl⟩
  · exact ⟨SameFixed.refl_fixed wi, rfl⟩

/-- The method `takeDamage`, reflections included, writes neither the grid nor
the fixed part of any combatant. -/
theorem takeDamageAux_sameFixed (fuel : Nat) :
    ∀ (w : World) (self : Nat) (amount : Int) (element : String) (hasGrid : Bool),
      SameFixed w (takeDamageAux fuel w self amount element hasGrid)
      ∧ (takeDamageAux fuel w self amount element hasGrid).grid = w.grid := by
  induction fuel with
  | zero =>
    intro w self amount element hasGrid
    have h3 := damageSelf_sameFixed w self amount element
    have g3 := damageSelf_grid w self amount element
    unfold takeDamageAux
    simp only
    split
    · split
      · exact ⟨h3, g3⟩
      · exact ⟨h3, g3⟩
    · exact ⟨h3, g3⟩
  | succ f ih =>
    intro w self amount element hasGrid
    have h3 := damageSelf_sameFixed w self amount element
    have g3 := damageSelf_grid w self amount element
    unfold takeDamageAux
    simp only
    split
    · split
      · obtain ⟨a, b⟩ := foldl_sameFixed
          (reflectStep (fun wi n => takeDamageAux f wi n (amount.tdiv 2) "Reflect" true) self)
          (fun wi d => reflectStep_sameFixed _ (fun w1 n => ih w1 n _ _ _) self wi d)
          checkXY (damageSelf w self amount element)
        exact ⟨h3.trans_fixed a, b.trans g3⟩
      · exact ⟨h3, g3⟩
    · exact ⟨h3, g3⟩

theorem takeDamage_sameFixed (w : World) (self : Nat) (amount : Int) (element : String)
    (hasGrid : Bool) :
    SameFixed w (takeDamage w self amount element hasGrid)
    ∧ (takeDamage w self amount element hasGrid).grid = w.grid :=
  takeDamageAux_sameFixed _ w self amount element hasGrid

theorem elementalSideEffect_sameFixed (w : World) (self victim : Nat) (elem : String)
    (burnBase damage : Int) :
    SameFixed w (elementalSideEffect w self victim elem burnBase damage) := by
  unfold elementalSideEffect
  split
  · exact upd_sameFixed _ _ _ (keepsFixed_applyStatus _ _ _)
  · split
    · exact upd_sameFixed _ _ _ (keepsFixed_applyStatus _ _ _)
    · split
      · exact upd_sameFixed _ _ _ (keepsFixed_addTicks _)
      · split
        · exact upd_sameFixed _ _ _ (keepsFixed_heal _)
        · exact SameFixed.refl_fixed w

theorem attackStep_sameFixed (w : World) (self target : Nat) (r : AttackRoll) :
    SameFixed w (attackStep w self target r) ∧ (attackStep w self target r).grid = w.grid := by
  unfold attackStep
  simp only
  split
  · exact ⟨SameFixed.refl_fixed w, rfl⟩
  · obtain ⟨a, b⟩ := takeDamage_sameFixed
      (elementalSideEffect w self target (w.get self).equippedWeapon.elementType
        (hitDamage (w.get self) (w.get target) r).productDamage
        (hitDamage (w.get self) (w.get target) r).finalDamage) target
      ((hitDamage (w.get self) (w.get target) r).finalDamage
        + (hitDamage (w.get self) (w.get target) r).critDamage)
      (w.get self).equippedWeapon.elementType true
    exact ⟨(elementalSideEffect_sameFixed _ _ _ _ _ _).trans_fixed a,
      b.trans (elementalSideEffect_grid _ _ _ _ _ _)⟩

theorem attackLoop_sameFixed (self target : Nat) (rolls : Nat → AttackRoll) (n : Nat) :
    ∀ (i : Nat) (w : World), SameFixed w (attackLoop self target rolls n i w)
      ∧ (attackLoop self target rolls n i w).grid = w.grid := by
  induction n with
  | zero => intro i w; exact ⟨SameFixed.refl_fixed w, rfl⟩
  | succ n ih =>
    intro i w
    unfold attackLoop
    split
    · obtain ⟨a, b⟩ := attackStep_sameFixed w self target (rolls i)
      obtain ⟨c, d⟩ := ih (i + 1) (attackStep w self target (rolls i))
      exact ⟨a.trans_fixed c, d.trans b⟩
    · exact ⟨SameFixed.refl_fixed w, rfl⟩

theorem attack_sameFixed (w : World) (self target : Nat) (rolls : Nat → AttackRoll) :
    SameFixed w (attack w self target rolls).2 ∧ (attack w self target rolls).2.grid = w.grid := by
  unfold attack
  split
  · exact ⟨SameFixed.refl_fixed w, rfl⟩
  · exact attackLoop_sameFixed _ _ _ _ _ _

theorem applySpellEffect_sameFixed (w : World) (self victim : Nat) (spell : Spell) :
    SameFixed w (applySpellEffect w self victim spell)
    ∧ (applySpellEffect w self victim spell).grid = w.grid := by
  unfold applySpellEffect
  simp only
  obtain ⟨a, b⟩ := takeDamage_sameFixed
    (elementalSideEffect w self victim spell.elementType spell.magicalAttack
      (spellDamage spell (w.get victim))) victim (spellDamage spell (w.get victim))
    spell.elementType true
  exact ⟨(elementalSideEffect_sameFixed _ _ _ _ _ _).trans_fixed a,
    b.trans (elementalSideEffect_grid _ _ _ _ _ _)⟩

theorem castSpellCell_sameFixed (self target : Nat) (spell : Spell) (w : World) (p : Int × Int) :
    SameFixed w (castSpellCell self target spell w p)
    ∧ (castSpellCell self target spell w p).grid = w.grid := by
  unfold castSpellCell
  split
  · exact ⟨SameFixed.refl_fixed w, rfl⟩
  · split
    · split
      · split
        · split
          · exact applySpellEffect_sameFixed _ _ _ _
          · exact ⟨SameFixed.refl_fixed w, rfl⟩
        · split
          · exact ⟨SameFixed.refl_fixed w, rfl⟩
          · exact applySpellEffect_sameFixed _ _ _ _
      · exact ⟨SameFixed.refl_fixed w, rfl⟩
    · exact ⟨SameFixed.refl_fixed w, rfl⟩

theorem castSpell_sameFixed (w : World) (self target : Nat) (spellIndex : Int) :
    SameFixed w (castSpell w self target spellIndex).2
    ∧ (castSpell w self target spellIndex).2.grid = w.grid := by
  unfold castSpell
  split
  · exact ⟨SameFixed.refl_fixed w, rfl⟩
  · split
    · exact ⟨SameFixed.refl_fixed w, rfl⟩
    · rename_i spell _
      split
      · exact ⟨SameFixed.refl_fixed w, rfl⟩
      · split
        · exact ⟨SameFixed.refl_fixed w, rfl⟩
        · have h1 := upd_sameFixed w self _ (keepsFixed_spendMP spell.mpCost)
          simp only
          split
          · exact ⟨h1, rfl⟩
          · obtain ⟨a, b⟩ := foldl_sameFixed (castSpellCell self target spell)
              (fun wi p => castSpellCell_sameFixed self target spell wi p)
              (w.upd self (fun c => c.spendMP spell.mpCost)).grid.scanOrder
              (w.upd self (fun c => c.spendMP spell.mpCost))
            exact ⟨h1.trans_fixed a, b⟩

/-- Without statuses the tick loop changes neither the health nor the statuses. -/
theorem tickLoop_no_status (n : Nat) :
    ∀ c : Combatant, c.statuses = [] →
      (Combatant.tickLoop n c).currentHealth = c.currentHealth
      ∧ (Combatant.tickLoop n c).statuses = [] := by
  induction n with
  | zero => intro c hs; exact ⟨rfl, hs⟩
  | succ n ih =>
    intro c hs
    rw [Combatant.tickLoop]
    simp only [hs, Combatant.tickStatuses]
    split
    · exact ⟨rfl, rfl⟩
    · exact ih _ rfl

/-- One pass over a single Burn status. -/
theorem tickStatuses_single_burn (h d p : Int) :
    Combatant.tickStatuses h [{ name := "Burn", durationTicks := d, potency := p }]
      = (if h - p < 0 then 0 else h - p,
         if d - 1 ≤ 0 then [] else [{ name := "Burn", durationTicks := d - 1, potency := p }]) := by
  simp only [Combatant.tickStatuses, if_true]
  split <;> rfl

/-- The tick loop on a single Burn of duration `k + 1`: after at least `k + 1`
ticks the health is down by `(k + 1) * p` and the status is gone. -/
theorem tickLoop_single_burn (p : Int) (hp : 0 ≤ p) (k : Nat) :
    ∀ (n : Nat) (c : Combatant), k + 1 ≤ n →
      c.statuses = [{ name := "Burn", durationTicks := (k : Int) + 1, potency := p }] →
      ((k : Int) + 1) * p < c.currentHealth →
      (Combatant.tickLoop n c).currentHealth = c.currentHealth - ((k : Int) + 1) * p
      ∧ (Combatant.tickLoop n c).statuses = [] := by
  induction k with
  | zero =>
    intro n c hn hs hh
    obtain ⟨m, rfl⟩ : ∃ m, n = m + 1 := ⟨n - 1, by omega⟩
    have hh1 : p < c.currentHealth := by simpa using hh
    have e1 : ¬ (c.currentHealth - p < 0) := by omega
    have e2 : (((0 : Nat) : Int) + 1 - 1 ≤ 0) := by simp
    have e3 : ¬ (c.currentHealth - p ≤ 0) := by omega
    rw [Combatant.tickLoop]
    simp only [hs, tickStatuses_single_burn, if_neg e1, if_pos e2, if_neg e3]
    have := tickLoop_no_status m
      { c with currentHealth := c.currentHealth - p, statuses := [] } rfl
    simpa using this
  | succ k ih =>
    intro n c hn hs hh
    obtain ⟨m, rfl⟩ : ∃ m, n = m + 1 := ⟨n - 1, by omega⟩
    have hexp : (((k + 1 : Nat) : Int) + 1) * p = ((k : Int) + 1) * p + p := by
      push_cast; ring
    rw [hexp] at hh
    have hkp : 0 ≤ ((k : Int) + 1) * p := mul_nonneg (by omega) hp
    have hd : (((k + 1 : Nat) : Int) + 1 - 1) = (k : Int) + 1 := by push_cast; ring
    have e1 : ¬ (c.currentHealth - p < 0) := by omega
    have e2 : ¬ ((k : Int) + 1 ≤ 0) := by omega
    have e3 : ¬ (c.currentHealth - p ≤ 0) := by omega
    rw [Combatant.tickLoop]
    simp only [hs, tickStatuses_single_burn, hd, if_neg e1, if_neg e2, if_neg e3]
    have := ih m { c with currentHealth := c.currentHealth - p,
                          statuses := [{ name := "Burn", durationTicks := (k : Int) + 1, potency := p }] }
      (by omega) rfl (by show ((k : Int) + 1) * p < c.currentHealth - p; omega)
    rw [hexp]
    refine ⟨?_, this.2⟩
    rw [this.1]
    show c.currentHealth - p - ((k : Int) + 1) * p = _
    ring

/-- C14: a combatant whose only status is a Burn of duration d > 0 and potency
p >= 0, with health h > d * p, has after addTicks(n), n >= d, the health
h - d * p and no status, and a later addTicks leaves the health unchanged;
with d = 5, p = 3, n = 5 the loss is exactly 15. -/
theorem C14_burn_runs_out (c : Combatant) (d p n : Int)
    (hs : c.statuses = [{ name := "Burn", durationTicks := d, potency := p }])
    (hd : 0 < d) (hp : 0 ≤ p) (hh : d * p < c.currentHealth) (hn : d ≤ n) :
    (c.addTicks n).currentHealth = c.currentHealth - d * p
    ∧ (c.addTicks n).statuses = []
    ∧ (∀ m : Int, ((c.addTicks n).addTicks m).currentHealth = c.currentHealth - d * p)
    ∧ (d = 5 → p = 3 → n = 5 → (c.addTicks n).currentHealth = c.currentHealth - 15) := by
  obtain ⟨k, hk⟩ : ∃ k : Nat, d = (k : Int) + 1 := ⟨(d - 1).toNat, by omega⟩
  subst hk
  have hmain : (c.addTicks n).currentHealth = c.currentHealth - ((k : Int) + 1) * p
      ∧ (c.addTicks n).statuses = [] :=
    tickLoop_single_burn p hp k n.toNat { c with initiative := c.initiative + n } (by omega) hs hh
  refine ⟨hmain.1, hmain.2, ?_, ?_⟩
  · intro m
    have := tickLoop_no_status m.toNat
      { c.addTicks n with initiative := (c.addTicks n).initiative + m } hmain.2
    exact this.1.trans hmain.1
  · intro e1 e2 _
    rw [hmain.1, e1, e2]
    norm_num

theorem C14_burn_runs_out_witness :
    (burningCombatant.statuses = [{ name := "Burn", durationTicks := 5, potency := 3 }]
      ∧ burningCombatant.currentHealth = 40)
    ∧ ((burningCombatant.addTicks 5).currentHealth = burningCombatant.currentHealth - 5 * 3
      ∧ (burningCombatant.addTicks 5).statuses = []
      ∧ (∀ m : Int, ((burningCombatant.addTicks 5).addTicks m).currentHealth
          = burningCombatant.currentHealth - 5 * 3)
      ∧ ((5 : Int) = 5 → (3 : Int) = 3 → (5 : Int) = 5 →
          (burningCombatant.addTicks 5).currentHealth = burningCombatant.currentHealth - 15)) :=
  ⟨by decide,
    C14_burn_runs_out burningCombatant 5 3 5 (by decide) (by decide) (by decide) (by decide)
      (by decide)⟩

theorem acidLoop_eq (l : List StatusEffect) :
    ∀ dr : Int, Combatant.acidLoop dr l = dr - acidSum l := by
  induction l with
  | nil => intro dr; simp [Combatant.acidLoop, acidSum]
  | cons s rest ih =>
    intro dr
    unfold Combatant.acidLoop
    rw [ih]
    by_cases hs : s.name = "Acid"
    · rw [if_pos hs]
      simp only [acidSum, List.filter_cons, hs, decide_True, if_true, List.map_cons, List.sum_cons]
      ring
    · rw [if_neg hs]
      simp only [acidSum, List.filter_cons, hs, decide_False, Bool.false_eq_true, if_false]

theorem getRandomInt_le (lo hi : Int) (raw : Nat) (h : lo ≤ hi) : getRandomInt lo hi raw ≤ hi := by
  unfold getRandomInt
  have hpos : 0 < (hi - lo + 1).toNat := by omega
  have := Nat.mod_lt raw hpos
  omega

theorem attackBaseDR_eq (t : Combatant) :
    attackBaseDR t = max (-80) (max (-80) (t.equippedArmor.damageResistance - acidSum t.statuses)
      + (if t.guarding = true then 100 else 0)) := by
  have hmax : ∀ a : Int, (if a < -80 then -80 else a) = max (-80) a := by
    intro a
    split
    · exact (max_eq_left (by omega)).symm
    · exact (max_eq_right (by omega)).symm
  unfold attackBaseDR Combatant.getEffectiveDR
  simp only [acidLoop_eq, hmax]
  split
  · rfl
  · simp

theorem tdiv_two_pos (a : Int) (h : 0 < a.tdiv 2) : 2 ≤ a ∧ a.tdiv 2 = a / 2 := by
  by_cases ha : 0 ≤ a
  · have e := Int.tdiv_eq_ediv ha (by decide : (0 : Int) ≤ 2)
    rw [e] at h
    exact ⟨by omega, e⟩
  · exfalso
    have h1 : 0 ≤ (-a).tdiv 2 := Int.tdiv_nonneg (by omega) (by decide)
    have h2 : (-(-a)).tdiv 2 = -((-a).tdiv 2) := Int.neg_tdiv (-a) 2
    rw [neg_neg] at h2
    omega

theorem foldl_bind_some {α : Type} (stepC : World → α → Option World) (step : World → α → World)
    (h : ∀ wi a, stepC wi a = some (step wi a)) (l : List α) :
    ∀ w : World, l.foldl (fun acc a => acc.bind (fun wi => stepC wi a)) (some w)
      = some (l.foldl step w) := by
  induction l with
  | nil => intro w; rfl
  | cons a l ih =>
    intro w
    have e : (some w).bind (fun wi => stepC wi a) = some (step w a) := h w a
    rw [List.foldl_cons, List.foldl_cons, e]
    exact ih _

theorem reflectStepChecked_some (reflectC : World → Nat → Option World)
    (reflect : World → Nat → World) (h : ∀ wi n, reflectC wi n = some (reflect wi n))
    (self : Nat) (wi : World) (d : Int × Int) :
    reflectStepChecked reflectC self wi d = some (reflectStep reflect self wi d) := by
  unfold reflectStepChecked reflectStep
  cases wi.grid.getCombatantAt ((wi.get self).xPos + d.1) ((wi.get self).yPos + d.2) with
  | none => rfl
  | some neighbor =>
    simp only
    by_cases hc : (wi.get neighbor).isAlive = true ∧ (wi.get neighbor).team ≠ (wi.get self).team
    · rw [if_pos hc, if_pos hc]
      exact h _ _
    · rw [if_neg hc, if_neg hc]

/-- With `amount < 2 ^ (fuel + 1)` the depth bound is never used up. -/
theorem takeDamageChecked_some (fuel : Nat) :
    ∀ (w : World) (self : Nat) (amount : Int) (element : String) (hasGrid : Bool),
      amount < 2 ^ (fuel + 1) →
      takeDamageChecked fuel w self amount element hasGrid
        = some (takeDamageAux fuel w self amount element hasGrid) := by
  induction fuel with
  | zero =>
    intro w self amount element hasGrid ha
    have hno : ¬ amount.tdiv 2 > 0 := by
      intro h
      have := (tdiv_two_pos amount h).1
      simp at ha
      omega
    unfold takeDamageChecked takeDamageAux
    simp only [if_neg hno]
    split <;> rfl
  | succ f ih =>
    intro w self amount element hasGrid ha
    unfold takeDamageChecked takeDamageAux
    simp only
    split
    · split
      · rename_i hpos
        obtain ⟨h2, he⟩ := tdiv_two_pos amount hpos
        have hhalf : amount.tdiv 2 < 2 ^ (f + 1) := by
          rw [he]
          have : (2 : Int) ^ (f + 1 + 1) = 2 * 2 ^ (f + 1) := by ring
          rw [this] at ha
          omega
        exact foldl_bind_some _ _
          (fun wi d => reflectStepChecked_some _ _ (fun wj n => ih wj n _ _ _ hhalf) self wi d)
          checkXY _
      · rfl
    · rfl

/-- Two depth bounds that are both large enough give the same world. -/
theorem takeDamageAux_fuel_irrelevant (f1 : Nat) :
    ∀ (f2 : Nat) (w : World) (self : Nat) (amount : Int) (element : String) (hasGrid : Bool),
      amount < 2 ^ (f1 + 1) → amount < 2 ^ (f2 + 1) →
      takeDamageAux f1 w self amount element hasGrid
        = takeDamageAux f2 w self amount element hasGrid := by
  induction f1 with
  | zero =>
    intro f2 w self amount element hasGrid h1 _
    have hno : ¬ amount.tdiv 2 > 0 := by
      intro h
      have := (tdiv_two_pos amount h).1
      simp at h1
      omega
    cases f2 with
    | zero => rfl
    | succ g =>
      unfold takeDamageAux
      simp only [if_neg hno]
  | succ f ih =>
    intro f2 w self amount element hasGrid h1 h2
    cases f2 with
    | zero =>
      have hno : ¬ amount.tdiv 2 > 0 := by
        intro h
        have := (tdiv_two_pos amount h).1
        simp at h2
        omega
      unfold takeDamageAux
      simp only [if_neg hno]
    | succ g =>
      unfold takeDamageAux
      simp only
      split
      · split
        · rename_i hpos
          obtain ⟨hge, he⟩ := tdiv_two_pos amount hpos
          have e1 : (2 : Int) ^ (f + 1 + 1) = 2 * 2 ^ (f + 1) := by ring
          have e2 : (2 : Int) ^ (g + 1 + 1) = 2 * 2 ^ (g + 1) := by ring
          rw [e1] at h1
          rw [e2] at h2
          have hh1 : amount.tdiv 2 < 2 ^ (f + 1) := by rw [he]; omega
          have hh2 : amount.tdiv 2 < 2 ^ (g + 1) := by rw [he]; omega
          have hfun : (fun wi n => takeDamageAux f wi n (amount.tdiv 2) "Reflect" true)
              = (fun wi n => takeDamageAux g wi n (amount.tdiv 2) "Reflect" true) := by
            funext wi n
            exact ih g wi n _ _ _ hh1 hh2
          rw [hfun]
        · rfl
      · rfl

theorem lt_two_pow_toNat (a : Int) : a < 2 ^ (a.toNat + 1) := by
  have h1 : a ≤ (a.toNat : Int) := Int.self_le_toNat a
  have h2 : a.toNat < 2 ^ (a.toNat + 1) :=
    Nat.lt_of_lt_of_le (Nat.lt_two_pow a.toNat) (Nat.pow_le_pow_right (by decide) (by omega))
  have h3 : ((a.toNat : Nat) : Int) < ((2 ^ (a.toNat + 1) : Nat) : Int) := by exact_mod_cast h2
  have h4 : ((2 ^ (a.toNat + 1) : Nat) : Int) = (2 : Int) ^ (a.toNat + 1) := by push_cast; rfl
  omega

/-- C13: takeDamage terminates for every amount, grid and arrangement of
combatants. The run with a checked depth bound never uses the bound up: with
the bound `amount` of the model, and with any bound `fuel` such that
amount < 2 ^ (fuel + 1), it returns the world of takeDamage, because each
reflection passes amount/2 on; and once amount/2 is not positive nothing is
reflected. -/
theorem C13_takeDamage_terminates (w : World) (self : Nat) (amount : Int) (element : String)
    (hasGrid : Bool) :
    takeDamageChecked amount.toNat w self amount element hasGrid
      = some (takeDamage w self amount element hasGrid)
    ∧ (∀ fuel : Nat, amount < 2 ^ (fuel + 1) →
        takeDamageChecked fuel w self amount element hasGrid
          = some (takeDamage w self amount element hasGrid))
    ∧ (amount.tdiv 2 ≤ 0 →
        takeDamage w self amount element hasGrid = damageSelf w self amount element) := by
  have hbound := lt_two_pow_toNat amount
  refine ⟨takeDamageChecked_some _ w self amount element hasGrid hbound, ?_, ?_⟩
  · intro fuel hf
    rw [takeDamageChecked_some fuel w self amount element hasGrid hf]
    unfold takeDamage
    rw [takeDamageAux_fuel_irrelevant fuel amount.toNat w self amount element hasGrid hf hbound]
  · intro hle
    have hno : ¬ amount.tdiv 2 > 0 := by omega
    unfold takeDamage
    cases amount.toNat with
    | zero =>
      unfold takeDamageAux
      simp only [if_neg hno]
      split <;> rfl
    | succ f =>
      unfold takeDamageAux
      simp only [if_neg hno]
      split <;> rfl

theorem C13_takeDamage_terminates_witness :
    (takeDamageChecked 4 poisonDuelWorld 0 16 "None" true ≠ none
      ∧ takeDamageChecked 3 poisonDuelWorld 0 16 "None" true = none
      ∧ ((takeDamage poisonDuelWorld 0 16 "None" true).get 0).currentHealth = 100 - 16 - 4 - 1
      ∧ ((takeDamage poisonDuelWorld 0 16 "None" true).get 1).currentHealth = 100 - 8 - 2)
    ∧ takeDamageChecked 4 poisonDuelWorld 0 16 "None" true
        = some (takeDamage poisonDuelWorld 0 16 "None" true) :=
  ⟨by decide, (C13_takeDamage_terminates poisonDuelWorld 0 16 "None" true).2.1 4 (by decide)⟩

/-- A roll of at most 1 is not above a hit chance of at least 1. -/
theorem Frac.not_gt_of_le_one (r hc : Frac) (h1 : Frac.le r ⟨1, 1⟩ = true)
    (h2 : Frac.le ⟨1, 1⟩ hc = true) : Frac.gt r hc = false := by
  unfold Frac.le at h1 h2
  simp only [decide_eq_true_eq, Nat.cast_one, mul_one, one_mul] at h1 h2
  unfold Frac.gt Frac.le
  have hd : (0 : Int) ≤ hc.den := Int.ofNat_nonneg _
  have hr : (0 : Int) ≤ r.den := Int.ofNat_nonneg _
  have e1 : r.num * (hc.den : Int) ≤ (r.den : Int) * hc.den := mul_le_mul_of_nonneg_right h1 hd
  have e2 : (r.den : Int) * hc.den ≤ r.den * hc.num := mul_le_mul_of_nonneg_left h2 hr
  have e3 : r.num * (hc.den : Int) ≤ hc.num * r.den := by
    calc r.num * (hc.den : Int) ≤ (r.den : Int) * hc.den := e1
      _ ≤ r.den * hc.num := e2
      _ = hc.num * r.den := by ring
  simp [e3]

/-- A sub-attack whose roll is not above the hit chance reaches `takeDamage`. -/
theorem attackStep_of_hit (w : World) (self target : Nat) (r : AttackRoll)
    (h : Frac.gt r.hit
      (Frac.sub (w.get self).equippedWeapon.accuracy (w.get target).equippedArmor.evasion) = false) :
    attackStep w self target r =
      takeDamage
        (elementalSideEffect w self target (w.get self).equippedWeapon.elementType
          (hitDamage (w.get self) (w.get target) r).productDamage
          (hitDamage (w.get self) (w.get target) r).finalDamage) target
        ((hitDamage (w.get self) (w.get target) r).finalDamage
          + (hitDamage (w.get self) (w.get target) r).critDamage)
        (w.get self).equippedWeapon.elementType true := by
  unfold attackStep
  simp only [h, Bool.false_eq_true, if_false]

theorem attackMisses_zero (w : World) (self target : Nat) (rolls : Nat → AttackRoll)
    (hacc : Frac.le ⟨1, 1⟩
      (Frac.sub (w.get self).equippedWeapon.accuracy (w.get target).equippedArmor.evasion) = true)
    (hroll : ∀ i, Frac.le (rolls i).hit ⟨1, 1⟩ = true) (n : Nat) :
    ∀ (i : Nat) (w1 : World), SameFixed w w1 → attackMisses self target rolls n i w1 = 0 := by
  induction n with
  | zero => intro i w1 _; rfl
  | succ n ih =>
    intro i w1 hk
    unfold attackMisses
    split
    · have hno : Frac.gt (rolls i).hit (Frac.sub (w1.get self).equippedWeapon.accuracy
          (w1.get target).equippedArmor.evasion) = false := by
        rw [hk.weapon self, hk.armor target]
        exact Frac.not_gt_of_le_one _ _ (hroll i) hacc
      rw [hno, ih (i + 1) _ (hk.trans_fixed (attackStep_sameFixed w1 self target (rolls i)).1)]
      rfl
    · rfl

/-- C15: when the accuracy of the weapon minus the evasion of the armor of the
target is at least 1 and every hit roll is at most 1, no sub-attack of attack
made on the living target is a miss: the count of misses of the loop is 0,
and in every state of the loop the sub-attack is the call of takeDamage on the
target. -/
theorem C15_sure_hit (w : World) (self target : Nat) (rolls : Nat → AttackRoll)
    (hacc : Frac.le ⟨1, 1⟩
      (Frac.sub (w.get self).equippedWeapon.accuracy (w.get target).equippedArmor.evasion) = true)
    (hroll : ∀ i, Frac.le (rolls i).hit ⟨1, 1⟩ = true) :
    attackMisses self target rolls (w.get self).equippedWeapon.numberOfAttacks.toNat 0 w = 0
    ∧ (∀ (w1 : World) (i : Nat), SameFixed w w1 →
        attackStep w1 self target (rolls i) =
          takeDamage
            (elementalSideEffect w1 self target (w1.get self).equippedWeapon.elementType
              (hitDamage (w1.get self) (w1.get target) (rolls i)).productDamage
              (hitDamage (w1.get self) (w1.get target) (rolls i)).finalDamage) target
            ((hitDamage (w1.get self) (w1.get target) (rolls i)).finalDamage
              + (hitDamage (w1.get self) (w1.get target) (rolls i)).critDamage)
            (w1.get self).equippedWeapon.elementType true)
    ∧ (∀ (n i : Nat) (w1 : World), SameFixed w w1 →
        SameFixed w (attackLoop self target rolls n i w1)) := by
  refine ⟨attackMisses_zero w self target rolls hacc hroll _ 0 w (SameFixed.refl_fixed w), ?_, ?_⟩
  · intro w1 i hk
    apply attackStep_of_hit
    rw [hk.weapon self, hk.armor target]
    exact Frac.not_gt_of_le_one _ _ (hroll i) hacc
  · intro n i w1 hk
    exact hk.trans_fixed (attackLoop_sameFixed self target rolls n i w1).1

theorem C15_sure_hit_witness :
    (Frac.le ⟨1, 1⟩ (Frac.sub (sureHitWorld.get 0).equippedWeapon.accuracy
        (sureHitWorld.get 1).equippedArmor.evasion) = true
      ∧ Frac.le worstRoll.hit ⟨1, 1⟩ = true
      ∧ (attack sureHitWorld 0 1 (fun _ => worstRoll)).1 = true
      ∧ ((attack sureHitWorld 0 1 (fun _ => worstRoll)).2.get 1).currentHealth = 100 - 3 * 7)
    ∧ attackMisses 0 1 (fun _ => worstRoll)
        (sureHitWorld.get 0).equippedWeapon.numberOfAttacks.toNat 0 sureHitWorld = 0 :=
  ⟨by decide,
    (C15_sure_hit sureHitWorld 0 1 (fun _ => worstRoll) (by decide)
      (fun _ => (by decide : Frac.le worstRoll.hit ⟨1, 1⟩ = true))).1⟩

theorem getD_replicate_none (n m : Nat) :
    (List.replicate n (none : Option Nat)).getD m none = none := by
  induction n generalizing m with
  | zero => rfl
  | succ n ih =>
    cases m with
    | zero => rfl
    | succ m => simp [List.replicate_succ, ih m]

theorem getD_replicate_row (h k m : Nat) :
    (List.replicate h (List.replicate k (none : Option Nat))).getD m []
      = [] ∨ (List.replicate h (List.replicate k (none : Option Nat))).getD m []
      = List.replicate k none := by
  induction h generalizing m with
  | zero => left; rfl
  | succ h ih =>
    cases m with
    | zero => right; rfl
    | succ m => simpa [List.replicate_succ] using ih m

theorem Grid.create_empty (width height : Int) (x y : Int) :
    (Grid.create width height).getCombatantAt x y = none := by
  unfold Grid.getCombatantAt
  split
  · rfl
  · unfold Grid.cell
    split
    · rfl
    · show ((List.replicate height.toNat (List.replicate width.toNat none)).getD y.toNat []).getD
        x.toNat none = none
      rcases getD_replicate_row height.toNat width.toNat y.toNat with h | h
      · rw [h]; rfl
      · rw [h]; exact getD_replicate_none _ _

theorem Grid.create_WF (width height : Int) : (Grid.create width height).WF := by
  refine ⟨?_, ?_⟩
  · show (List.replicate height.toNat (List.replicate width.toNat none)).length = height.toNat
    exact List.length_replicate _ _
  · intro row hrow
    have hrow1 : row ∈ List.replicate height.toNat (List.replicate width.toNat none) := hrow
    rw [List.mem_replicate] at hrow1
    rw [hrow1.2]
    show (List.replicate width.toNat (none : Option Nat)).length = width.toNat
    exact List.length_replicate _ _

theorem start_consistent (cs : List Combatant) (width height : Int)
    (hun : ∀ c ∈ cs, c.xPos = -1 ∧ c.yPos = -1) :
    Consistent ⟨cs, Grid.create width height⟩ := by
  refine ⟨Grid.create_WF width height, ?_, ?_⟩
  · intro x y c h
    rw [show (World.mk cs (Grid.create width height)).grid = Grid.create width height from rfl,
      Grid.create_empty] at h
    exact Option.noConfusion h
  · intro c
    left
    by_cases hc : c < cs.length
    · exact hun _ (getD_mem_or_default cs default c hc)
    · have : (World.mk cs (Grid.create width height)).get c = default := by
        unfold World.get
        exact List.getD_eq_default _ _ (not_lt.mp hc)
      rw [this]
      exact ⟨rfl, rfl⟩

/-- An operation that writes neither the grid nor a stored position keeps the
agreement of the two. -/
theorem consistent_of_sameFixed (w w1 : World) (hk : SameFixed w w1) (hg : w1.grid = w.grid)
    (h : Consistent w) : Consistent w1 := by
  obtain ⟨h1, h2, h3⟩ := h
  refine ⟨by rw [hg]; exact h1, ?_, ?_⟩
  · intro x y c hc
    rw [hg] at hc
    rw [hk.xPos c, hk.yPos c]
    exact h2 x y c hc
  · intro c
    unfold placed
    rw [hk.xPos c, hk.yPos c, hg]
    exact h3 c

theorem get_eq_default_of_not_lt (w : World) (c : Nat) (hc : ¬ c < w.combatants.length) :
    w.get c = default := by
  unfold World.get
  exact List.getD_eq_default _ _ (not_lt.mp hc)

theorem getCombatantAt_some_inBounds (g : Grid) (x y : Int) (c : Nat)
    (h : g.getCombatantAt x y = some c) : (0 ≤ x ∧ x < g.width) ∧ (0 ≤ y ∧ y < g.height) := by
  unfold Grid.getCombatantAt at h
  by_cases hb : x < 0 ∨ x ≥ g.width ∨ y < 0 ∨ y ≥ g.height
  · rw [if_pos hb] at h
    exact Option.noConfusion h
  · omega

/-- The agreement of grid and positions after `c` has been put on the free cell
`(x, y)` inside the grid: the cell it stood on, if any, is cleared. -/
theorem consistent_relocate (w : World) (c : Nat) (x y : Int) (h : Consistent w)
    (hc : c < w.combatants.length)
    (hx : 0 ≤ x ∧ x < w.grid.width) (hy : 0 ≤ y ∧ y < w.grid.height)
    (hfree : w.grid.getCombatantAt x y = none) (g1 : Grid)
    (hg1 : (placed w c ∧ g1 = w.grid.setCell (w.get c).xPos (w.get c).yPos none)
      ∨ (¬ placed w c ∧ g1 = w.grid)) :
    Consistent { combatants := updAt w.combatants c (fun k => k.setPosition x y),
                 grid := g1.setCell x y (some c) } := by
  obtain ⟨h1, h2, h3⟩ := h
  have hget : ∀ g : Grid, ∀ j, (World.mk (updAt w.combatants c (fun k => k.setPosition x y)) g).get j
      = if j = c then (w.get c).setPosition x y else w.get j := by
    intro g j
    by_cases hj : j = c
    · rw [if_pos hj, hj]
      exact getD_updAt_same w.combatants _ default c hc
    · rw [if_neg hj]
      exact getD_updAt_ne w.combatants _ default c j hj
  have hread : ∀ x1 y1, (g1.setCell x y (some c)).getCombatantAt x1 y1 =
      if x1 = x ∧ y1 = y then some c
      else if placed w c ∧ x1 = (w.get c).xPos ∧ y1 = (w.get c).yPos then none
      else w.grid.getCombatantAt x1 y1 := by
    intro x1 y1
    rcases hg1 with ⟨hp, e⟩ | ⟨hp, e⟩
    · obtain ⟨bx, by1⟩ := placed_inBounds w c hp
      have hwf1 := Grid.setCell_WF w.grid (w.get c).xPos (w.get c).yPos none h1
      rw [e, Grid.getCombatantAt_setCell _ _ _ _ hwf1
        (by rw [Grid.setCell_width]; exact hx) (by rw [Grid.setCell_height]; exact hy),
        Grid.getCombatantAt_setCell _ _ _ _ h1 bx by1]
      by_cases e1 : x1 = x ∧ y1 = y
      · rw [if_pos e1, if_pos e1]
      · rw [if_neg e1, if_neg e1]
        by_cases e2 : x1 = (w.get c).xPos ∧ y1 = (w.get c).yPos
        · rw [if_pos e2, if_pos ⟨hp, e2⟩]
        · rw [if_neg e2, if_neg (fun h => e2 h.2)]
    · rw [e, Grid.getCombatantAt_setCell _ _ _ _ h1 hx hy]
      by_cases e1 : x1 = x ∧ y1 = y
      · rw [if_pos e1, if_pos e1]
      · rw [if_neg e1, if_neg e1, if_neg (fun h => hp h.1)]
  have hwf : (g1.setCell x y (some c)).WF := by
    rcases hg1 with ⟨_, e⟩ | ⟨_, e⟩
    · rw [e]; exact Grid.setCell_WF _ _ _ _ (Grid.setCell_WF _ _ _ _ h1)
    · rw [e]; exact Grid.setCell_WF _ _ _ _ h1
  refine ⟨hwf, ?_, ?_⟩
  · intro x1 y1 d hd
    have hd1 : (g1.setCell x y (some c)).getCombatantAt x1 y1 = some d := hd
    rw [hread] at hd1
    rw [hget]
    by_cases e1 : x1 = x ∧ y1 = y
    · rw [if_pos e1] at hd1
      have hdc : c = d := Option.some.inj hd1
      rw [if_pos hdc.symm, e1.1, e1.2]
      exact ⟨rfl, rfl⟩
    · rw [if_neg e1] at hd1
      by_cases e2 : placed w c ∧ x1 = (w.get c).xPos ∧ y1 = (w.get c).yPos
      · rw [if_pos e2] at hd1
        exact Option.noConfusion hd1
      · rw [if_neg e2] at hd1
        have hpos := h2 x1 y1 d hd1
        have hdc : d ≠ c := by
          intro e
          rw [e] at hd1 hpos
          apply e2
          refine ⟨?_, hpos.1.symm, hpos.2.symm⟩
          unfold placed
          rw [hpos.1, hpos.2]
          exact hd1
        rw [if_neg hdc]
        exact hpos
  · intro j
    by_cases hj : j = c
    · right
      unfold placed
      rw [hget, if_pos hj, hj]
      show (g1.setCell x y (some c)).getCombatantAt x y = some c
      rw [hread, if_pos ⟨rfl, rfl⟩]
    · rcases h3 j with hu | hp
      · left
        rw [hget, if_neg hj]
        exact hu
      · right
        have hp1 : w.grid.getCombatantAt (w.get j).xPos (w.get j).yPos = some j := hp
        unfold placed
        rw [hget, if_neg hj]
        show (g1.setCell x y (some c)).getCombatantAt (w.get j).xPos (w.get j).yPos = some j
        rw [hread]
        have n1 : ¬ ((w.get j).xPos = x ∧ (w.get j).yPos = y) := by
          intro e
          rw [e.1, e.2, hfree] at hp1
          exact Option.noConfusion hp1
        have n2 : ¬ (placed w c ∧ (w.get j).xPos = (w.get c).xPos
            ∧ (w.get j).yPos = (w.get c).yPos) := by
          rintro ⟨hpc, e1, e2⟩
          unfold placed at hpc
          rw [e1, e2, hpc] at hp1
          exact hj (Option.some.inj hp1).symm
        rw [if_neg n1, if_neg n2]
        exact hp1

theorem placeCombatant_consistent (w : World) (c : Nat) (x y : Int) (h : Consistent w)
    (hc : c < w.combatants.length) : Consistent (placeCombatant w c x y).2 := by
  unfold placeCombatant
  by_cases hb : x < 0 ∨ x ≥ w.grid.width ∨ y < 0 ∨ y ≥ w.grid.height
  · rw [if_pos hb]; exact h
  · rw [if_neg hb]
    by_cases hocc : w.grid.cell x y ≠ none
    · rw [if_pos hocc]; exact h
    · rw [if_neg hocc]
      have hfree : w.grid.getCombatantAt x y = none := by
        rw [getCombatantAt_eq_cell _ _ _ hb]
        by_contra hne
        exact hocc hne
      simp only
      apply consistent_relocate w c x y h hc (by omega) (by omega) hfree
      rcases h.2.2 c with hu | hp
      · right
        refine ⟨?_, ?_⟩
        · intro hp
          have := (placed_inBounds w c hp).1.1
          omega
        · rw [if_neg (fun hh => hh.1 hu.1)]
      · left
        refine ⟨hp, ?_⟩
        obtain ⟨bx, by1⟩ := placed_inBounds w c hp
        rw [if_pos ⟨by omega, by omega⟩]

theorem moveCombatant_consistent (w : World) (c : Nat) (dx dy : Int) (h : Consistent w) :
    Consistent (moveCombatant w c dx dy).2 := by
  unfold moveCombatant
  simp only
  by_cases h1 : (w.get c).xPos = -1
  · rw [if_pos h1]; exact h
  · rw [if_neg h1]
    have hc : c < w.combatants.length := by
      by_contra hlt
      rw [get_eq_default_of_not_lt w c hlt] at h1
      exact h1 rfl
    have hp : placed w c := by
      rcases h.2.2 c with hu | hp
      · exact absurd hu.1 h1
      · exact hp
    obtain ⟨bx, by1⟩ := placed_inBounds w c hp
    by_cases hout : (w.get c).xPos + dx < 0 ∨ (w.get c).xPos + dx ≥ w.grid.width
        ∨ (w.get c).yPos + dy < 0 ∨ (w.get c).yPos + dy ≥ w.grid.height
    · rw [if_pos hout]
      obtain ⟨i1, i2, i3⟩ := h
      have hget : ∀ g : Grid, ∀ j, (World.mk (updAt w.combatants c Combatant.flee) g).get j
          = if j = c then (w.get c).flee else w.get j := by
        intro g j
        by_cases hj : j = c
        · rw [if_pos hj, hj]
          exact getD_updAt_same w.combatants _ default c hc
        · rw [if_neg hj]
          exact getD_updAt_ne w.combatants _ default c j hj
      refine ⟨Grid.setCell_WF _ _ _ _ i1, ?_, ?_⟩
      · intro x1 y1 d hd
        have hd1 : (w.grid.setCell (w.get c).xPos (w.get c).yPos none).getCombatantAt x1 y1
            = some d := hd
        rw [Grid.getCombatantAt_setCell _ _ _ _ i1 bx by1] at hd1
        by_cases e : x1 = (w.get c).xPos ∧ y1 = (w.get c).yPos
        · rw [if_pos e] at hd1
          exact Option.noConfusion hd1
        · rw [if_neg e] at hd1
          have hpos := i2 x1 y1 d hd1
          have hdc : d ≠ c := by
            intro e1
            rw [e1] at hpos
            exact e ⟨hpos.1.symm, hpos.2.symm⟩
          rw [hget, if_neg hdc]
          exact hpos
      · intro j
        by_cases hj : j = c
        · left
          rw [hget, if_pos hj]
          exact ⟨rfl, rfl⟩
        · rcases i3 j with hu | hpj
          · left
            rw [hget, if_neg hj]
            exact hu
          · right
            have hpj1 : w.grid.getCombatantAt (w.get j).xPos (w.get j).yPos = some j := hpj
            unfold placed
            rw [hget, if_neg hj]
            show (w.grid.setCell (w.get c).xPos (w.get c).yPos none).getCombatantAt
              (w.get j).xPos (w.get j).yPos = some j
            rw [Grid.getCombatantAt_setCell _ _ _ _ i1 bx by1]
            have n1 : ¬ ((w.get j).xPos = (w.get c).xPos ∧ (w.get j).yPos = (w.get c).yPos) := by
              intro e
              have hpc : w.grid.getCombatantAt (w.get c).xPos (w.get c).yPos = some c := hp
              rw [e.1, e.2, hpc] at hpj1
              exact hj (Option.some.inj hpj1).symm
            rw [if_neg n1]
            exact hpj1
    · rw [if_neg hout]
      by_cases hocc : w.grid.cell ((w.get c).xPos + dx) ((w.get c).yPos + dy) ≠ none
      · rw [if_pos hocc]; exact h
      · rw [if_neg hocc]
        have hfree : w.grid.getCombatantAt ((w.get c).xPos + dx) ((w.get c).yPos + dy) = none := by
          rw [getCombatantAt_eq_cell _ _ _ hout]
          by_contra hne
          exact hocc hne
        exact consistent_relocate w c _ _ h hc (by omega) (by omega) hfree _ (Or.inl ⟨hp, rfl⟩)

theorem step_consistent (w w1 : World) (hs : Step false w w1) (h : Consistent w) :
    Consistent w1 := by
  cases hs with
  | place c x y hc => exact placeCombatant_consistent w c x y h hc
  | move c dx dy => exact moveCombatant_consistent w c dx dy h
  | takeDamage id amount element hasGrid =>
    obtain ⟨a, b⟩ := takeDamage_sameFixed w id amount element hasGrid
    exact consistent_of_sameFixed w _ a b h
  | attack self target rolls =>
    obtain ⟨a, b⟩ := attack_sameFixed w self target rolls
    exact consistent_of_sameFixed w _ a b h
  | castSpell self target spellIndex =>
    obtain ⟨a, b⟩ := castSpell_sameFixed w self target spellIndex
    exact consistent_of_sameFixed w _ a b h
  | addTicks id ticks =>
    exact consistent_of_sameFixed w _ (upd_sameFixed w id _ (keepsFixed_addTicks ticks)) rfl h
  | flee id hd => exact Bool.noConfusion hd

theorem reachable_consistent (w : World) (h : Reachable false w) : Consistent w := by
  induction h with
  | start cs width height hun => exact start_consistent cs width height hun
  | step w w1 _ hs ih => exact step_consistent w w1 hs ih

/-- C20, as stated, fails. From an empty grid: a placed combatant that takeDamage
brings to health 0 stays the occupant of its cell; a combatant that fled off
the grid and is placed again is fled and an occupant; and after a direct call
of flee the combatant is fled and still the occupant of its cell. -/
theorem C20_dead_or_fled_occupant_counterexample :
    (Reachable false (takeDamage (placeCombatant startWorld 0 1 0).2 0 10 "None" true)
      ∧ ((takeDamage (placeCombatant startWorld 0 1 0).2 0 10 "None" true).get 0).currentHealth = 0
      ∧ (takeDamage (placeCombatant startWorld 0 1 0).2 0 10 "None" true).grid.getCombatantAt 1 0
          = some 0)
    ∧ (Reachable false
          (placeCombatant (moveCombatant (placeCombatant startWorld 0 0 0).2 0 (-1) 0).2 0 2 0).2
      ∧ ((placeCombatant (moveCombatant (placeCombatant startWorld 0 0 0).2 0 (-1) 0).2 0 2 0).2.get
            0).fled = true
      ∧ (placeCombatant (moveCombatant (placeCombatant startWorld 0 0 0).2 0 (-1) 0).2 0 2
            0).2.grid.getCombatantAt 2 0 = some 0)
    ∧ (Reachable true ((placeCombatant startWorld 0 1 0).2.upd 0 Combatant.flee)
      ∧ (((placeCombatant startWorld 0 1 0).2.upd 0 Combatant.flee).get 0).fled = true
      ∧ ((placeCombatant startWorld 0 1 0).2.upd 0 Combatant.flee).grid.getCombatantAt 1 0
          = some 0) := by
  have hstart : ∀ d : Bool, Reachable d startWorld :=
    fun d => Reachable.start _ 3 1 (by decide)
  refine ⟨⟨?_, by decide, by decide⟩, ⟨?_, by decide, by decide⟩, ⟨?_, by decide, by decide⟩⟩
  · exact Reachable.step _ _ (Reachable.step _ _ (hstart false)
      (Step.place startWorld 0 1 0 (by decide))) (Step.takeDamage _ 0 10 "None" true)
  · exact Reachable.step _ _ (Reachable.step _ _ (Reachable.step _ _ (hstart false)
      (Step.place startWorld 0 0 0 (by decide))) (Step.move _ 0 (-1) 0))
      (Step.place _ 0 2 0 (by decide))
  · exact Reachable.step _ _ (Reachable.step _ _ (hstart true)
      (Step.place startWorld 0 1 0 (by decide))) (Step.flee _ 0 rfl)

/-- C20, amended: in every state reached from an empty grid and unplaced
combatants through placeCombatant, moveCombatant, takeDamage, attack, castSpell
and addTicks, every occupant of a cell has that cell as its stored position;
so a combatant whose stored position is the unplaced (-1, -1), as it is right
after moveCombatant has made it flee, is the occupant of no cell. -/
theorem C20_unplaced_not_occupant (w : World) (h : Reachable false w) :
    (∀ x y c, w.grid.getCombatantAt x y = some c → (w.get c).xPos = x ∧ (w.get c).yPos = y)
    ∧ (∀ c, (w.get c).xPos = -1 → ∀ x y, w.grid.getCombatantAt x y ≠ some c)
    ∧ (∀ c dx dy, (w.get c).fled = false → ((moveCombatant w c dx dy).2.get c).fled = true →
        ((moveCombatant w c dx dy).2.get c).xPos = -1
        ∧ ∀ x y, (moveCombatant w c dx dy).2.grid.getCombatantAt x y ≠ some c) := by
  have hocc : ∀ w1 : World, Consistent w1 →
      ∀ c, (w1.get c).xPos = -1 → ∀ x y, w1.grid.getCombatantAt x y ≠ some c := by
    intro w1 hc1 c hx x y hsome
    have hb := (getCombatantAt_some_inBounds _ _ _ _ hsome).1.1
    have := (hc1.2.1 x y c hsome).1
    omega
  have hcons := reachable_consistent w h
  refine ⟨hcons.2.1, hocc w hcons, ?_⟩
  intro c dx dy hnf hf
  have hcons1 := moveCombatant_consistent w c dx dy hcons
  have hx : ((moveCombatant w c dx dy).2.get c).xPos = -1 := by
    revert hf
    unfold moveCombatant
    simp only
    split
    · intro hf
      rw [hnf] at hf
      exact Bool.noConfusion hf
    · rename_i h1
      have hc : c < w.combatants.length := by
        by_contra hlt
        rw [get_eq_default_of_not_lt w c hlt] at h1
        exact h1 rfl
      split
      · intro _
        show (World.get _ c).xPos = -1
        have : (World.mk (updAt w.combatants c Combatant.flee)
            (w.grid.setCell (w.get c).xPos (w.get c).yPos none)).get c = (w.get c).flee :=
          getD_updAt_same w.combatants _ default c hc
        rw [this]
        rfl
      · split
        · intro hf
          rw [hnf] at hf
          exact Bool.noConfusion hf
        · intro hf
          exfalso
          have hg : (World.mk (updAt w.combatants c
              (fun k => k.setPosition ((w.get c).xPos + dx) ((w.get c).yPos + dy)))
              ((w.grid.setCell (w.get c).xPos (w.get c).yPos none).setCell
                ((w.get c).xPos + dx) ((w.get c).yPos + dy) (some c))).get c
              = (w.get c).setPosition ((w.get c).xPos + dx) ((w.get c).yPos + dy) :=
            getD_updAt_same w.combatants _ default c hc
          have hf1 : (World.get _ c).fled = true := hf
          rw [hg] at hf1
          have hf2 : (w.get c).fled = true := hf1
          rw [hnf] at hf2
          exact Bool.noConfusion hf2
  exact ⟨hx, hocc _ hcons1 c hx⟩

theorem C20_unplaced_not_occupant_witness :
    ((moveCombatant (placeCombatant startWorld 0 0 0).2 0 (-1) 0).1 = 1
      ∧ ((placeCombatant startWorld 0 0 0).2.get 0).fled = false
      ∧ ((moveCombatant (placeCombatant startWorld 0 0 0).2 0 (-1) 0).2.get 0).fled = true
      ∧ (placeCombatant startWorld 0 0 0).2.grid.getCombatantAt 0 0 = some 0)
    ∧ (((moveCombatant (placeCombatant startWorld 0 0 0).2 0 (-1) 0).2.get 0).xPos = -1
      ∧ ∀ x y, (moveCombatant (placeCombatant startWorld 0 0 0).2 0 (-1) 0).2.grid.getCombatantAt
          x y ≠ some 0) :=
  ⟨by decide,
    (C20_unplaced_not_occupant (placeCombatant startWorld 0 0 0).2
      (Reachable.step _ _ (Reachable.start _ 3 1 (by decide))
        (Step.place startWorld 0 0 0 (by decide)))).2.2 0 (-1) 0 (by decide) (by decide)⟩

/-! ### The scan of `castSpell` -/

theorem castList (l : List Nat) :
    (do let a ← l; pure (a : Int) : List Int) = l.map (fun a : Nat => (a : Int)) := by
  induction l with
  | nil => rfl
  | cons a l ih =>
    simp only [List.bind_eq_flatMap, List.pure_def, List.flatMap_cons, List.map_cons] at ih ⊢
    rw [ih]
    rfl

theorem mem_scanRows (xs : List Int) (p : Int × Int) :
    ∀ ys : List Int,
      p ∈ ys.foldr (fun y acc => xs.map (fun x => (x, y)) ++ acc) [] ↔ p.1 ∈ xs ∧ p.2 ∈ ys := by
  intro ys
  induction ys with
  | nil => simp
  | cons y ys ih =>
    rw [List.foldr_cons, List.mem_append, ih]
    constructor
    · rintro (h | ⟨h1, h2⟩)
      · obtain ⟨x, hx, e⟩ := List.mem_map.mp h
        rw [← e]
        exact ⟨hx, List.mem_cons_self _ _⟩
      · exact ⟨h1, List.mem_cons_of_mem _ h2⟩
    · rintro ⟨h1, h2⟩
      rcases List.mem_cons.mp h2 with e1 | h3
      · left
        exact List.mem_map.mpr ⟨p.1, h1, by rw [← e1]⟩
      · right
        exact ⟨h1, h3⟩

theorem nodup_scanRows (xs : List Int) (hxs : xs.Nodup) :
    ∀ ys : List Int, ys.Nodup →
      (ys.foldr (fun y acc => xs.map (fun x => (x, y)) ++ acc) []).Nodup := by
  intro ys
  induction ys with
  | nil => intro _; exact List.nodup_nil
  | cons y ys ih =>
    intro h
    rw [List.foldr_cons]
    obtain ⟨hy, hys⟩ := List.nodup_cons.mp h
    refine List.Nodup.append ?_ (ih hys) ?_
    · refine List.Nodup.map ?_ hxs
      intro a b e
      exact congrArg Prod.fst e
    · intro p hp hq
      obtain ⟨x, _, e⟩ := List.mem_map.mp hp
      have h2 := ((mem_scanRows xs p ys).mp hq).2
      rw [← e] at h2
      exact hy h2

theorem nodup_castRange (n : Nat) : ((List.range n).map (fun a : Nat => (a : Int))).Nodup :=
  List.Nodup.map (fun _ _ e => Int.ofNat.inj e) (List.nodup_range n)

theorem mem_castRange (n : Nat) (x : Int) (h0 : 0 ≤ x) (h1 : x.toNat < n) :
    x ∈ (List.range n).map (fun a : Nat => (a : Int)) :=
  List.mem_map.mpr ⟨x.toNat, List.mem_range.mpr h1, Int.toNat_of_nonneg h0⟩

theorem Grid.scanOrder_nodup (g : Grid) : g.scanOrder.Nodup := by
  unfold Grid.scanOrder
  rw [castList, castList]
  exact nodup_scanRows _ (nodup_castRange _) _ (nodup_castRange _)

theorem Grid.mem_scanOrder (g : Grid) (x y : Int) (hx : 0 ≤ x ∧ x < g.width)
    (hy : 0 ≤ y ∧ y < g.height) : (x, y) ∈ g.scanOrder := by
  unfold Grid.scanOrder
  rw [castList, castList, mem_scanRows]
  exact ⟨mem_castRange _ x hx.1 (by omega), mem_castRange _ y hy.1 (by omega)⟩

theorem Frac.sqrtLe_ofInt (n a : Int) :
    Frac.sqrtLe n (Frac.ofInt a) = true ↔ 0 ≤ a ∧ n ≤ a * a := by
  simp [Frac.sqrtLe, Frac.ofInt]

theorem heal_isAlive (c : Combatant) (amount : Int) (ha : 0 ≤ amount) (hb : c.Bounded)
    (h : c.isAlive = true) : (c.heal amount).isAlive = true := by
  obtain ⟨_, b2, _, _⟩ := hb
  unfold Combatant.isAlive at h ⊢
  simp only [Bool.and_eq_true, decide_eq_true_eq] at h ⊢
  refine ⟨?_, h.2⟩
  show (if c.currentHealth + amount > c.maxHealth then c.maxHealth else c.currentHealth + amount) > 0
  split <;> omega

theorem spellTargetAt_eq_some (w : World) (self target : Nat) (spell : Spell) (p : Int × Int)
    (q : Nat) :
    spellTargetAt w self target spell p = some q
      ↔ w.grid.getCombatantAt p.1 p.2 = some q ∧ spellRule w self target spell p.1 p.2 q := by
  unfold spellTargetAt
  cases hq : w.grid.getCombatantAt p.1 p.2 with
  | none => simp
  | some q1 =>
    simp only
    by_cases hc : spellRule w self target spell p.1 p.2 q1
    · rw [if_pos hc]
      constructor
      · intro h
        have e : q1 = q := Option.some.inj h
        subst e
        exact ⟨rfl, hc⟩
      · intro h
        exact h.1
    · rw [if_neg hc]
      constructor
      · intro h
        exact Option.noConfusion h
      · rintro ⟨e, h⟩
        have e1 : q1 = q := Option.some.inj e
        subst e1
        exact absurd h hc

/-- The spell effect on another victim leaves a living caster alive: the only
write to the caster is the healing of a "Bio" spell. -/
theorem applySpellEffect_self_alive (w : World) (self victim : Nat) (spell : Spell)
    (hne : self ≠ victim) (hnp : (w.get victim).equippedArmor.elementType ≠ "Poison")
    (hm : 0 ≤ spell.magicalAttack) (hb : (w.get self).Bounded)
    (h : (w.get self).isAlive = true) :
    ((applySpellEffect w self victim spell).get self).isAlive = true := by
  have hk := elementalSideEffect_sameKit w self victim spell.elementType spell.magicalAttack
    (spellDamage spell (w.get victim))
  have hnp1 : ((elementalSideEffect w self victim spell.elementType spell.magicalAttack
      (spellDamage spell (w.get victim))).get victim).equippedArmor.elementType ≠ "Poison" := by
    rw [(hk victim).2]; exact hnp
  have hd := spellDamage_nonneg spell (w.get victim) hm
  unfold applySpellEffect
  simp only
  rw [takeDamage_of_not_poison _ _ _ _ _ hnp1, damageSelf_frame _ _ _ _ _ hne]
  unfold elementalSideEffect
  split
  · rw [World.get_upd_ne _ _ _ _ hne]; exact h
  · split
    · rw [World.get_upd_ne _ _ _ _ hne]; exact h
    · split
      · rw [World.get_upd_ne _ _ _ _ hne]; exact h
      · split
        · rw [World.get_upd]
          split
          · exact heal_isAlive _ _ (Int.tdiv_nonneg hd (by decide)) hb h
          · exact h
        · exact h

/-- One cell of the scan, in a state that agrees with the state `w` before the
cast on the grid, on the fixed parts and on whether the occupant of the cell is
alive: the effect is applied to the combatant the area rule selects there. -/
theorem castSpellCell_eq (w : World) (self target : Nat) (spell : Spell) (haoe : 0 ≤ spell.aoe)
    (wi : World) (p : Int × Int) (hg : wi.grid = w.grid) (hf : SameFixed w wi)
    (hal : ∀ q, w.grid.getCombatantAt p.1 p.2 = some q → (wi.get q).isAlive = (w.get q).isAlive) :
    castSpellCell self target spell wi p
      = match spellTargetAt w self target spell p with
        | none => wi
        | some q => applySpellEffect wi self q spell := by
  unfold castSpellCell spellTargetAt
  rw [hg]
  cases hq : w.grid.getCombatantAt p.1 p.2 with
  | none => rfl
  | some q =>
    simp only
    rw [hal q hq, hf.team q, hf.team self, hf.xPos target, hf.yPos target]
    have hs := Frac.sqrtLe_ofInt
      (getDistanceSq (w.get target).xPos (w.get target).yPos p.1 p.2) spell.aoe
    unfold getDistanceSq at hs
    unfold spellRule getDistanceSq
    by_cases h1 : (w.get q).isAlive = true
    · by_cases h2 : (p.1 - (w.get target).xPos) * (p.1 - (w.get target).xPos)
          + (p.2 - (w.get target).yPos) * (p.2 - (w.get target).yPos) ≤ spell.aoe * spell.aoe
      · have h2a := hs.mpr ⟨haoe, h2⟩
        by_cases h3 : spell.category = "Buff"
        · by_cases h4 : (w.get q).team = (w.get self).team
          · simp [h1, h2, h2a, h3, h4]
          · simp [h1, h2, h2a, h3, h4]
        · by_cases h4 : (w.get q).team = (w.get self).team
          · simp [h1, h2, h2a, h3, h4]
          · simp [h1, h2, h2a, h3, h4]
      · have h2a : ¬ Frac.sqrtLe ((p.1 - (w.get target).xPos) * (p.1 - (w.get target).xPos)
            + (p.2 - (w.get target).yPos) * (p.2 - (w.get target).yPos))
            (Frac.ofInt spell.aoe) = true := fun hx => h2 (hs.mp hx).2
        simp [h1, h2, h2a]
    · simp [h1]

/-- The scan of `castSpell` over the cells that are left applies the effect to
the combatants the area rule selects on those cells, in the order of the scan. -/
theorem castSpell_scan_eq (w : World) (self target : Nat) (spell : Spell)
    (hpos : ∀ x y c, w.grid.getCombatantAt x y = some c → (w.get c).xPos = x ∧ (w.get c).yPos = y)
    (hnp : ∀ c ∈ w.combatants, c.equippedArmor.elementType ≠ "Poison")
    (halive : (w.get self).isAlive = true) (haoe : 0 ≤ spell.aoe)
    (hm : 0 ≤ spell.magicalAttack) :
    ∀ (cells : List (Int × Int)) (wi : World), cells.Nodup → wi.grid = w.grid → SameFixed w wi →
      wi.Sane →
      (∀ p ∈ cells, ∀ q, w.grid.getCombatantAt p.1 p.2 = some q →
        (wi.get q).isAlive = (w.get q).isAlive) →
      cells.foldl (castSpellCell self target spell) wi
        = (cells.filterMap (spellTargetAt w self target spell)).foldl
            (fun wj q => applySpellEffect wj self q spell) wi := by
  intro cells
  induction cells with
  | nil => intro wi _ _ _ _ _; rfl
  | cons p rest ih =>
    intro wi hnd hg hf hs hal
    obtain ⟨hp, hrest⟩ := List.nodup_cons.mp hnd
    rw [List.foldl_cons,
      castSpellCell_eq w self target spell haoe wi p hg hf (hal p (List.mem_cons_self _ _))]
    cases ht : spellTargetAt w self target spell p with
    | none =>
      rw [List.filterMap_cons_none ht]
      exact ih wi hrest hg hf hs (fun p1 h1 => hal p1 (List.mem_cons_of_mem _ h1))
    | some q =>
      rw [List.filterMap_cons_some ht, List.foldl_cons]
      have hq := ((spellTargetAt_eq_some w self target spell p q).mp ht).1
      have hnq : (wi.get q).equippedArmor.elementType ≠ "Poison" := by
        rw [hf.armor q]; exact get_not_poison w hnp q
      obtain ⟨f1, g1⟩ := applySpellEffect_sameFixed wi self q spell
      refine ih _ hrest (g1.trans hg) (hf.trans_fixed f1) (applySpellEffect_sane _ _ _ _ hm hs) ?_
      intro p1 h1 q1 hq1
      have hne : q1 ≠ q := by
        intro e
        rw [e] at hq1
        obtain ⟨a1, a2⟩ := hpos p1.1 p1.2 q hq1
        obtain ⟨b1, b2⟩ := hpos p.1 p.2 q hq
        have e1 : p = p1 := Prod.ext (b1.symm.trans a1) (b2.symm.trans a2)
        rw [e1] at hp
        exact hp h1
      have hold := hal p1 (List.mem_cons_of_mem _ h1) q1 hq1
      by_cases hself : q1 = self
      · rw [hself] at hne hold ⊢
        rw [halive] at hold ⊢
        exact applySpellEffect_self_alive wi self q spell hne hnq hm
          (World.get_sane wi hs self).1 hold
      · rw [(applySpellEffect_of_not_poison wi self q spell hnq).2.2 q1 hne hself]
        exact hold

/-- A successful cast is the scan over the grid after the mana has been spent,
and the caster could afford the spell. -/
theorem castSpell_of_success (w : World) (self target : Nat) (spellIndex : Int) (spell : Spell)
    (hspell : (w.get self).knownSpells[spellIndex.toNat]? = some spell)
    (hok : (castSpell w self target spellIndex).1 = true) :
    ¬ (w.get self).currentMagicPoints < spell.mpCost
    ∧ (castSpell w self target spellIndex).2
        = w.grid.scanOrder.foldl (castSpellCell self target spell)
            (w.upd self (fun c => c.spendMP spell.mpCost)) := by
  unfold castSpell at hok ⊢
  by_cases h1 : spellIndex < 0 ∨ spellIndex ≥ (w.get self).knownSpells.length
  · rw [if_pos h1] at hok
    exact Bool.noConfusion hok
  · rw [if_neg h1] at hok ⊢
    rw [hspell] at hok ⊢
    simp only at hok ⊢
    by_cases h2 : (w.get self).currentMagicPoints < spell.mpCost
    · rw [if_pos h2] at hok
      exact Bool.noConfusion hok
    · rw [if_neg h2] at hok ⊢
      by_cases h3 : (w.get self).checkRange (w.get target) spell.range = false
      · rw [if_pos h3] at hok
        exact Bool.noConfusion hok
      · rw [if_neg h3] at hok ⊢
        by_cases h4 : ((w.upd self (fun c => c.spendMP spell.mpCost)).get target).xPos = -1
        · rw [if_pos h4] at hok
          exact Bool.noConfusion hok
        · rw [if_neg h4]
          exact ⟨h2, rfl⟩

theorem areaWorld_reachable : Reachable false areaWorld :=
  Reachable.step _ _ (Reachable.step _ _ (Reachable.step _ _
    (Reachable.start _ 3 1 (by decide)) (Step.place _ 0 0 0 (by decide)))
    (Step.place _ 1 1 0 (by decide))) (Step.place _ 2 2 0 (by decide))

/-! ### The frame of `addTicks` -/

/-- C28: an attack that passes the range check on a target that is not alive
(health 0, or fled), whatever the number of attacks of the weapon, and an
attack that passes the range check with a weapon of `numberOfAttacks <= 0`,
return true and leave every combatant and the grid as they were. -/
theorem C28_attack_without_effect (w : World) (self target : Nat) (rolls : Nat → AttackRoll)
    (hr : (w.get self).checkRange (w.get target) (w.get self).equippedWeapon.range = true)
    (h : (w.get target).isAlive = false ∨ (w.get self).equippedWeapon.numberOfAttacks ≤ 0) :
    attack w self target rolls = (true, w) := by
  unfold attack
  rw [if_neg (by rw [hr]; exact Bool.noConfusion)]
  rcases h with h | h
  · cases hn : (w.get self).equippedWeapon.numberOfAttacks.toNat with
    | zero => rfl
    | succ n =>
      unfold attackLoop
      rw [if_neg (by rw [h]; exact Bool.noConfusion)]
  · have hn : (w.get self).equippedWeapon.numberOfAttacks.toNat = 0 := Int.toNat_eq_zero.mpr h
    rw [hn]
    rfl

theorem C28_attack_without_effect_witness :
    ((deadTargetWorld.get 0).equippedWeapon.numberOfAttacks = 3
      ∧ (deadTargetWorld.get 1).currentHealth = 0)
    ∧ attack deadTargetWorld 0 1 (fun _ => plainRoll) = (true, deadTargetWorld) :=
  ⟨by decide,
    C28_attack_without_effect deadTargetWorld 0 1 (fun _ => plainRoll) (by decide)
      (Or.inl (by decide))⟩

/-- C30: the six-argument constructor of `Armor` keeps the supplied evasion only
for the element "Wind", the supplied threshold only for "Earth" and the
supplied magical defense only for "Naughtium", and sets the field to 0
otherwise; so no two of the three fields are non-zero together. The name, the
resistance and the element are stored as supplied. -/
theorem C30_armor_constructor (n : String) (dr dt : Int) (eva : Frac) (elem : String)
    (magDef : Int) :
    (elem ≠ "Wind" → (Armor.create n dr dt eva elem magDef).evasion = ⟨0, 1⟩)
    ∧ (elem = "Wind" → (Armor.create n dr dt eva elem magDef).evasion = eva)
    ∧ (elem ≠ "Earth" → (Armor.create n dr dt eva elem magDef).damageThreshold = 0)
    ∧ (elem = "Earth" → (Armor.create n dr dt eva elem magDef).damageThreshold = dt)
    ∧ (elem ≠ "Naughtium" → (Armor.create n dr dt eva elem magDef).magicalDefense = 0)
    ∧ (elem = "Naughtium" → (Armor.create n dr dt eva elem magDef).magicalDefense = magDef)
    ∧ ¬ ((Armor.create n dr dt eva elem magDef).evasion.num ≠ 0
          ∧ (Armor.create n dr dt eva elem magDef).damageThreshold ≠ 0)
    ∧ ¬ ((Armor.create n dr dt eva elem magDef).evasion.num ≠ 0
          ∧ (Armor.create n dr dt eva elem magDef).magicalDefense ≠ 0)
    ∧ ¬ ((Armor.create n dr dt eva elem magDef).damageThreshold ≠ 0
          ∧ (Armor.create n dr dt eva elem magDef).magicalDefense ≠ 0)
    ∧ (Armor.create n dr dt eva elem magDef).name = n
    ∧ (Armor.create n dr dt eva elem magDef).damageResistance = dr
    ∧ (Armor.create n dr dt eva elem magDef).elementType = elem := by
  unfold Armor.create
  refine ⟨?_, ?_, ?_, ?_, ?_, ?_, ?_, ?_, ?_, rfl, rfl, rfl⟩
  · intro h; simp only [h, ne_eq, not_false_eq_true, if_true]
  · intro h; simp only [h, ne_eq, not_true_eq_false, if_false]
  · intro h; simp only [h, ne_eq, not_false_eq_true, if_true]
  · intro h; simp only [h, ne_eq, not_true_eq_false, if_false]
  · intro h; simp only [h, ne_eq, not_false_eq_true, if_true]
  · intro h; simp only [h, ne_eq, not_true_eq_false, if_false]
  · rintro ⟨h1, h2⟩
    by_cases hw : elem = "Wind"
    · have he : elem ≠ "Earth" := by rw [hw]; decide
      simp only [he, ne_eq, not_false_eq_true, if_true, not_true_eq_false] at h2
    · simp only [hw, ne_eq, not_false_eq_true, if_true, not_true_eq_false] at h1
  · rintro ⟨h1, h2⟩
    by_cases hw : elem = "Wind"
    · have he : elem ≠ "Naughtium" := by rw [hw]; decide
      simp only [he, ne_eq, not_false_eq_true, if_true, not_true_eq_false] at h2
    · simp only [hw, ne_eq, not_false_eq_true, if_true, not_true_eq_false] at h1
  · rintro ⟨h1, h2⟩
    by_cases hw : elem = "Earth"
    · have he : elem ≠ "Naughtium" := by rw [hw]; decide
      simp only [he, ne_eq, not_false_eq_true, if_true, not_true_eq_false] at h2
    · simp only [hw, ne_eq, not_false_eq_true, if_true, not_true_eq_false] at h1

/-! ### Truncating division -/

theorem tdiv_bounds (x d : Int) (hx : 0 ≤ x) (hd : 20 ≤ d) :
    0 ≤ x.tdiv d ∧ 20 * x.tdiv d ≤ x := by
  have hd0 : 0 ≤ d := by omega
  rw [Int.tdiv_eq_ediv hx hd0]
  have h1 : 0 ≤ x / d := Int.ediv_nonneg hx hd0
  have h2 : x / d * d ≤ x := Int.ediv_mul_le x (by omega)
  refine ⟨h1, ?_⟩
  nlinarith

/-! ### The side effects of a critical hit -/

theorem addTicks_zero (c : Combatant) : c.addTicks 0 = c := by
  unfold Combatant.addTicks
  show Combatant.tickLoop 0 { c with initiative := c.initiative + 0 } = c
  rw [Int.add_zero]
  rfl

/-- C29: on a critical hit `finalDamage` is 0, so an "Acid" weapon applies an
Acid status of potency 0, an "Ice" weapon adds 0 ticks to the target, which
leaves the target as it was, and a "Bio" weapon calls heal with the amount 0;
the Burn of a "Fire" weapon has the potency `productDamage / 20`, and
`productDamage` does not depend on the critical roll. -/
theorem C29_critical_side_effects (w : World) (self target : Nat) (r : AttackRoll)
    (hc : Frac.le r.crit ⟨5, 100⟩ = true) :
    (hitDamage (w.get self) (w.get target) r).finalDamage = 0
    ∧ elementalSideEffect w self target "Acid"
          (hitDamage (w.get self) (w.get target) r).productDamage
          (hitDamage (w.get self) (w.get target) r).finalDamage
        = w.upd target (fun c => c.applyStatus "Acid" 7 0)
    ∧ elementalSideEffect w self target "Ice"
          (hitDamage (w.get self) (w.get target) r).productDamage
          (hitDamage (w.get self) (w.get target) r).finalDamage
        = w.upd target (fun c => c.addTicks 0)
    ∧ (∀ c : Combatant, c.addTicks 0 = c)
    ∧ elementalSideEffect w self target "Bio"
          (hitDamage (w.get self) (w.get target) r).productDamage
          (hitDamage (w.get self) (w.get target) r).finalDamage
        = w.upd self (fun c => c.heal 0)
    ∧ elementalSideEffect w self target "Fire"
          (hitDamage (w.get self) (w.get target) r).productDamage
          (hitDamage (w.get self) (w.get target) r).finalDamage
        = w.upd target (fun c => c.applyStatus "Burn" 5
            ((hitDamage (w.get self) (w.get target) r).productDamage.tdiv 20))
    ∧ (∀ crit : Frac,
        (hitDamage (w.get self) (w.get target) ⟨r.hit, r.multiplier, crit⟩).productDamage
          = (hitDamage (w.get self) (w.get target) r).productDamage) := by
  have h0 : (hitDamage (w.get self) (w.get target) r).finalDamage = 0 := by
    unfold hitDamage
    simp only [hc, if_true]
    unfold Frac.mulInt Frac.trunc
    simp
  refine ⟨h0, ?_, ?_, addTicks_zero, ?_, ?_, fun _ => rfl⟩
  · rw [h0]
    unfold elementalSideEffect
    rw [if_neg (by decide), if_pos rfl]
    rfl
  · rw [h0]
    unfold elementalSideEffect
    rw [if_neg (by decide), if_neg (by decide), if_pos rfl]
    rfl
  · rw [h0]
    unfold elementalSideEffect
    rw [if_neg (by decide), if_neg (by decide), if_neg (by decide), if_pos rfl]
    rfl
  · unfold elementalSideEffect
    rw [if_pos rfl]

theorem C29_critical_side_effects_witness :
    (Frac.le critRoll.crit ⟨5, 100⟩ = true
      ∧ (hitDamage (c1World.get 0) (c1World.get 1) critRoll).productDamage = 3
      ∧ (hitDamage (c1World.get 0) (c1World.get 1) plainRoll).finalDamage = 3)
    ∧ (hitDamage (c1World.get 0) (c1World.get 1) critRoll).finalDamage = 0 :=
  ⟨by decide, (C29_critical_side_effects c1World 0 1 critRoll (by decide)).1⟩

/-! ### Sequences of `placeCombatant` and `moveCombatant` -/

theorem placeCombatant_length (w : World) (c : Nat) (x y : Int) :
    (placeCombatant w c x y).2.combatants.length = w.combatants.length := by
  unfold placeCombatant
  split
  · rfl
  · split
    · rfl
    · exact length_updAt _ _ _

theorem moveCombatant_length (w : World) (c : Nat) (dx dy : Int) :
    (moveCombatant w c dx dy).2.combatants.length = w.combatants.length := by
  unfold moveCombatant
  simp only
  split
  · rfl
  · split
    · exact length_updAt _ _ _
    · split
      · rfl
      · exact length_updAt _ _ _

theorem gridOps_consistent (n : Nat) :
    ∀ (ops : List GridOp) (w : World), Consistent w → w.combatants.length = n →
      (∀ op ∈ ops, op.valid n) → Consistent (ops.foldl GridOp.run w) := by
  intro ops
  induction ops with
  | nil => intro w h _ _; exact h
  | cons op rest ih =>
    intro w h hn hv
    rw [List.foldl_cons]
    have hop := hv op (List.mem_cons_self _ _)
    have hrest : ∀ o ∈ rest, o.valid n := fun o ho => hv o (List.mem_cons_of_mem _ ho)
    cases op with
    | place c x y =>
      refine ih _ (placeCombatant_consistent w c x y h ?_) ?_ hrest
      · rw [hn]; exact hop
      · exact (placeCombatant_length w c x y).trans hn
    | move c dx dy =>
      exact ih _ (moveCombatant_consistent w c dx dy h)
        ((moveCombatant_length w c dx dy).trans hn) hrest

/-- C25: from an empty grid and unplaced combatants, after any sequence of
calls of `placeCombatant` and `moveCombatant` on those combatants, every
combatant whose stored position is not (-1, -1) is the occupant of the cell of
its stored position, every occupant of a cell has that cell as its stored
position, and no combatant is the occupant of two cells. -/
theorem C25_grid_agrees_with_positions (cs : List Combatant) (width height : Int)
    (ops : List GridOp)
    (hun : ∀ c ∈ cs, c.xPos = -1 ∧ c.yPos = -1)
    (hv : ∀ op ∈ ops, op.valid cs.length) :
    (∀ c, ¬ (((ops.foldl GridOp.run ⟨cs, Grid.create width height⟩).get c).xPos = -1
            ∧ ((ops.foldl GridOp.run ⟨cs, Grid.create width height⟩).get c).yPos = -1) →
        (ops.foldl GridOp.run ⟨cs, Grid.create width height⟩).grid.getCombatantAt
            ((ops.foldl GridOp.run ⟨cs, Grid.create width height⟩).get c).xPos
            ((ops.foldl GridOp.run ⟨cs, Grid.create width height⟩).get c).yPos = some c)
    ∧ (∀ x y c,
        (ops.foldl GridOp.run ⟨cs, Grid.create width height⟩).grid.getCombatantAt x y = some c →
        ((ops.foldl GridOp.run ⟨cs, Grid.create width height⟩).get c).xPos = x
        ∧ ((ops.foldl GridOp.run ⟨cs, Grid.create width height⟩).get c).yPos = y)
    ∧ (∀ c x y x2 y2,
        (ops.foldl GridOp.run ⟨cs, Grid.create width height⟩).grid.getCombatantAt x y = some c →
        (ops.foldl GridOp.run ⟨cs, Grid.create width height⟩).grid.getCombatantAt x2 y2 = some c →
        x = x2 ∧ y = y2) := by
  obtain ⟨_, h2, h3⟩ := gridOps_consistent cs.length ops ⟨cs, Grid.create width height⟩
    (start_consistent cs width height hun) rfl hv
  refine ⟨?_, h2, ?_⟩
  · intro c hc
    rcases h3 c with hu | hp
    · exact absurd hu hc
    · exact hp
  · intro c x y x2 y2 ha hb
    obtain ⟨a1, a2⟩ := h2 x y c ha
    obtain ⟨b1, b2⟩ := h2 x2 y2 c hb
    exact ⟨a1.symm.trans b1, a2.symm.trans b2⟩

theorem C25_grid_agrees_with_positions_witness :
    ((c25Ops.foldl GridOp.run startWorld).grid.getCombatantAt 1 0 = some 0
      ∧ (c25Ops.foldl GridOp.run startWorld).grid.getCombatantAt 0 0 = none
      ∧ (c25Ops.foldl GridOp.run startWorld).grid.getCombatantAt 2 0 = none
      ∧ ((c25Ops.foldl GridOp.run startWorld).get 1).fled = true)
    ∧ ((c25Ops.foldl GridOp.run startWorld).get 0).xPos = 1
    ∧ ((c25Ops.foldl GridOp.run startWorld).get 0).yPos = 0 :=
  ⟨by decide,
    (C25_grid_agrees_with_positions startWorld.combatants 3 1 c25Ops (by decide)
      (by decide)).2.1 1 0 0 (by decide)⟩

/-! ### Predicates kept by the damage resolution -/

theorem upd_at (P : Combatant → Prop) (w : World) (i j : Nat) (f : Combatant → Combatant)
    (hf : P (w.get j) → P (f (w.get j))) (h : P (w.get j)) : P ((w.upd i f).get j) := by
  rw [World.get_upd]
  split
  · rename_i hc
    rw [← hc.1]
    exact hf h
  · exact h

theorem damageSelf_at (P : Combatant → Prop) (j : Nat) (w : World) (i : Nat) (a : Int)
    (e : String) (hl : ∀ c, P c → P (c.loseHealth a)) (hm : ∀ c, P c → P (c.reduceMorale a))
    (hd : ∀ c, P c → P (c.drainMP (a.tdiv 2))) (h : P (w.get j)) :
    P ((damageSelf w i a e).get j) := by
  unfold damageSelf
  simp only
  have h1 : P ((w.upd i (fun c => c.loseHealth a)).get j) := upd_at P w i j _ (hl _) h
  have h2 : P ((if e = "Psi" then
      (w.upd i (fun c => c.loseHealth a)).upd i (fun c => c.reduceMorale a)
      else w.upd i (fun c => c.loseHealth a)).get j) := by
    split
    · exact upd_at P _ i j _ (hm _) h1
    · exact h1
  split
  · exact upd_at P _ i j _ (hd _) h2
  · exact h2

theorem foldl_keeps {α : Type} (Q : World → Prop) (step : World → α → World)
    (hstep : ∀ w a, Q w → Q (step w a)) (l : List α) :
    ∀ w : World, Q w → Q (l.foldl step w) := by
  induction l with
  | nil => intro w h; exact h
  | cons a l ih => intro w h; exact ih _ (hstep w a h)

theorem reflectStep_keeps (Q : World → Prop) (reflect : World → Nat → World)
    (hr : ∀ w n, Q w → Q (reflect w n)) (self : Nat) (wi : World) (d : Int × Int) (h : Q wi) :
    Q (reflectStep reflect self wi d) := by
  unfold reflectStep
  split
  · split
    · exact hr _ _ h
    · exact h
  · exact h

/-- The method `takeDamage`, reflections included, keeps every predicate on the
world that its head keeps for the amounts in `A`, when `A` holds for the
reflected amount with the amount. -/
theorem takeDamageAux_keeps (Q : World → Prop) (A : Int → Prop)
    (hA : ∀ a, A a → a.tdiv 2 > 0 → A (a.tdiv 2))
    (hself : ∀ w i a e, A a → Q w → Q (damageSelf w i a e)) (fuel : Nat) :
    ∀ (w : World) (self : Nat) (amount : Int) (element : String) (hasGrid : Bool),
      A amount → Q w → Q (takeDamageAux fuel w self amount element hasGrid) := by
  induction fuel with
  | zero =>
    intro w self amount element hasGrid ha h
    have h3 := hself w self amount element ha h
    unfold takeDamageAux
    simp only
    split
    · split
      · exact h3
      · exact h3
    · exact h3
  | succ f ih =>
    intro w self amount element hasGrid ha h
    have h3 := hself w self amount element ha h
    unfold takeDamageAux
    simp only
    split
    · split
      · rename_i hpos
        exact foldl_keeps Q _
          (fun wi d hq => reflectStep_keeps Q _
            (fun w1 n hq1 => ih w1 n _ _ _ (hA amount ha hpos) hq1) self wi d hq)
          checkXY _ h3
      · exact h3
    · exact h3

/-! ### The durations of the statuses -/

theorem tickStatuses_positive :
    ∀ (l : List StatusEffect) (h : Int),
      ∀ s ∈ (Combatant.tickStatuses h l).2, 0 < s.durationTicks := by
  intro l
  induction l with
  | nil => intro h s hs; exact absurd hs (List.not_mem_nil _)
  | cons a rest ih =>
    intro h s hs
    unfold Combatant.tickStatuses at hs
    simp only at hs
    split at hs
    · exact ih _ s hs
    · rename_i hd
      rcases List.mem_cons.mp hs with e | hm
      · rw [e]
        show 0 < a.durationTicks - 1
        omega
      · exact ih _ s hm

theorem tickStatuses_eq_ticked :
    ∀ (l : List StatusEffect) (h : Int), (Combatant.tickStatuses h l).2 = tickedStatuses l := by
  intro l
  induction l with
  | nil => intro h; rfl
  | cons a rest ih =>
    intro h
    unfold Combatant.tickStatuses tickedStatuses
    simp only
    by_cases hd : a.durationTicks - 1 ≤ 0
    · rw [if_pos hd, List.filterMap_cons_none (by rw [if_pos hd])]
      exact ih _
    · rw [if_neg hd, List.filterMap_cons_some (by rw [if_neg hd])]
      show _ :: (Combatant.tickStatuses _ rest).2 = _
      rw [ih]
      rfl

theorem tickLoop_positive (n : Nat) :
    ∀ c : Combatant, c.PositiveDurations → (Combatant.tickLoop n c).PositiveDurations := by
  induction n with
  | zero => intro c h; exact h
  | succ n ih =>
    intro c _
    unfold Combatant.tickLoop
    simp only
    have h1 : Combatant.PositiveDurations
        { c with currentHealth := (Combatant.tickStatuses c.currentHealth c.statuses).1,
                 statuses := (Combatant.tickStatuses c.currentHealth c.statuses).2 } :=
      tickStatuses_positive _ _
    split
    · exact h1
    · exact ih _ h1

theorem addTicks_positive (c : Combatant) (n : Int) (h : c.PositiveDurations) :
    (c.addTicks n).PositiveDurations :=
  tickLoop_positive _ _ h

theorem applyStatus_positive (c : Combatant) (name : String) (d p : Int) (hd : 0 < d)
    (h : c.PositiveDurations) : (c.applyStatus name d p).PositiveDurations := by
  intro s hs
  rcases List.mem_append.mp hs with h1 | h1
  · exact h s h1
  · have e : s = { name := name, durationTicks := d, potency := p } := by simpa using h1
    rw [e]
    exact hd

theorem takeDamage_positive (j : Nat) (w : World) (i : Nat) (a : Int) (e : String) (g : Bool)
    (h : (w.get j).PositiveDurations) : ((takeDamage w i a e g).get j).PositiveDurations :=
  takeDamageAux_keeps (fun w1 => (w1.get j).PositiveDurations) (fun _ => True)
    (fun _ _ _ => trivial)
    (fun w1 i1 a1 e1 _ h1 =>
      damageSelf_at Combatant.PositiveDurations j w1 i1 a1 e1 (fun _ hc => hc) (fun _ hc => hc)
        (fun _ hc => hc) h1)
    _ w i a e g trivial h

theorem elementalSideEffect_positive (j : Nat) (w : World) (self victim : Nat) (elem : String)
    (b d : Int) (h : (w.get j).PositiveDurations) :
    ((elementalSideEffect w self victim elem b d).get j).PositiveDurations := by
  unfold elementalSideEffect
  split
  · exact upd_at _ w victim j _ (applyStatus_positive _ _ _ _ (by decide)) h
  · split
    · exact upd_at _ w victim j _ (applyStatus_positive _ _ _ _ (by decide)) h
    · split
      · exact upd_at _ w victim j _ (addTicks_positive _ _) h
      · split
        · exact upd_at Combatant.PositiveDurations w self j _ (fun hc => hc) h
        · exact h

theorem attackStep_positive (j : Nat) (w : World) (self target : Nat) (r : AttackRoll)
    (h : (w.get j).PositiveDurations) : ((attackStep w self target r).get j).PositiveDurations := by
  unfold attackStep
  simp only
  split
  · exact h
  · exact takeDamage_positive j _ _ _ _ _ (elementalSideEffect_positive j _ _ _ _ _ _ h)

theorem attackLoop_positive (j : Nat) (self target : Nat) (rolls : Nat → AttackRoll) (n : Nat) :
    ∀ (i : Nat) (w : World), (w.get j).PositiveDurations →
      ((attackLoop self target rolls n i w).get j).PositiveDurations := by
  induction n with
  | zero => intro i w h; exact h
  | succ n ih =>
    intro i w h
    unfold attackLoop
    split
    · exact ih _ _ (attackStep_positive j w self target _ h)
    · exact h

theorem attack_positive (j : Nat) (w : World) (self target : Nat) (rolls : Nat → AttackRoll)
    (h : (w.get j).PositiveDurations) :
    ((attack w self target rolls).2.get j).PositiveDurations := by
  unfold attack
  split
  · exact h
  · exact attackLoop_positive j self target rolls _ _ _ h

theorem castSpellCell_positive (j : Nat) (self target : Nat) (spell : Spell) (w : World)
    (p : Int × Int) (h : (w.get j).PositiveDurations) :
    ((castSpellCell self target spell w p).get j).PositiveDurations := by
  have ha : ∀ v, ((applySpellEffect w self v spell).get j).PositiveDurations := by
    intro v
    unfold applySpellEffect
    simp only
    exact takeDamage_positive j _ _ _ _ _ (elementalSideEffect_positive j _ _ _ _ _ _ h)
  unfold castSpellCell
  split
  · exact h
  · split
    · split
      · split
        · split
          · exact ha _
          · exact h
        · split
          · exact h
          · exact ha _
      · exact h
    · exact h

theorem castSpell_positive (j : Nat) (w : World) (self target : Nat) (spellIndex : Int)
    (h : (w.get j).PositiveDurations) :
    ((castSpell w self target spellIndex).2.get j).PositiveDurations := by
  unfold castSpell
  split
  · exact h
  · split
    · exact h
    · rename_i spell _
      have h1 : ((w.upd self (fun c => c.spendMP spell.mpCost)).get j).PositiveDurations :=
        upd_at Combatant.PositiveDurations w self j _ (fun hc => hc) h
      split
      · exact h
      · split
        · exact h
        · simp only
          split
          · exact h1
          · exact foldl_keeps (fun w1 => (w1.get j).PositiveDurations) _
              (fun w1 p hq => castSpellCell_positive j self target spell w1 p hq) _ _ h1

/-- C22, as stated, fails: `applyStatus` stores the duration it is given, so a
call with the duration 0 or -2 on a new combatant leaves a status with that
duration in the list. -/
theorem C22_nonpositive_duration_counterexample :
    (((Combatant.create "A" "Good Guys" 10 5 0 0).applyStatus "Burn" 0 3).statuses
        = [{ name := "Burn", durationTicks := 0, potency := 3 }])
    ∧ (((Combatant.create "A" "Good Guys" 10 5 0 0).applyStatus "Acid" (-2) 3).statuses
        = [{ name := "Acid", durationTicks := -2, potency := 3 }]) := by
  decide

/-- C22, amended: from a state in which every status has a duration above 0,
as in a state of new combatants, after any sequence of calls of `applyStatus`
with a duration above 0, of `addTicks`, of `attack` and of `castSpell` every
status of every combatant has a duration above 0; and one pass of `addTicks`
over the statuses lowers every duration by 1 and removes in that pass the
statuses that reach 0. -/
theorem C22_positive_durations (w : World) (ops : List StatusOp)
    (h0 : ∀ c ∈ w.combatants, c.PositiveDurations)
    (hp : ∀ op ∈ ops, op.positive) :
    (∀ j, ∀ s ∈ ((ops.foldl StatusOp.run w).get j).statuses, 0 < s.durationTicks)
    ∧ (∀ (l : List StatusEffect) (h : Int),
        (Combatant.tickStatuses h l).2 = tickedStatuses l
        ∧ ∀ s ∈ (Combatant.tickStatuses h l).2, 0 < s.durationTicks) := by
  refine ⟨?_, fun l h => ⟨tickStatuses_eq_ticked l h, tickStatuses_positive l h⟩⟩
  have hstart : ∀ j, (w.get j).PositiveDurations := by
    intro j
    by_cases hj : j < w.combatants.length
    · exact h0 _ (getD_mem_or_default _ _ _ hj)
    · rw [get_eq_default_of_not_lt w j hj]
      intro s hs
      exact absurd hs (List.not_mem_nil _)
  have main : ∀ (l : List StatusOp) (w1 : World), (∀ op ∈ l, op.positive) →
      (∀ j, (w1.get j).PositiveDurations) →
      ∀ j, ((l.foldl StatusOp.run w1).get j).PositiveDurations := by
    intro l
    induction l with
    | nil => intro w1 _ h; exact h
    | cons op rest ih =>
      intro w1 hl h
      rw [List.foldl_cons]
      refine ih _ (fun o ho => hl o (List.mem_cons_of_mem _ ho)) ?_
      intro j
      have hop := hl op (List.mem_cons_self _ _)
      cases op with
      | applyStatus c name duration potency =>
        exact upd_at _ w1 c j _ (applyStatus_positive _ _ _ _ hop) (h j)
      | addTicks c ticks => exact upd_at _ w1 c j _ (addTicks_positive _ _) (h j)
      | attack self target rolls => exact attack_positive j w1 self target rolls (h j)
      | castSpell self target spellIndex =>
        exact castSpell_positive j w1 self target spellIndex (h j)
  exact main ops w hp hstart

theorem C22_positive_durations_witness :
    (((c22Ops.foldl StatusOp.run burnWorld).get 1).statuses.map (fun s => s.durationTicks)
        = [1, 1, 1, 5, 5, 5]
      ∧ tickedStatuses [⟨"Burn", 1, 3⟩, ⟨"Acid", 2, 3⟩] = [⟨"Acid", 1, 3⟩])
    ∧ ∀ s ∈ ((c22Ops.foldl StatusOp.run burnWorld).get 1).statuses, 0 < s.durationTicks :=
  ⟨by decide, (C22_positive_durations burnWorld c22Ops (by decide) (by decide)).1 1⟩

/-! ### Combatants that are not alive -/

theorem isAlive_eq_false (c : Combatant) :
    c.isAlive = false ↔ c.currentHealth ≤ 0 ∨ c.fled = true := by
  unfold Combatant.isAlive
  cases hf : c.fled
  · simp
  · simp

theorem loseHealth_dead (c : Combatant) (a : Int) (ha : 0 ≤ a) (h : c.isAlive = false) :
    (c.loseHealth a).isAlive = false := by
  rw [isAlive_eq_false] at h ⊢
  rcases h with h | h
  · left
    show (if c.currentHealth - a < 0 then 0 else c.currentHealth - a) ≤ 0
    split <;> omega
  · right
    exact h

theorem addTicks_dead (c : Combatant) (n : Int) (hs : c.Bounded ∧ c.NonnegStats)
    (h : c.isAlive = false) : (c.addTicks n).isAlive = false := by
  rw [isAlive_eq_false] at h ⊢
  rcases h with h | h
  · left
    unfold Combatant.addTicks
    cases n.toNat with
    | zero => exact h
    | succ k =>
      unfold Combatant.tickLoop
      simp only
      have h1 := (tickStatuses_sane c.statuses c.currentHealth hs.1.1 hs.2.2.2.2).2.1
      have h2 : (Combatant.tickStatuses c.currentHealth c.statuses).1 ≤ 0 := le_trans h1 h
      rw [if_pos h2]
      exact h2
  · right
    have hf : (c.addTicks n).fled = c.fled :=
      congrArg (fun t => t.2.2.2.2.2.1)
        (tickLoop_fixed n.toNat { c with initiative := c.initiative + n })
    rw [hf]
    exact h

theorem takeDamage_dead (j : Nat) (w : World) (i : Nat) (a : Int) (e : String) (g : Bool)
    (ha : 0 ≤ a) (h : (w.get j).isAlive = false) :
    ((takeDamage w i a e g).get j).isAlive = false :=
  takeDamageAux_keeps (fun w1 => (w1.get j).isAlive = false) (fun x => 0 ≤ x)
    (fun _ _ hx => le_of_lt hx)
    (fun w1 i1 a1 e1 ha1 h1 =>
      damageSelf_at (fun c => c.isAlive = false) j w1 i1 a1 e1
        (fun c hc => loseHealth_dead c a1 ha1 hc) (fun _ hc => hc) (fun _ hc => hc) h1)
    _ w i a e g ha h

theorem elementalSideEffect_dead (j : Nat) (w : World) (self victim : Nat) (elem : String)
    (b d : Int) (hs : w.Sane) (hc : j ≠ self ∨ elem ≠ "Bio") (h : (w.get j).isAlive = false) :
    ((elementalSideEffect w self victim elem b d).get j).isAlive = false := by
  unfold elementalSideEffect
  split
  · exact upd_at (fun c => c.isAlive = false) w victim j _ (fun hx => hx) h
  · split
    · exact upd_at (fun c => c.isAlive = false) w victim j _ (fun hx => hx) h
    · split
      · exact upd_at (fun c => c.isAlive = false) w victim j _
          (fun hx => addTicks_dead _ _ (World.get_sane w hs j) hx) h
      · split
        · rename_i hbio
          rcases hc with hc | hc
          · rw [World.get_upd_ne _ _ _ _ hc]
            exact h
          · exact absurd hbio hc
        · exact h

theorem attackStep_dead (j : Nat) (w : World) (self target : Nat) (r : AttackRoll)
    (hs : w.Sane) (hc : j ≠ self ∨ (w.get self).equippedWeapon.elementType ≠ "Bio")
    (h : (w.get j).isAlive = false) : ((attackStep w self target r).get j).isAlive = false := by
  obtain ⟨_, h2, h3⟩ := hitDamage_nonneg (w.get self) (w.get target) r
    (World.get_sane w hs self).2.1
  unfold attackStep
  simp only
  split
  · exact h
  · exact takeDamage_dead j _ _ _ _ _ (add_nonneg h2 h3)
      (elementalSideEffect_dead j w self target _ _ _ hs hc h)

theorem attackLoop_dead (j : Nat) (self target : Nat) (rolls : Nat → AttackRoll) (n : Nat) :
    ∀ (i : Nat) (w : World), w.Sane →
      (j ≠ self ∨ (w.get self).equippedWeapon.elementType ≠ "Bio") →
      (w.get j).isAlive = false →
      ((attackLoop self target rolls n i w).get j).isAlive = false := by
  induction n with
  | zero => intro i w _ _ h; exact h
  | succ n ih =>
    intro i w hs hc h
    unfold attackLoop
    split
    · refine ih _ _ (attackStep_sane w self target _ hs) ?_
        (attackStep_dead j w self target _ hs hc h)
      rw [(attackStep_sameFixed w self target (rolls i)).1.weapon self]
      exact hc
    · exact h

theorem castSpellCell_dead (j : Nat) (self target : Nat) (spell : Spell)
    (hm : 0 ≤ spell.magicalAttack) (hc : j ≠ self ∨ spell.elementType ≠ "Bio") (w : World)
    (p : Int × Int) (hs : w.Sane) (h : (w.get j).isAlive = false) :
    ((castSpellCell self target spell w p).get j).isAlive = false := by
  have ha : ∀ v, ((applySpellEffect w self v spell).get j).isAlive = false := by
    intro v
    unfold applySpellEffect
    simp only
    exact takeDamage_dead j _ _ _ _ _ (spellDamage_nonneg spell (w.get v) hm)
      (elementalSideEffect_dead j w self v _ _ _ hs hc h)
  unfold castSpellCell
  split
  · exact h
  · split
    · split
      · split
        · split
          · exact ha _
          · exact h
        · split
          · exact h
          · exact ha _
      · exact h
    · exact h

theorem castSpell_dead (j : Nat) (w : World) (self target : Nat) (spellIndex : Int)
    (hs : w.Sane)
    (hc : j ≠ self ∨ ∀ s, (w.get self).knownSpells[spellIndex.toNat]? = some s →
      s.elementType ≠ "Bio")
    (h : (w.get j).isAlive = false) :
    ((castSpell w self target spellIndex).2.get j).isAlive = false := by
  have hst := (World.get_sane w hs self).2.2.1
  unfold castSpell
  split
  · exact h
  · split
    · exact h
    · rename_i spell hspell
      obtain ⟨hcost, hm⟩ := hst spell (List.getElem?_mem hspell)
      have hc1 : j ≠ self ∨ spell.elementType ≠ "Bio" := by
        rcases hc with hc | hc
        · exact Or.inl hc
        · exact Or.inr (hc spell hspell)
      split
      · exact h
      · rename_i hmp
        split
        · exact h
        · have h1 : (w.upd self (fun c => c.spendMP spell.mpCost)).Sane := by
            intro c hcm
            rcases mem_updAt_getD _ _ _ default _ hcm with hcm | ⟨_, e1⟩
            · exact hs c hcm
            · rw [e1]
              exact spendMP_sane _ _ hcost hmp (World.get_sane w hs self)
          have h2 : ((w.upd self (fun c => c.spendMP spell.mpCost)).get j).isAlive = false :=
            upd_at (fun c => c.isAlive = false) w self j _ (fun hx => hx) h
          simp only
          split
          · exact h2
          · exact (foldl_keeps (fun w1 => w1.Sane ∧ (w1.get j).isAlive = false) _
              (fun w1 p hq => ⟨castSpellCell_sane self target spell hm w1 p hq.1,
                castSpellCell_dead j self target spell hm hc1 w1 p hq.1 hq.2⟩) _ _ ⟨h1, h2⟩).2

theorem useItem_dead (j : Nat) (w : World) (self target : Nat) (itemIndex : Int)
    (hc : j ≠ target ∨ ∀ it, (w.get self).inventory[itemIndex.toNat]? = some it →
      it.category ≠ "Healing")
    (h : (w.get j).isAlive = false) :
    ((useItem w self target itemIndex).2.get j).isAlive = false := by
  unfold useItem
  split
  · exact h
  · split
    · exact h
    · rename_i item hitem
      split
      · exact h
      · split
        · exact h
        · have h1 : ((w.upd self (fun c => c.consumeItem itemIndex.toNat)).get j).isAlive = false :=
            upd_at (fun c => c.isAlive = false) w self j _ (fun hx => hx) h
          simp only
          split
          · rename_i hheal
            rcases hc with hc | hc
            · rw [World.get_upd_ne _ _ _ _ hc]
              exact h1
            · exact absurd hheal (hc item hitem)
          · split
            · exact upd_at (fun c => c.isAlive = false) _ target j _ (fun hx => hx) h1
            · exact h1

/-- C21, as stated, fails: `heal` has no test of `isAlive`. A combatant at
health 0 is alive again after `heal(5)`, after a "Healing" item was used on it,
after its own attack with a "Bio" weapon and after its own cast of a "Bio"
spell; and also after `takeDamage(-5)` and after one tick of a Burn of
potency -5. -/
theorem C21_revival_counterexample :
    ((deadTargetWorld.get 1).isAlive = false
      ∧ ((deadTargetWorld.get 1).heal 5).isAlive = true
      ∧ (useItem deadTargetWorld 0 1 0).1 = true
      ∧ ((useItem deadTargetWorld 0 1 0).2.get 1).isAlive = true
      ∧ ((takeDamage deadTargetWorld 1 (-5) "None" true).get 1).isAlive = true)
    ∧ ((deadLeechWorld.get 0).isAlive = false
      ∧ (attack deadLeechWorld 0 1 (fun _ => plainRoll)).1 = true
      ∧ ((attack deadLeechWorld 0 1 (fun _ => plainRoll)).2.get 0).isAlive = true
      ∧ (castSpell deadLeechWorld 0 1 0).1 = true
      ∧ ((castSpell deadLeechWorld 0 1 0).2.get 0).isAlive = true)
    ∧ (deadBurning.isAlive = false ∧ (deadBurning.addTicks 1).isAlive = true) := by
  decide

/-- C21, amended: in a world where every combatant is within its bounds and
carries no negative magnitude, a combatant `j` that is not alive is still not
alive after `restoreMP` and `addTicks` on any combatant, after `heal` on
another combatant, after `takeDamage` with a non-negative amount on any
combatant, after an attack unless `j` is the attacker and its weapon is "Bio",
after a cast unless `j` is the caster and the spell is "Bio", and after
`useItem` unless `j` is the target and the item is of category "Healing". -/
theorem C21_death_is_kept (w : World) (j : Nat) (hs : w.Sane)
    (h : (w.get j).isAlive = false) :
    (∀ (i : Nat) (n : Int), ((w.upd i (fun c => c.restoreMP n)).get j).isAlive = false)
    ∧ (∀ (i : Nat) (n : Int), ((w.upd i (fun c => c.addTicks n)).get j).isAlive = false)
    ∧ (∀ (i : Nat) (n : Int), j ≠ i → ((w.upd i (fun c => c.heal n)).get j).isAlive = false)
    ∧ (∀ (i : Nat) (amount : Int) (element : String) (hasGrid : Bool), 0 ≤ amount →
        ((takeDamage w i amount element hasGrid).get j).isAlive = false)
    ∧ (∀ (self target : Nat) (rolls : Nat → AttackRoll),
        (j ≠ self ∨ (w.get self).equippedWeapon.elementType ≠ "Bio") →
        ((attack w self target rolls).2.get j).isAlive = false)
    ∧ (∀ (self target : Nat) (spellIndex : Int),
        (j ≠ self ∨ ∀ s, (w.get self).knownSpells[spellIndex.toNat]? = some s →
          s.elementType ≠ "Bio") →
        ((castSpell w self target spellIndex).2.get j).isAlive = false)
    ∧ (∀ (self target : Nat) (itemIndex : Int),
        (j ≠ target ∨ ∀ it, (w.get self).inventory[itemIndex.toNat]? = some it →
          it.category ≠ "Healing") →
        ((useItem w self target itemIndex).2.get j).isAlive = false) := by
  refine ⟨?_, ?_, ?_, ?_, ?_, ?_, ?_⟩
  · intro i n
    exact upd_at (fun c => c.isAlive = false) w i j _ (fun hx => hx) h
  · intro i n
    exact upd_at (fun c => c.isAlive = false) w i j _
      (fun hx => addTicks_dead _ _ (World.get_sane w hs j) hx) h
  · intro i n hne
    rw [World.get_upd_ne _ _ _ _ hne]
    exact h
  · intro i amount element hasGrid ha
    exact takeDamage_dead j w i amount element hasGrid ha h
  · intro self target rolls hc
    unfold attack
    split
    · exact h
    · exact attackLoop_dead j self target rolls _ _ _ hs hc h
  · intro self target spellIndex hc
    exact castSpell_dead j w self target spellIndex hs hc h
  · intro self target itemIndex hc
    exact useItem_dead j w self target itemIndex hc h

theorem C21_death_is_kept_witness :
    ((deadTargetWorld.get 1).currentHealth = 0
      ∧ (castSpell deadTargetWorld 0 1 0).1 = true
      ∧ ((castSpell deadTargetWorld 0 1 0).2.get 0).currentMagicPoints = 3)
    ∧ ((castSpell deadTargetWorld 0 1 0).2.get 1).isAlive = false :=
  ⟨by decide,
    (C21_death_is_kept deadTargetWorld 1 (by decide) (by decide)).2.2.2.2.2.1 0 1 0
      (Or.inl (by decide))⟩

/-! ### Teams that `getWinner` does not name -/

theorem teamAlive_filter (w : World) (t : String) (ht : t = "Good Guys" ∨ t = "Bad Guys") :
    ∀ ps : List Nat, teamAlive w (ps.filter (inNamedTeam w)) t = teamAlive w ps t := by
  intro ps
  induction ps with
  | nil => rfl
  | cons p rest ih =>
    unfold teamAlive at ih ⊢
    by_cases hp : inNamedTeam w p = true
    · rw [List.filter_cons_of_pos hp, List.any_cons, List.any_cons, ih]
    · rw [List.filter_cons_of_neg hp, List.any_cons, ih]
      have hne : (w.get p).team ≠ t := by
        intro e
        apply hp
        unfold inNamedTeam
        rw [e]
        exact decide_eq_true ht
      simp [hne]

theorem teamAlive_congr (w w1 : World) (t : String) (ht : t = "Good Guys" ∨ t = "Bad Guys") :
    ∀ ps : List Nat, (∀ p ∈ ps, (w1.get p).team = (w.get p).team) →
      (∀ p ∈ ps, inNamedTeam w p = true → (w1.get p).isAlive = (w.get p).isAlive) →
      teamAlive w1 ps t = teamAlive w ps t := by
  intro ps
  induction ps with
  | nil => intro _ _; rfl
  | cons p rest ih =>
    intro h1 h2
    have ih1 := ih (fun q hq => h1 q (List.mem_cons_of_mem _ hq))
      (fun q hq => h2 q (List.mem_cons_of_mem _ hq))
    unfold teamAlive at ih1 ⊢
    rw [List.any_cons, List.any_cons, ih1, h1 p (List.mem_cons_self _ _)]
    by_cases hp : (w.get p).team = t
    · have hn : inNamedTeam w p = true := by
        unfold inNamedTeam
        rw [hp]
        exact decide_eq_true ht
      rw [h2 p (List.mem_cons_self _ _) hn]
    · simp [hp]

/-- C31: the result of `getWinner` depends on the living participants of the
teams "Good Guys" and "Bad Guys" only. Leaving the participants of every other
team out of the roster does not change it, nor does any change of whether
those participants are alive; and a roster whose living participants all
belong to other teams yields "Draw". -/
theorem C31_getWinner_named_teams (w : World) (ps : List Nat) :
    getWinner w (ps.filter (inNamedTeam w)) = getWinner w ps
    ∧ (∀ w1 : World, (∀ p ∈ ps, (w1.get p).team = (w.get p).team) →
        (∀ p ∈ ps, inNamedTeam w p = true → (w1.get p).isAlive = (w.get p).isAlive) →
        getWinner w1 ps = getWinner w ps)
    ∧ ((∀ p ∈ ps, (w.get p).isAlive = true →
          (w.get p).team ≠ "Good Guys" ∧ (w.get p).team ≠ "Bad Guys") →
        getWinner w ps = "Draw") := by
  refine ⟨?_, ?_, ?_⟩
  · rw [getWinner_eq, getWinner_eq, teamAlive_filter w _ (Or.inl rfl),
      teamAlive_filter w _ (Or.inr rfl)]
  · intro w1 h1 h2
    rw [getWinner_eq, getWinner_eq, teamAlive_congr w w1 _ (Or.inl rfl) ps h1 h2,
      teamAlive_congr w w1 _ (Or.inr rfl) ps h1 h2]
  · intro h
    have hg : teamAlive w ps "Good Guys" = false := by
      unfold teamAlive
      rw [List.any_eq_false]
      intro p hp
      cases ha : (w.get p).isAlive
      · simp
      · simp [(h p hp ha).1]
    have hb : teamAlive w ps "Bad Guys" = false := by
      unfold teamAlive
      rw [List.any_eq_false]
      intro p hp
      cases ha : (w.get p).isAlive
      · simp
      · simp [(h p hp ha).2]
    rw [getWinner_eq, if_pos ⟨hg, hb⟩]

theorem C31_getWinner_named_teams_witness :
    ((thirdTeamWorld.get 2).isAlive = true ∧ (thirdTeamWorld.get 2).team = "Neutrals"
      ∧ [0, 1, 2].filter (inNamedTeam thirdTeamWorld) = [0, 1])
    ∧ getWinner thirdTeamWorld [0, 1, 2] = "Draw" :=
  ⟨by decide, (C31_getWinner_named_teams thirdTeamWorld [0, 1, 2]).2.2 (by decide)⟩

/-! ### Machine arithmetic within its range -/

theorem wrap32_of_range (x : Int) (h1 : INT_MIN ≤ x) (h2 : x ≤ INT_MAX) : wrap32 x = x := by
  unfold wrap32
  unfold INT_MIN at h1
  unfold INT_MAX at h2
  omega

theorem wrap32_range (x : Int) : INT_MIN ≤ wrap32 x ∧ wrap32 x ≤ INT_MAX := by
  unfold wrap32 INT_MIN INT_MAX
  omega

theorem floatOfInt_of_small (n : Int) (h : n.natAbs < 16777216) : floatOfInt n = n := by
  unfold floatOfInt
  have hk : floatShift 64 n.natAbs = 0 := by
    show (if n.natAbs < 16777216 then 0 else floatShift 63 (n.natAbs / 2) + 1) = 0
    rw [if_pos h]
  simp only [hk, pow_zero, Nat.div_one, Nat.mod_one, Nat.mul_zero, Nat.mul_one]
  have hc : ¬ (1 < 0 ∨ 0 = 1 ∧ n.natAbs % 2 = 1) := by omega
  rw [if_neg hc]
  split
  · omega
  · omega

theorem getElementalMultiplier_cases (a b : String) :
    getElementalMultiplier a b = ⟨1, 2⟩ ∨ getElementalMultiplier a b = ⟨2, 1⟩
      ∨ getElementalMultiplier a b = ⟨1, 1⟩ := by
  unfold getElementalMultiplier
  split
  · exact Or.inl rfl
  · split
    · exact Or.inr (Or.inl rfl)
    · split
      · exact Or.inr (Or.inl rfl)
      · split
        · exact Or.inr (Or.inl rfl)
        · split
          · exact Or.inr (Or.inl rfl)
          · exact Or.inr (Or.inr rfl)

theorem trunc_mulInt_le (n : Int) (a b : String) (hn : 0 ≤ n) :
    0 ≤ (Frac.mulInt n (getElementalMultiplier a b)).trunc
    ∧ (Frac.mulInt n (getElementalMultiplier a b)).trunc ≤ 2 * n := by
  rcases getElementalMultiplier_cases a b with e | e | e
  · rw [e]
    show 0 ≤ (n * 1).tdiv ((2 : Nat) : Int) ∧ (n * 1).tdiv ((2 : Nat) : Int) ≤ 2 * n
    rw [Int.tdiv_eq_ediv (by omega) (by decide)]
    constructor <;> omega
  · rw [e]
    show 0 ≤ (n * 2).tdiv ((1 : Nat) : Int) ∧ (n * 2).tdiv ((1 : Nat) : Int) ≤ 2 * n
    rw [Int.tdiv_eq_ediv (by omega) (by decide)]
    constructor <;> omega
  · rw [e]
    show 0 ≤ (n * 1).tdiv ((1 : Nat) : Int) ∧ (n * 1).tdiv ((1 : Nat) : Int) ≤ 2 * n
    rw [Int.tdiv_eq_ediv (by omega) (by decide)]
    constructor <;> omega

/-- Below 2^24 the product with the elemental multiplier is exact in `float`. -/
theorem scaleByFloat_eq (n : Int) (a b : String) (h0 : 0 ≤ n) (h1 : n < 16777216) :
    scaleByFloat n (getElementalMultiplier a b)
      = (Frac.mulInt n (getElementalMultiplier a b)).trunc := by
  obtain ⟨b1, b2⟩ := trunc_mulInt_le n a b h0
  unfold scaleByFloat
  simp only
  rw [floatOfInt_of_small n (by omega)]
  rw [if_neg]
  unfold INT_MIN INT_MAX
  omega

theorem tdiv_ten_bounds (x c : Int) (h1 : -(10 * c) ≤ x) (h2 : x ≤ 10 * c) :
    -c ≤ x.tdiv 10 ∧ x.tdiv 10 ≤ c := by
  by_cases hx : 0 ≤ x
  · rw [Int.tdiv_eq_ediv hx (by decide)]
    constructor <;> omega
  · have e : (-(-x)).tdiv 10 = -((-x).tdiv 10) := Int.neg_tdiv (-x) 10
    rw [neg_neg] at e
    rw [e, Int.tdiv_eq_ediv (by omega) (by decide)]
    constructor <;> omega

theorem acidSum_cons (s : StatusEffect) (l : List StatusEffect) :
    acidSum (s :: l) = (if s.name = "Acid" then s.potency else 0) + acidSum l := by
  unfold acidSum
  by_cases h : s.name = "Acid"
  · simp [List.filter_cons, h]
  · simp [List.filter_cons, h]

theorem acidSum_nonneg (l : List StatusEffect)
    (h : ∀ s ∈ l, s.name = "Acid" → 0 ≤ s.potency) : 0 ≤ acidSum l := by
  induction l with
  | nil => decide
  | cons s rest ih =>
    rw [acidSum_cons]
    have h1 := ih (fun x hx => h x (List.mem_cons_of_mem _ hx))
    split
    · rename_i hs
      have := h s (List.mem_cons_self _ _) hs
      omega
    · omega

/-- With Acid potencies that are not negative, the loop of `getEffectiveDR`
stays within `int` when its start and its end are within `int`. -/
theorem acidLoop32_eq (l : List StatusEffect) :
    ∀ dr : Int, (∀ s ∈ l, s.name = "Acid" → 0 ≤ s.potency) → dr ≤ INT_MAX →
      INT_MIN ≤ dr - acidSum l → acidLoop32 dr l = Combatant.acidLoop dr l := by
  induction l with
  | nil => intro dr _ _ _; rfl
  | cons s rest ih =>
    intro dr h h1 h2
    have hrest : ∀ x ∈ rest, x.name = "Acid" → 0 ≤ x.potency :=
      fun x hx => h x (List.mem_cons_of_mem _ hx)
    have hn := acidSum_nonneg rest hrest
    rw [acidSum_cons] at h2
    unfold acidLoop32 Combatant.acidLoop
    by_cases hs : s.name = "Acid"
    · have hp := h s (List.mem_cons_self _ _) hs
      rw [if_pos hs] at h2
      rw [if_pos hs, if_pos hs, wrap32_of_range _ (by omega) (by omega)]
      exact ih _ hrest (by omega) (by omega)
    · rw [if_neg hs] at h2
      rw [if_neg hs, if_neg hs]
      exact ih _ hrest h1 (by omega)

theorem getEffectiveDR32_eq (c : Combatant) (slack : Int) (h : c.AcidInRange slack)
    (h1 : c.equippedArmor.damageResistance ≤ INT_MAX)
    (h2 : INT_MIN ≤ c.equippedArmor.damageResistance - slack) :
    getEffectiveDR32 c = c.getEffectiveDR := by
  unfold getEffectiveDR32 Combatant.getEffectiveDR
  rw [acidLoop32_eq _ _ h.1 h1 (by have := h.2; omega)]

theorem getEffectiveDR32_ge (c : Combatant) : -80 ≤ getEffectiveDR32 c := by
  unfold getEffectiveDR32
  simp only
  split <;> omega

theorem attackBaseDR32_ge (c : Combatant) : -80 ≤ attackBaseDR32 c := by
  unfold attackBaseDR32
  simp only
  split <;> omega

theorem getEffectiveDR_le (c : Combatant) (h : ∀ s ∈ c.statuses, s.name = "Acid" → 0 ≤ s.potency)
    (hd : -80 ≤ c.equippedArmor.damageResistance) :
    c.getEffectiveDR ≤ c.equippedArmor.damageResistance := by
  have hn := acidSum_nonneg c.statuses h
  unfold Combatant.getEffectiveDR
  simp only
  rw [acidLoop_eq]
  split <;> omega

theorem getEffectiveDR_le_of (c : Combatant) (B : Int) (hB : -80 ≤ B)
    (h : ∀ s ∈ c.statuses, s.name = "Acid" → 0 ≤ s.potency)
    (hd : c.equippedArmor.damageResistance ≤ B) : c.getEffectiveDR ≤ B := by
  have hn := acidSum_nonneg c.statuses h
  unfold Combatant.getEffectiveDR
  simp only
  rw [acidLoop_eq]
  split <;> omega

theorem attackBaseDR_le_of (c : Combatant) (B : Int) (hB : -80 ≤ B)
    (h : ∀ s ∈ c.statuses, s.name = "Acid" → 0 ≤ s.potency)
    (hd : c.equippedArmor.damageResistance ≤ B) : attackBaseDR c ≤ B + 100 := by
  have h1 := getEffectiveDR_le_of c B hB h hd
  unfold attackBaseDR
  simp only
  split
  · omega
  · split <;> omega

/-- Within the range the value of `baseDR` is the same in `int` arithmetic. -/
theorem attackBaseDR32_eq (a t : Combatant) (slack : Int) (hs : slack ≤ 2000000000)
    (h : HitInRange a t slack) : attackBaseDR32 t = attackBaseDR t := by
  obtain ⟨_, _, ⟨d1, d2⟩, hacid⟩ := h
  unfold RANGE at d1 d2
  have e := getEffectiveDR32_eq t slack hacid (by unfold INT_MAX; omega) (by unfold INT_MIN; omega)
  have h1 := getEffectiveDR_ge t
  have h2 := getEffectiveDR_le_of t 1000000 (by decide) hacid.1 d2
  unfold attackBaseDR32 attackBaseDR
  rw [e]
  simp only
  split
  · rw [wrap32_of_range _ (by unfold INT_MIN; omega) (by unfold INT_MAX; omega)]
  · rfl

theorem productDamage_bounds (a : Combatant) (raw : Nat)
    (hP : -RANGE ≤ a.equippedWeapon.physicalAttack ∧ a.equippedWeapon.physicalAttack ≤ RANGE) :
    (-13000000 ≤ a.equippedWeapon.physicalAttack * getRandomInt 7 13 raw
      ∧ a.equippedWeapon.physicalAttack * getRandomInt 7 13 raw ≤ 13000000)
    ∧ -1300000 ≤ (a.equippedWeapon.physicalAttack * getRandomInt 7 13 raw).tdiv 10
    ∧ (a.equippedWeapon.physicalAttack * getRandomInt 7 13 raw).tdiv 10 ≤ 1300000 := by
  unfold RANGE at hP
  have m1 := getRandomInt_ge 7 13 raw
  have m2 := getRandomInt_le 7 13 raw (by decide)
  have hb : -13000000 ≤ a.equippedWeapon.physicalAttack * getRandomInt 7 13 raw
      ∧ a.equippedWeapon.physicalAttack * getRandomInt 7 13 raw ≤ 13000000 := by
    constructor <;> nlinarith
  exact ⟨hb, tdiv_ten_bounds _ 1300000 (by omega) (by omega)⟩

/-- Within the range the damage of a non-critical hit before the elemental
multiplier is the same in `int` arithmetic, is not negative and is below 2^24. -/
theorem resistedDamage32_eq (a t : Combatant) (r : AttackRoll) (slack : Int)
    (hs : slack ≤ 2000000000) (h : HitInRange a t slack) :
    resistedDamage32 a t r = resistedDamage a t r
    ∧ 0 ≤ resistedDamage a t r ∧ resistedDamage a t r ≤ 11500000 := by
  have hbase := attackBaseDR32_eq a t slack hs h
  obtain ⟨hP, ⟨t1, t2⟩, ⟨d1, d2⟩, hacid⟩ := h
  obtain ⟨⟨p1, p2⟩, q1, q2⟩ := productDamage_bounds a r.multiplier hP
  unfold RANGE at t1 t2 d1 d2
  have b1 := attackBaseDR_ge t
  have b2 := attackBaseDR_le_of t 1000000 (by decide) hacid.1 d2
  have hdat : ∀ x : Int, -2300000 ≤ x → x ≤ 2300000 →
      1 ≤ (if x < 1 then 1 else x) ∧ (if x < 1 then 1 else x) ≤ 2300000 := by
    intro x _ _
    split <;> omega
  obtain ⟨c1, c2⟩ := hdat ((a.equippedWeapon.physicalAttack
    * getRandomInt 7 13 r.multiplier).tdiv 10 - t.equippedArmor.damageThreshold)
    (by omega) (by omega)
  obtain ⟨e1, e2⟩ := tdiv_bounds ((if (a.equippedWeapon.physicalAttack
    * getRandomInt 7 13 r.multiplier).tdiv 10 - t.equippedArmor.damageThreshold < 1 then 1
    else (a.equippedWeapon.physicalAttack * getRandomInt 7 13 r.multiplier).tdiv 10
      - t.equippedArmor.damageThreshold) * 100) (100 + attackBaseDR t) (by omega) (by omega)
  refine ⟨?_, ?_, ?_⟩
  · unfold resistedDamage32 resistedDamage
    simp only
    rw [hbase, wrap32_of_range (a.equippedWeapon.physicalAttack
        * getRandomInt 7 13 r.multiplier) (by unfold INT_MIN; omega) (by unfold INT_MAX; omega),
      wrap32_of_range ((a.equippedWeapon.physicalAttack
        * getRandomInt 7 13 r.multiplier).tdiv 10 - t.equippedArmor.damageThreshold)
        (by unfold INT_MIN; omega) (by unfold INT_MAX; omega),
      wrap32_of_range (100 + attackBaseDR t) (by unfold INT_MIN; omega) (by unfold INT_MAX; omega),
      wrap32_of_range ((if (a.equippedWeapon.physicalAttack
        * getRandomInt 7 13 r.multiplier).tdiv 10 - t.equippedArmor.damageThreshold < 1 then 1
        else (a.equippedWeapon.physicalAttack * getRandomInt 7 13 r.multiplier).tdiv 10
          - t.equippedArmor.damageThreshold) * 100)
        (by unfold INT_MIN; omega) (by unfold INT_MAX; omega)]
  · exact e1
  · show (_ : Int).tdiv _ ≤ 11500000
    omega

theorem critAs_le (b : Bool) : Frac.le (critAs b) ⟨5, 100⟩ = b := by
  cases b <;> decide

/-- Within the range the damage computation in machine arithmetic is the exact
computation for the outcome of the critical test against `0.05f`. -/
theorem hitDamage32_eq (a t : Combatant) (r : AttackRoll) (slack : Int)
    (hs : slack ≤ 2000000000) (h : HitInRange a t slack) :
    hitDamage32 a t r = hitDamage a t (machineRoll r) := by
  obtain ⟨e, r1, r2⟩ := resistedDamage32_eq a t r slack hs h
  obtain ⟨⟨p1, p2⟩, _, _⟩ := productDamage_bounds a r.multiplier h.1
  have hpd : wrap32 (a.equippedWeapon.physicalAttack * getRandomInt 7 13 r.multiplier)
      = a.equippedWeapon.physicalAttack * getRandomInt 7 13 r.multiplier :=
    wrap32_of_range _ (by unfold INT_MIN; omega) (by unfold INT_MAX; omega)
  have hideal : hitDamage a t (machineRoll r)
      = { productDamage :=
            (a.equippedWeapon.physicalAttack * getRandomInt 7 13 r.multiplier).tdiv 10
          finalDamage := (Frac.mulInt
            (if Frac.le (critAs (Frac.le r.crit float005)) ⟨5, 100⟩ = true then 0
             else resistedDamage a t r)
            (getElementalMultiplier a.equippedWeapon.elementType t.equippedArmor.elementType)).trunc
          critDamage := if Frac.le (critAs (Frac.le r.crit float005)) ⟨5, 100⟩ = true then
              (a.equippedWeapon.physicalAttack * getRandomInt 7 13 r.multiplier).tdiv 10
            else 0 } := rfl
  have hmach : hitDamage32 a t r
      = { productDamage :=
            (wrap32 (a.equippedWeapon.physicalAttack * getRandomInt 7 13 r.multiplier)).tdiv 10
          finalDamage := scaleByFloat
            (if Frac.le r.crit float005 = true then 0 else resistedDamage32 a t r)
            (getElementalMultiplier a.equippedWeapon.elementType t.equippedArmor.elementType)
          critDamage := if Frac.le r.crit float005 = true then
              (wrap32 (a.equippedWeapon.physicalAttack * getRandomInt 7 13 r.multiplier)).tdiv 10
            else 0 } := rfl
  rw [hideal, hmach, critAs_le, hpd, e]
  cases hb : Frac.le r.crit float005
  · simp only [Bool.false_eq_true, if_false]
    rw [scaleByFloat_eq _ _ _ r1 (by omega)]
  · simp only [if_true]
    rw [scaleByFloat_eq _ _ _ (le_refl 0) (by decide)]

/-! ### The damage computation in machine arithmetic -/

theorem acidLoop32_range (l : List StatusEffect) :
    ∀ dr : Int, INT_MIN ≤ dr → dr ≤ INT_MAX →
      INT_MIN ≤ acidLoop32 dr l ∧ acidLoop32 dr l ≤ INT_MAX := by
  induction l with
  | nil => intro dr h1 h2; exact ⟨h1, h2⟩
  | cons s rest ih =>
    intro dr h1 h2
    unfold acidLoop32
    split
    · exact ih _ (wrap32_range _).1 (wrap32_range _).2
    · exact ih _ h1 h2

theorem attackBaseDR32_range (t : Combatant)
    (h1 : INT_MIN ≤ t.equippedArmor.damageResistance)
    (h2 : t.equippedArmor.damageResistance ≤ INT_MAX) :
    -80 ≤ attackBaseDR32 t ∧ attackBaseDR32 t ≤ INT_MAX := by
  obtain ⟨a1, a2⟩ := acidLoop32_range t.statuses _ h1 h2
  have hw := wrap32_range (getEffectiveDR32 t + 100)
  have he : getEffectiveDR32 t ≤ INT_MAX := by
    unfold getEffectiveDR32
    simp only
    split
    · decide
    · exact a2
  refine ⟨attackBaseDR32_ge t, ?_⟩
  unfold attackBaseDR32
  simp only
  unfold INT_MAX at *
  split
  · split <;> omega
  · split <;> omega

theorem wrap32_add_ne_zero (x : Int) (h1 : -80 ≤ x) (h2 : x ≤ INT_MAX) : wrap32 (100 + x) ≠ 0 := by
  unfold INT_MAX at h2
  unfold wrap32
  omega

theorem wrap32_add_ge (x : Int) (h1 : -80 ≤ x) (h2 : x ≤ INT_MAX - 100) :
    20 ≤ wrap32 (100 + x) := by
  unfold INT_MAX at h2
  rw [wrap32_of_range _ (by unfold INT_MIN; omega) (by unfold INT_MAX; omega)]
  omega

theorem spellMagicDef_ge (t : Combatant) : -80 ≤ spellMagicDef t := by
  unfold spellMagicDef
  split <;> omega

theorem spellMagicDef_le (t : Combatant) (B : Int) (hB : -80 ≤ B)
    (h : t.equippedArmor.magicalDefense ≤ B) : spellMagicDef t ≤ B := by
  unfold spellMagicDef
  split <;> omega

/-- The second floor does not change `baseDR` for a target that is not guarding
or whose effective resistance leaves room for the guard bonus. -/
theorem attackBaseDRUnfloored32_eq (t : Combatant)
    (h : t.guarding = false ∨ getEffectiveDR32 t ≤ INT_MAX - 100) :
    attackBaseDR32 t = attackBaseDRUnfloored32 t
    ∧ -80 ≤ attackBaseDRUnfloored32 t
    ∧ (t.guarding = true → 20 ≤ attackBaseDRUnfloored32 t) := by
  have hg := getEffectiveDR32_ge t
  unfold attackBaseDR32 attackBaseDRUnfloored32
  simp only
  by_cases hgd : t.guarding = true
  · have hle : getEffectiveDR32 t ≤ INT_MAX - 100 := by
      rcases h with h | h
      · rw [hgd] at h
        exact Bool.noConfusion h
      · exact h
    unfold INT_MAX at hle
    have hw : wrap32 (getEffectiveDR32 t + 100) = getEffectiveDR32 t + 100 :=
      wrap32_of_range _ (by unfold INT_MIN; omega) (by unfold INT_MAX; omega)
    rw [if_pos hgd, hw]
    refine ⟨if_neg (by omega), by omega, fun _ => by omega⟩
  · rw [if_neg hgd]
    refine ⟨if_neg (by omega), hg, fun h1 => absurd h1 hgd⟩

theorem hitDamageUnfloored32_eq (a t : Combatant) (r : AttackRoll)
    (h : t.guarding = false ∨ getEffectiveDR32 t ≤ INT_MAX - 100) :
    hitDamageUnfloored32 a t r = hitDamage32 a t r := by
  unfold hitDamageUnfloored32 hitDamage32 resistedDamage32
  rw [(attackBaseDRUnfloored32_eq t h).1]

theorem attackStepUnfloored32_eq (w : World) (self target : Nat) (r : AttackRoll)
    (h : (w.get target).guarding = false ∨ getEffectiveDR32 (w.get target) ≤ INT_MAX - 100) :
    attackStepUnfloored32 w self target r = attackStep32 w self target r := by
  unfold attackStepUnfloored32 attackStep32
  rw [hitDamageUnfloored32_eq _ _ _ h]

theorem getEffectiveDR32_le_of_range (a t : Combatant) (slack : Int) (hs : slack ≤ 2000000000)
    (h : HitInRange a t slack) : getEffectiveDR32 t ≤ INT_MAX - 100 := by
  obtain ⟨_, _, ⟨d1, d2⟩, hacid⟩ := h
  unfold RANGE at d1 d2
  rw [getEffectiveDR32_eq t slack hacid (by unfold INT_MAX; omega) (by unfold INT_MIN; omega)]
  have := getEffectiveDR_le_of t 1000000 (by decide) hacid.1 d2
  unfold INT_MAX
  omega

theorem Frac.gt_self (x : Frac) : Frac.gt x x = false := by
  unfold Frac.gt Frac.le
  simp

/-- Within the range a sub-attack in machine arithmetic misses, or is the exact
sub-attack that hits with the outcome of the critical test against `0.05f`. -/
theorem attackStep32_cases (w : World) (self target : Nat) (r : AttackRoll) (slack : Int)
    (hs : slack ≤ 2000000000) (h : HitInRange (w.get self) (w.get target) slack) :
    attackStep32 w self target r = w
    ∨ attackStep32 w self target r
        = attackStep w self target (hitRoll (w.get self) (w.get target) r) := by
  unfold attackStep32
  simp only
  split
  · exact Or.inl rfl
  · right
    rw [attackStep_of_hit w self target (hitRoll (w.get self) (w.get target) r)
      (Frac.gt_self _), hitDamage32_eq _ _ _ slack hs h]
    rfl

theorem attackStep32_sameFixed (w : World) (self target : Nat) (r : AttackRoll) :
    SameFixed w (attackStep32 w self target r) ∧ (attackStep32 w self target r).grid = w.grid := by
  unfold attackStep32
  simp only
  split
  · exact ⟨SameFixed.refl_fixed w, rfl⟩
  · obtain ⟨a, b⟩ := takeDamage_sameFixed
      (elementalSideEffect w self target (w.get self).equippedWeapon.elementType
        (hitDamage32 (w.get self) (w.get target) r).productDamage
        (hitDamage32 (w.get self) (w.get target) r).finalDamage) target
      ((hitDamage32 (w.get self) (w.get target) r).finalDamage
        + (hitDamage32 (w.get self) (w.get target) r).critDamage)
      (w.get self).equippedWeapon.elementType true
    exact ⟨(elementalSideEffect_sameFixed _ _ _ _ _ _).trans_fixed a,
      b.trans (elementalSideEffect_grid _ _ _ _ _ _)⟩

/-- Within the range the damage after the elemental multiplier is not negative
and at most 23000000. -/
theorem hitDamage_final_bounds (a t : Combatant) (r : AttackRoll) (slack : Int)
    (hs : slack ≤ 2000000000) (h : HitInRange a t slack) :
    0 ≤ (hitDamage a t r).finalDamage ∧ (hitDamage a t r).finalDamage ≤ 23000000 := by
  obtain ⟨_, r1, r2⟩ := resistedDamage32_eq a t r slack hs h
  have e : (hitDamage a t r).finalDamage
      = (Frac.mulInt (if Frac.le r.crit ⟨5, 100⟩ = true then 0 else resistedDamage a t r)
          (getElementalMultiplier a.equippedWeapon.elementType
            t.equippedArmor.elementType)).trunc := rfl
  rw [e]
  split
  · obtain ⟨b1, b2⟩ := trunc_mulInt_le 0 a.equippedWeapon.elementType
      t.equippedArmor.elementType (le_refl 0)
    exact ⟨b1, by omega⟩
  · obtain ⟨b1, b2⟩ := trunc_mulInt_le (resistedDamage a t r) a.equippedWeapon.elementType
      t.equippedArmor.elementType r1
    exact ⟨b1, by omega⟩

/-! ### The Acid statuses through the operations -/

theorem Combatant.AcidInRange.mono {c : Combatant} {s s1 : Int} (h : c.AcidInRange s) (hs : s ≤ s1) :
    c.AcidInRange s1 := ⟨h.1, le_trans h.2 hs⟩

theorem tickStatuses_acid :
    ∀ (l : List StatusEffect) (h : Int), (∀ s ∈ l, s.name = "Acid" → 0 ≤ s.potency) →
      (∀ s ∈ (Combatant.tickStatuses h l).2, s.name = "Acid" → 0 ≤ s.potency)
      ∧ acidSum (Combatant.tickStatuses h l).2 ≤ acidSum l := by
  intro l
  induction l with
  | nil =>
    intro h _
    exact ⟨fun s hs => absurd hs (List.not_mem_nil _), le_refl _⟩
  | cons a rest ih =>
    intro h hl
    have ha : a.name = "Acid" → 0 ≤ a.potency := hl a (List.mem_cons_self _ _)
    have hrest : ∀ s ∈ rest, s.name = "Acid" → 0 ≤ s.potency :=
      fun s hs => hl s (List.mem_cons_of_mem _ hs)
    have hsum : acidSum (a :: rest) = (if a.name = "Acid" then a.potency else 0) + acidSum rest :=
      acidSum_cons a rest
    have hnn : 0 ≤ (if a.name = "Acid" then a.potency else 0) := by
      split
      · rename_i hn
        exact ha hn
      · exact le_refl _
    unfold Combatant.tickStatuses
    simp only
    split
    · obtain ⟨i1, i2⟩ := ih (if a.name = "Burn" then
          (if h - a.potency < 0 then 0 else h - a.potency) else h) hrest
      exact ⟨i1, by omega⟩
    · obtain ⟨i1, i2⟩ := ih (if a.name = "Burn" then
          (if h - a.potency < 0 then 0 else h - a.potency) else h) hrest
      refine ⟨?_, ?_⟩
      · intro s hs
        rcases List.mem_cons.mp hs with e | hm
        · rw [e]
          exact ha
        · exact i1 s hm
      · have e := acidSum_cons { a with durationTicks := a.durationTicks - 1 }
          (Combatant.tickStatuses (if a.name = "Burn" then
            (if h - a.potency < 0 then 0 else h - a.potency) else h) rest).2
        simp only at e
        rw [e, hsum]
        omega

theorem tickLoop_acid (n : Nat) (s : Int) :
    ∀ c : Combatant, c.AcidInRange s → (Combatant.tickLoop n c).AcidInRange s := by
  induction n with
  | zero => intro c h; exact h
  | succ n ih =>
    intro c h
    unfold Combatant.tickLoop
    simp only
    obtain ⟨i1, i2⟩ := tickStatuses_acid c.statuses c.currentHealth h.1
    have h1 : Combatant.AcidInRange
        { c with currentHealth := (Combatant.tickStatuses c.currentHealth c.statuses).1,
                 statuses := (Combatant.tickStatuses c.currentHealth c.statuses).2 } s :=
      ⟨i1, le_trans i2 h.2⟩
    split
    · exact h1
    · exact ih _ h1

theorem addTicks_acid (c : Combatant) (n s : Int) (h : c.AcidInRange s) :
    (c.addTicks n).AcidInRange s :=
  tickLoop_acid _ _ _ h

theorem acidSum_append (l : List StatusEffect) (x : StatusEffect) :
    acidSum (l ++ [x]) = acidSum l + (if x.name = "Acid" then x.potency else 0) := by
  induction l with
  | nil =>
    have := acidSum_cons x []
    simp only [List.nil_append]
    rw [this]
    have h0 : acidSum [] = 0 := rfl
    rw [h0]
    omega
  | cons a rest ih =>
    rw [List.cons_append, acidSum_cons, acidSum_cons, ih]
    omega

theorem applyStatus_acid (c : Combatant) (name : String) (d p s B : Int)
    (hp : name = "Acid" → 0 ≤ p ∧ p ≤ B) (hB : 0 ≤ B) (h : c.AcidInRange s) :
    (c.applyStatus name d p).AcidInRange (s + B) := by
  refine ⟨?_, ?_⟩
  · intro x hx
    rcases List.mem_append.mp hx with h1 | h1
    · exact h.1 x h1
    · have e : x = { name := name, durationTicks := d, potency := p } := by simpa using h1
      rw [e]
      intro hn
      exact (hp hn).1
  · show acidSum (c.statuses ++ [_]) ≤ s + B
    rw [acidSum_append]
    have := h.2
    simp only
    split
    · rename_i hn
      have := (hp hn).2
      omega
    · omega

theorem takeDamage_acid (j : Nat) (s : Int) (w : World) (i : Nat) (a : Int) (e : String) (g : Bool)
    (h : (w.get j).AcidInRange s) : ((takeDamage w i a e g).get j).AcidInRange s :=
  takeDamageAux_keeps (fun w1 => (w1.get j).AcidInRange s) (fun _ => True)
    (fun _ _ _ => trivial)
    (fun w1 i1 a1 e1 _ h1 =>
      damageSelf_at (fun c => c.AcidInRange s) j w1 i1 a1 e1 (fun _ hc => hc) (fun _ hc => hc)
        (fun _ hc => hc) h1)
    _ w i a e g trivial h

theorem elementalSideEffect_acid (j : Nat) (s B : Int) (w : World) (self victim : Nat)
    (elem : String) (b d : Int) (hB : 0 ≤ B) (hd0 : 0 ≤ d) (hdB : d ≤ 3 * B)
    (h : (w.get j).AcidInRange s) :
    ((elementalSideEffect w self victim elem b d).get j).AcidInRange (s + B) := by
  have hm : (w.get j).AcidInRange (s + B) := h.mono (by omega)
  have hq : 0 ≤ d.tdiv 3 ∧ d.tdiv 3 ≤ B := by
    rw [Int.tdiv_eq_ediv hd0 (by decide)]
    omega
  unfold elementalSideEffect
  split
  · exact upd_at (fun c => c.AcidInRange (s + B)) w victim j _
      (fun hc => (applyStatus_acid _ "Burn" 5 _ (s + B) 0
        (fun hn => absurd hn (by decide)) (le_refl 0) hc).mono (by omega)) hm
  · split
    · rw [World.get_upd]
      split
      · rename_i hc
        rw [← hc.1]
        exact applyStatus_acid _ "Acid" 7 _ s B (fun _ => hq) hB h
      · exact hm
    · split
      · exact upd_at (fun c => c.AcidInRange (s + B)) w victim j _ (addTicks_acid _ _ _) hm
      · split
        · exact upd_at (fun c => c.AcidInRange (s + B)) w self j _ (fun hc => hc) hm
        · exact hm

/-- A sub-attack within the range leaves the values read by the next one within
the range, with 8000000 more for the Acid statuses. -/
theorem attackStep_hitInRange (w : World) (self target : Nat) (r : AttackRoll) (slack : Int)
    (hs : slack ≤ 2000000000) (h : HitInRange (w.get self) (w.get target) slack) :
    HitInRange ((attackStep w self target r).get self) ((attackStep w self target r).get target)
      (slack + 8000000) := by
  obtain ⟨f1, f2⟩ := hitDamage_final_bounds (w.get self) (w.get target) r slack hs h
  obtain ⟨sf, _⟩ := attackStep_sameFixed w self target r
  obtain ⟨hP, hT, hD, hacid⟩ := h
  refine ⟨?_, ?_, ?_, ?_⟩
  · rw [sf.weapon self]
    exact hP
  · rw [sf.armor target]
    exact hT
  · rw [sf.armor target]
    exact hD
  · unfold attackStep
    simp only
    split
    · exact hacid.mono (by omega)
    · exact takeDamage_acid target _ _ _ _ _ _
        (elementalSideEffect_acid target slack 8000000 w self target _ _ _ (by decide) f1
          (by omega) hacid)

theorem attackStep32_hitInRange (w : World) (self target : Nat) (r : AttackRoll) (slack : Int)
    (hs : slack ≤ 2000000000) (h : HitInRange (w.get self) (w.get target) slack) :
    HitInRange ((attackStep32 w self target r).get self) ((attackStep32 w self target r).get target)
      (slack + 8000000) := by
  rcases attackStep32_cases w self target r slack hs h with e | e
  · rw [e]
    exact ⟨h.1, h.2.1, h.2.2.1, h.2.2.2.mono (by omega)⟩
  · rw [e]
    exact attackStep_hitInRange w self target _ slack hs h

theorem attackStep32_sane (w : World) (self target : Nat) (r : AttackRoll) (slack : Int)
    (hs : slack ≤ 2000000000) (h : HitInRange (w.get self) (w.get target) slack)
    (hw : w.Sane) : (attackStep32 w self target r).Sane := by
  rcases attackStep32_cases w self target r slack hs h with e | e
  · rw [e]
    exact hw
  · rw [e]
    exact attackStep_sane w self target _ hw

/-- The loop of `attack` in machine arithmetic keeps the bounds, within the
range. -/
theorem attackLoop32_sane (self target : Nat) (rolls : Nat → AttackRoll) (n : Nat) :
    ∀ (i : Nat) (w : World) (slack : Int), slack + 8000000 * n ≤ 2000000000 →
      HitInRange (w.get self) (w.get target) slack → w.Sane →
      (attackLoop32 self target rolls n i w).Sane := by
  induction n with
  | zero => intro i w slack _ _ hw; exact hw
  | succ n ih =>
    intro i w slack hs h hw
    unfold attackLoop32
    have hs1 : slack ≤ 2000000000 := by push_cast at hs; omega
    split
    · exact ih (i + 1) _ (slack + 8000000) (by push_cast at hs; omega)
        (attackStep32_hitInRange w self target _ slack hs1 h)
        (attackStep32_sane w self target _ slack hs1 h hw)
    · exact hw

theorem attackLoopUnfloored32_eq (self target : Nat) (rolls : Nat → AttackRoll) (n : Nat) :
    ∀ (i : Nat) (w : World) (slack : Int), slack + 8000000 * n ≤ 2000000000 →
      HitInRange (w.get self) (w.get target) slack →
      attackLoopUnfloored32 self target rolls n i w = attackLoop32 self target rolls n i w := by
  induction n with
  | zero => intro i w slack _ _; rfl
  | succ n ih =>
    intro i w slack hs h
    unfold attackLoopUnfloored32 attackLoop32
    have hs1 : slack ≤ 2000000000 := by push_cast at hs; omega
    rw [attackStepUnfloored32_eq w self target (rolls i)
      (Or.inr (getEffectiveDR32_le_of_range _ _ slack hs1 h))]
    split
    · exact ih (i + 1) _ (slack + 8000000) (by push_cast at hs; omega)
        (attackStep32_hitInRange w self target _ slack hs1 h)
    · rfl

theorem attackLoopUnfloored32_of_not_guarding (self target : Nat) (rolls : Nat → AttackRoll)
    (n : Nat) :
    ∀ (i : Nat) (w : World), (w.get target).guarding = false →
      attackLoopUnfloored32 self target rolls n i w = attackLoop32 self target rolls n i w := by
  induction n with
  | zero => intro i w _; rfl
  | succ n ih =>
    intro i w h
    unfold attackLoopUnfloored32 attackLoop32
    rw [attackStepUnfloored32_eq w self target (rolls i) (Or.inl h)]
    split
    · apply ih
      rw [(attackStep32_sameFixed w self target (rolls i)).1.guarding target]
      exact h
    · rfl

/-! ### The second floor of `baseDR` -/

/-- C27, as stated, fails: for a guarding target in armor of resistance
2147483600 the guard bonus overflows, `baseDR` is -2147483596 before the second
floor and -80 after it, and the hit that deals 15 with the floor deals 0
without it: the target dies in `attack` and keeps its 10 health in `attack`
without the second floor. -/
theorem C27_second_floor_counterexample :
    getEffectiveDR32 hugeResistTarget = 2147483600
    ∧ attackBaseDRUnfloored32 hugeResistTarget = -2147483596
    ∧ attackBaseDR32 hugeResistTarget = -80
    ∧ (hitDamage32 c1Caster hugeResistTarget plainRoll).finalDamage = 15
    ∧ (hitDamageUnfloored32 c1Caster hugeResistTarget plainRoll).finalDamage = 0
    ∧ ((attack32 hugeResistWorld 0 1 (fun _ => plainRoll)).2.get 1).currentHealth = 0
    ∧ ((attackUnfloored32 hugeResistWorld 0 1 (fun _ => plainRoll)).2.get 1).currentHealth = 10
    ∧ attackUnfloored32 hugeResistWorld 0 1 (fun _ => plainRoll)
        ≠ attack32 hugeResistWorld 0 1 (fun _ => plainRoll) := by
  refine ⟨by decide, by decide, by decide, by decide, by decide, by decide, by decide, by decide⟩

/-- C27, amended: the value of `getEffectiveDR` is at least -80; for a target
that is not guarding, or whose effective resistance is at most INT_MAX - 100,
`baseDR` after the guard bonus is at least -80, and at least 20 when the target
is guarding, the second floor does not change it, and the damage figures of a
hit are the same without the second floor; `attack` without the second floor
returns the same result and the same state when the target is not guarding, or
when the attack of the weapon, the threshold and the resistance of the armor of
the target are within 1000000 in magnitude, the Acid potencies of the target
are not negative and sum to at most 1000000, and the weapon has at most 100
attacks. -/
theorem C27_second_floor_redundant (t : Combatant)
    (h : t.guarding = false ∨ getEffectiveDR32 t ≤ INT_MAX - 100) :
    -80 ≤ getEffectiveDR32 t
    ∧ -80 ≤ attackBaseDRUnfloored32 t
    ∧ (t.guarding = true → 20 ≤ attackBaseDRUnfloored32 t)
    ∧ attackBaseDR32 t = attackBaseDRUnfloored32 t
    ∧ (∀ (a : Combatant) (r : AttackRoll), hitDamageUnfloored32 a t r = hitDamage32 a t r)
    ∧ (∀ (w : World) (self target : Nat) (rolls : Nat → AttackRoll), w.get target = t →
        (t.guarding = false
          ∨ (HitInRange (w.get self) t RANGE
              ∧ (w.get self).equippedWeapon.numberOfAttacks ≤ 100)) →
        attackUnfloored32 w self target rolls = attack32 w self target rolls) := by
  obtain ⟨e1, e2, e3⟩ := attackBaseDRUnfloored32_eq t h
  refine ⟨getEffectiveDR32_ge t, e2, e3, e1, fun a r => hitDamageUnfloored32_eq a t r h, ?_⟩
  intro w self target rolls ht hr
  unfold attackUnfloored32 attack32
  rcases hr with hg | ⟨hr, hn⟩
  · rw [attackLoopUnfloored32_of_not_guarding self target rolls _ 0 w (by rw [ht]; exact hg)]
  · rw [attackLoopUnfloored32_eq self target rolls _ 0 w RANGE
      (by
        have : (((w.get self).equippedWeapon.numberOfAttacks.toNat : Nat) : Int) ≤ 100 := by omega
        unfold RANGE
        omega)
      (by rw [ht]; exact hr)]

theorem C27_second_floor_redundant_witness :
    (acidTarget.guarding = false ∨ getEffectiveDR32 acidTarget ≤ INT_MAX - 100)
    ∧ (acidTarget.guarding = true ∧ getEffectiveDR32 acidTarget = 30
        ∧ attackBaseDRUnfloored32 acidTarget = 130)
    ∧ attackBaseDR32 acidTarget = attackBaseDRUnfloored32 acidTarget :=
  ⟨by decide, by decide, (C27_second_floor_redundant acidTarget (Or.inr (by decide))).2.2.2.1⟩

/-! ### The divisions of `attack` and `castSpell` in machine arithmetic -/

/-- C26, as stated, fails: for armor of resistance 2147483600 the divisor
`100 + baseDR` of `attack` overflows to -2147483596, for armor of magical
defense 2147483600 the divisor `100 + magicDef` of `castSpell` does the same,
and for a weapon of attack 30000000 the product `damageAfterThreshold * 100`
overflows, so that the damage of a non-critical hit before the elemental
multiplier is -12949672. -/
theorem C26_divisors_counterexample :
    attackBaseDR32 hugeResistUnguarded = 2147483600
    ∧ wrap32 (100 + attackBaseDR32 hugeResistUnguarded) = -2147483596
    ∧ spellMagicDef hugeMagicDefTarget = 2147483600
    ∧ wrap32 (100 + spellMagicDef hugeMagicDefTarget) = -2147483596
    ∧ bigAttacker.equippedWeapon.physicalAttack = 30000000
    ∧ Frac.le plainRoll.crit float005 = false
    ∧ (hitDamage32 bigAttacker c1Target plainRoll).productDamage = 30000000
    ∧ resistedDamage32 bigAttacker c1Target plainRoll = -12949672
    ∧ (hitDamage32 bigAttacker c1Target plainRoll).finalDamage = -12949672 := by
  refine ⟨by decide, by decide, by decide, by decide, by decide, by decide, by decide, by decide,
    by decide⟩

/-- C26, amended: in two's complement arithmetic the divisor `100 + baseDR` of
`attack` is never 0 for a resistance that is an `int`, and the divisor
`100 + magicDef` of `castSpell` is never 0 for a magical defense that is an
`int`; the first is at least 20 when `baseDR` is at most INT_MAX - 100 and the
second when the magical defense is at most INT_MAX - 100. When the attack of
the weapon, the threshold and the resistance of the armor are within 1000000 in
magnitude and the Acid potencies of the target are not negative and sum to at
most 2000000000, the damage of a non-critical hit before the elemental
multiplier lies between 0 and `5 * max(1, productDamage - damageThreshold)`. -/
theorem C26_divisors_at_least_20 (a t : Combatant) (r : AttackRoll) (spell : Spell) :
    (INT_MIN ≤ t.equippedArmor.damageResistance → t.equippedArmor.damageResistance ≤ INT_MAX →
        wrap32 (100 + attackBaseDR32 t) ≠ 0)
    ∧ (t.equippedArmor.magicalDefense ≤ INT_MAX → wrap32 (100 + spellMagicDef t) ≠ 0)
    ∧ (attackBaseDR32 t ≤ INT_MAX - 100 → 20 ≤ wrap32 (100 + attackBaseDR32 t))
    ∧ (t.equippedArmor.magicalDefense ≤ INT_MAX - 100 → 20 ≤ wrap32 (100 + spellMagicDef t))
    ∧ (Frac.le r.crit float005 = false →
        (hitDamage32 a t r).finalDamage
          = scaleByFloat (resistedDamage32 a t r)
              (getElementalMultiplier a.equippedWeapon.elementType t.equippedArmor.elementType))
    ∧ spellDamage32 spell t
        = scaleByFloat ((wrap32 (spell.magicalAttack * 100)).tdiv (wrap32 (100 + spellMagicDef t)))
            (getElementalMultiplier spell.elementType t.equippedArmor.elementType)
    ∧ (HitInRange a t 2000000000 →
        0 ≤ resistedDamage32 a t r
        ∧ resistedDamage32 a t r
            ≤ 5 * max 1 ((hitDamage32 a t r).productDamage - t.equippedArmor.damageThreshold)) := by
  refine ⟨?_, ?_, ?_, ?_, ?_, rfl, ?_⟩
  · intro h1 h2
    obtain ⟨b1, b2⟩ := attackBaseDR32_range t h1 h2
    exact wrap32_add_ne_zero _ b1 b2
  · intro h
    exact wrap32_add_ne_zero _ (spellMagicDef_ge t)
      (spellMagicDef_le t INT_MAX (by decide) h)
  · intro h
    exact wrap32_add_ge _ (attackBaseDR32_ge t) h
  · intro h
    exact wrap32_add_ge _ (spellMagicDef_ge t)
      (spellMagicDef_le t (INT_MAX - 100) (by decide) h)
  · intro hnc
    unfold hitDamage32
    simp only [hnc, Bool.false_eq_true, if_false]
  · intro hr
    obtain ⟨e, r1, _⟩ := resistedDamage32_eq a t r 2000000000 (le_refl _) hr
    obtain ⟨⟨p1, p2⟩, _, _⟩ := productDamage_bounds a r.multiplier hr.1
    have hpd : (hitDamage32 a t r).productDamage
        = (a.equippedWeapon.physicalAttack * getRandomInt 7 13 r.multiplier).tdiv 10 := by
      show (wrap32 _).tdiv 10 = _
      rw [wrap32_of_range _ (by unfold INT_MIN; omega) (by unfold INT_MAX; omega)]
    have hmax1 : ∀ x : Int, (if x < 1 then 1 else x) = max 1 x := by
      intro x
      split
      · exact (max_eq_left (by omega)).symm
      · exact (max_eq_right (by omega)).symm
    rw [e, hpd]
    refine ⟨r1, ?_⟩
    have hdr := attackBaseDR_ge t
    unfold resistedDamage
    simp only [hmax1]
    have h1 : (1 : Int) ≤ max 1 ((a.equippedWeapon.physicalAttack
        * getRandomInt 7 13 r.multiplier).tdiv 10 - t.equippedArmor.damageThreshold) :=
      le_max_left _ _
    obtain ⟨_, b2⟩ := tdiv_bounds (max 1 ((a.equippedWeapon.physicalAttack
        * getRandomInt 7 13 r.multiplier).tdiv 10 - t.equippedArmor.damageThreshold) * 100)
      (100 + attackBaseDR t) (by omega) (by omega)
    omega

theorem C26_divisors_at_least_20_witness :
    HitInRange fireAttacker acidTarget 2000000000
    ∧ wrap32 (100 + attackBaseDR32 acidTarget) = 230
    ∧ resistedDamage32 fireAttacker acidTarget plainRoll = 19
    ∧ (0 ≤ resistedDamage32 fireAttacker acidTarget plainRoll
        ∧ resistedDamage32 fireAttacker acidTarget plainRoll
            ≤ 5 * max 1 ((hitDamage32 fireAttacker acidTarget plainRoll).productDamage
                - acidTarget.equippedArmor.damageThreshold)) :=
  ⟨by decide, by decide, by decide,
    (C26_divisors_at_least_20 fireAttacker acidTarget plainRoll areaSpell).2.2.2.2.2.2
      (by decide)⟩

/-! ### The amount of a non-critical hit -/

/-- C16, as stated, fails: the elemental multiplier is applied in `float`, so
for a weapon of attack 16777217 = 2^24 + 1, the multiplier 10, no threshold, no
resistance and the elemental multiplier 1 the amount passed to takeDamage is
16777216 where the formula gives 16777217 (a target of 20000000 health is left
with 3222784); for a weapon of attack 30000000 the `int` product
`damageAfterThreshold * 100` overflows and the amount is -12949672 where the
formula gives 30000000. -/
theorem C16_non_critical_counterexample :
    (Frac.le plainRoll.crit float005 = false ∧ getRandomInt 7 13 plainRoll.multiplier = 10)
    ∧ (oddAttacker.equippedWeapon.physicalAttack = 16777217
        ∧ c1Target.equippedArmor.damageThreshold = 0
        ∧ c1Target.equippedArmor.damageResistance = 0
        ∧ acidSum c1Target.statuses = 0 ∧ c1Target.guarding = false
        ∧ getElementalMultiplier oddAttacker.equippedWeapon.elementType
            c1Target.equippedArmor.elementType = ⟨1, 1⟩)
    ∧ (hitDamage32 oddAttacker c1Target plainRoll).finalDamage
        + (hitDamage32 oddAttacker c1Target plainRoll).critDamage = 16777216
    ∧ nonCritAmount 16777217 10 0 0 0 false ⟨1, 1⟩ = 16777217
    ∧ ((attack32 oddAttackWorld 0 1 (fun _ => plainRoll)).2.get 1).currentHealth = 3222784
    ∧ (hitDamage32 bigAttacker c1Target plainRoll).finalDamage
        + (hitDamage32 bigAttacker c1Target plainRoll).critDamage = -12949672
    ∧ nonCritAmount 30000000 10 0 0 0 false ⟨1, 1⟩ = 30000000 := by
  refine ⟨by decide, by decide, by decide, by decide, by decide, by decide, by decide⟩

/-- C16, amended: for a hit whose critical roll is above `0.05f`, with the
attack P of the weapon, the threshold DT and the resistance R of the armor
within 1000000 in magnitude and Acid potencies that are not negative and sum to
A, at most 2000000000, the amount passed to takeDamage of the target is
trunc(e * ((max(1, P*m/10 - DT) * 100) / (100 + DR))) with
DR = max(-80, max(-80, R - A) + (100 if the target is guarding, else 0)), where
m is the rolled multiplier, in 7..13, and the divisions are integer divisions. -/
theorem C16_non_critical_amount (a t : Combatant) (r : AttackRoll)
    (hnc : Frac.le r.crit float005 = false) (hr : HitInRange a t 2000000000) :
    (7 ≤ getRandomInt 7 13 r.multiplier ∧ getRandomInt 7 13 r.multiplier ≤ 13)
    ∧ (hitDamage32 a t r).finalDamage + (hitDamage32 a t r).critDamage
        = nonCritAmount a.equippedWeapon.physicalAttack (getRandomInt 7 13 r.multiplier)
            t.equippedArmor.damageThreshold t.equippedArmor.damageResistance (acidSum t.statuses)
            t.guarding
            (getElementalMultiplier a.equippedWeapon.elementType t.equippedArmor.elementType)
    ∧ (∀ (w : World) (self target : Nat), w.get self = a → w.get target = t →
        Frac.gt r.hit
          (floatOfFrac (Frac.sub a.equippedWeapon.accuracy t.equippedArmor.evasion)) = false →
        attackStep32 w self target r =
          takeDamage
            (elementalSideEffect w self target a.equippedWeapon.elementType
              (hitDamage32 a t r).productDamage (hitDamage32 a t r).finalDamage) target
            (nonCritAmount a.equippedWeapon.physicalAttack (getRandomInt 7 13 r.multiplier)
              t.equippedArmor.damageThreshold t.equippedArmor.damageResistance
              (acidSum t.statuses) t.guarding
              (getElementalMultiplier a.equippedWeapon.elementType t.equippedArmor.elementType))
            a.equippedWeapon.elementType true) := by
  have hmax1 : ∀ x : Int, (if x < 1 then 1 else x) = max 1 x := by
    intro x
    split
    · exact (max_eq_left (by omega)).symm
    · exact (max_eq_right (by omega)).symm
  have hc : Frac.le (machineRoll r).crit ⟨5, 100⟩ = false := by
    show Frac.le (critAs (Frac.le r.crit float005)) ⟨5, 100⟩ = false
    rw [critAs_le]
    exact hnc
  have hmul : (machineRoll r).multiplier = r.multiplier := rfl
  have hamount : (hitDamage32 a t r).finalDamage + (hitDamage32 a t r).critDamage
      = nonCritAmount a.equippedWeapon.physicalAttack (getRandomInt 7 13 r.multiplier)
          t.equippedArmor.damageThreshold t.equippedArmor.damageResistance (acidSum t.statuses)
          t.guarding
          (getElementalMultiplier a.equippedWeapon.elementType t.equippedArmor.elementType) := by
    rw [hitDamage32_eq a t r 2000000000 (le_refl _) hr]
    unfold hitDamage nonCritAmount
    simp only [hc, hmul, Bool.false_eq_true, if_false, add_zero, hmax1, attackBaseDR_eq]
  refine ⟨⟨getRandomInt_ge 7 13 _, getRandomInt_le 7 13 _ (by decide)⟩, hamount, ?_⟩
  intro w self target hs ht hhit
  unfold attackStep32
  simp only [hs, ht]
  rw [hhit]
  simp only [Bool.false_eq_true, if_false]
  rw [hamount]

theorem C16_non_critical_amount_witness :
    (Frac.le plainRoll.crit float005 = false
      ∧ HitInRange fireAttacker acidTarget 2000000000
      ∧ getRandomInt 7 13 plainRoll.multiplier = 10
      ∧ acidSum acidTarget.statuses = 10
      ∧ nonCritAmount 50 10 5 40 10 true ⟨2, 1⟩ = 38)
    ∧ (hitDamage32 fireAttacker acidTarget plainRoll).finalDamage
        + (hitDamage32 fireAttacker acidTarget plainRoll).critDamage
        = nonCritAmount fireAttacker.equippedWeapon.physicalAttack
            (getRandomInt 7 13 plainRoll.multiplier)
            acidTarget.equippedArmor.damageThreshold acidTarget.equippedArmor.damageResistance
            (acidSum acidTarget.statuses) acidTarget.guarding
            (getElementalMultiplier fireAttacker.equippedWeapon.elementType
              acidTarget.equippedArmor.elementType) :=
  ⟨by decide,
    (C16_non_critical_amount fireAttacker acidTarget plainRoll (by decide) (by decide)).2.1⟩

/-! ### The resource bounds in machine arithmetic -/

theorem default_inRange : (default : Combatant).InRange := by decide

theorem World.get_inRange (w : World) (h : w.InRange) (i : Nat) : (w.get i).InRange := by
  by_cases hi : i < w.combatants.length
  · exact h _ (getD_mem_or_default _ _ _ hi)
  · have : w.get i = default := by
      unfold World.get
      exact List.getD_eq_default _ _ (not_lt.mp hi)
    rw [this]
    exact default_inRange

theorem hitInRange_of (w : World) (hs : w.Sane) (hr : w.InRange) (self target : Nat) :
    HitInRange (w.get self) (w.get target) RANGE := by
  obtain ⟨_, _, a3, _, _⟩ := World.get_inRange w hr self
  obtain ⟨_, _, _, _, t5, t6, _, _, _, t10, _⟩ := World.get_inRange w hr target
  have hp := (World.get_sane w hs self).2.1
  refine ⟨⟨?_, a3⟩, t5, t6, t10⟩
  unfold RANGE
  omega

theorem attack32_sane (w : World) (self target : Nat) (rolls : Nat → AttackRoll) (hs : w.Sane)
    (hr : w.InRange) : (attack32 w self target rolls).2.Sane := by
  obtain ⟨_, _, _, a4, _⟩ := World.get_inRange w hr self
  unfold attack32
  split
  · exact hs
  · exact attackLoop32_sane self target rolls _ 0 w RANGE
      (by
        have : (((w.get self).equippedWeapon.numberOfAttacks.toNat : Nat) : Int) ≤ 100 := by omega
        unfold RANGE
        omega)
      (hitInRange_of w hs hr self target) hs

/-- Within the range the damage of a spell is the same in machine arithmetic. -/
theorem spellDamage32_eq (spell : Spell) (v : Combatant) (h0 : 0 ≤ spell.magicalAttack)
    (h1 : spell.magicalAttack ≤ RANGE) (h2 : v.equippedArmor.magicalDefense ≤ RANGE) :
    spellDamage32 spell v = spellDamage spell v := by
  unfold RANGE at h1 h2
  have d1 := spellMagicDef_ge v
  have d2 := spellMagicDef_le v 1000000 (by decide) h2
  obtain ⟨q1, q2⟩ := tdiv_bounds (spell.magicalAttack * 100) (100 + spellMagicDef v)
    (by omega) (by omega)
  have e : spellDamage spell v
      = (Frac.mulInt ((spell.magicalAttack * 100).tdiv (100 + spellMagicDef v))
          (getElementalMultiplier spell.elementType v.equippedArmor.elementType)).trunc := rfl
  rw [e]
  unfold spellDamage32
  simp only
  rw [wrap32_of_range (spell.magicalAttack * 100) (by unfold INT_MIN; omega)
      (by unfold INT_MAX; omega),
    wrap32_of_range (100 + spellMagicDef v) (by unfold INT_MIN; omega) (by unfold INT_MAX; omega),
    scaleByFloat_eq _ _ _ q1 (by omega)]

theorem applySpellEffect32_eq (w : World) (self victim : Nat) (spell : Spell)
    (h0 : 0 ≤ spell.magicalAttack) (h1 : spell.magicalAttack ≤ RANGE)
    (h2 : (w.get victim).equippedArmor.magicalDefense ≤ RANGE) :
    applySpellEffect32 w self victim spell = applySpellEffect w self victim spell := by
  unfold applySpellEffect32 applySpellEffect
  rw [spellDamage32_eq spell _ h0 h1 h2]

theorem castSpellCell32_keeps (self target : Nat) (spell : Spell) (h0 : 0 ≤ spell.magicalAttack)
    (h1 : spell.magicalAttack ≤ RANGE) (w : World) (p : Int × Int)
    (h : w.Sane ∧ ∀ j, (w.get j).equippedArmor.magicalDefense ≤ RANGE) :
    (castSpellCell32 self target spell w p).Sane
    ∧ ∀ j, ((castSpellCell32 self target spell w p).get j).equippedArmor.magicalDefense
        ≤ RANGE := by
  have ha : ∀ v, (applySpellEffect32 w self v spell).Sane
      ∧ ∀ j, ((applySpellEffect32 w self v spell).get j).equippedArmor.magicalDefense
          ≤ RANGE := by
    intro v
    rw [applySpellEffect32_eq w self v spell h0 h1 (h.2 v)]
    refine ⟨applySpellEffect_sane _ _ _ _ h0 h.1, fun j => ?_⟩
    rw [(applySpellEffect_sameFixed w self v spell).1.armor j]
    exact h.2 j
  unfold castSpellCell32
  split
  · exact h
  · split
    · split
      · split
        · split
          · exact ha _
          · exact h
        · split
          · exact h
          · exact ha _
      · exact h
    · exact h

theorem castSpell32_sane (w : World) (self target : Nat) (spellIndex : Int) (h : w.Sane)
    (hr : w.InRange) : (castSpell32 w self target spellIndex).2.Sane := by
  have hs := (World.get_sane w h self).2.2.1
  obtain ⟨_, _, _, _, _, _, _, a8, _⟩ := World.get_inRange w hr self
  unfold castSpell32
  split
  · exact h
  · split
    · exact h
    · rename_i spell hspell
      have hmem : spell ∈ (w.get self).knownSpells := List.getElem?_mem hspell
      obtain ⟨hc, hm⟩ := hs spell hmem
      split
      · exact h
      · rename_i hmp
        split
        · exact h
        · have h1 : (w.upd self (fun c => c.spendMP spell.mpCost)).Sane := by
            intro c hcm
            rcases mem_updAt_getD _ _ _ default _ hcm with hcm | ⟨hk, e⟩
            · exact h c hcm
            · rw [e]
              exact spendMP_sane _ _ hc hmp (World.get_sane w h self)
          have h2 : ∀ j, ((w.upd self (fun c => c.spendMP spell.mpCost)).get j).equippedArmor.magicalDefense
              ≤ RANGE := by
            intro j
            rw [(upd_sameFixed w self _ (keepsFixed_spendMP spell.mpCost)).armor j]
            exact (World.get_inRange w hr j).2.2.2.2.2.2.1
          simp only
          split
          · exact h1
          · exact (foldl_keeps
              (fun w1 => w1.Sane ∧ ∀ j, (w1.get j).equippedArmor.magicalDefense ≤ RANGE) _
              (fun w1 p hq => castSpellCell32_keeps self target spell hm (a8 spell hmem) w1 p hq)
              _ _ ⟨h1, h2⟩).1

theorem useItem32_sane (w : World) (self target : Nat) (itemIndex : Int) (h : w.Sane) :
    (useItem32 w self target itemIndex).2.Sane := by
  have hs := (World.get_sane w h self).2.2.2.1
  unfold useItem32
  split
  · exact h
  · split
    · exact h
    · rename_i item hitem
      have hp : 0 ≤ item.potency := hs item (List.getElem?_mem hitem)
      have h1 : (w.upd self (fun c => c.consumeItem itemIndex.toNat)).Sane :=
        World.upd_sane _ _ _ h (fun c hc => consumeItem_sane c _ hc)
      split
      · exact h
      · split
        · exact h
        · simp only
          split
          · exact World.upd_sane _ _ _ h1 (fun c hc => heal_sane c _ hp hc)
          · split
            · exact World.upd_sane _ _ _ h1 (fun c hc => restoreMP_sane c _ hp hc)
            · exact h1

/-- C1, as stated, fails: within the bounds before the call, outside them after
it, for a negative amount given to takeDamage, heal, drainMP or restoreMP, for a
Burn status of negative potency under addTicks, for a weapon of negative attack
on a critical hit, for a spell of negative cost or negative attack, for a
healing item of negative potency, and, with no negative value anywhere, for a
weapon of attack 30000000, whose damage overflows `int` to -12949672 and leaves
a target of 100/100 health with 12949772. -/
theorem C1_bounds_counterexample :
    c1World.Bounded
    ∧ ¬ (takeDamage c1World 1 (-1) "None" true).Bounded
    ∧ ¬ (c1World.upd 1 (fun c => c.heal (-11))).Bounded
    ∧ ¬ (c1World.upd 1 (fun c => c.drainMP (-1))).Bounded
    ∧ ¬ (c1World.upd 1 (fun c => c.restoreMP (-6))).Bounded
    ∧ ((c1With (fun c => c.applyStatus "Burn" 3 (-5))).Bounded
        ∧ ¬ ((c1With (fun c => c.applyStatus "Burn" 3 (-5))).upd 0 (fun c => c.addTicks 1)).Bounded)
    ∧ ((c1With (fun c => { c with equippedWeapon := { c.equippedWeapon with physicalAttack := -20 } })).Bounded
        ∧ ¬ (attack32 (c1With (fun c =>
              { c with equippedWeapon := { c.equippedWeapon with physicalAttack := -20 } }))
              0 1 (fun _ => critRoll)).2.Bounded)
    ∧ ((c1With (fun c => { c with knownSpells := c.knownSpells.map (fun s => { s with mpCost := -1 }) })).Bounded
        ∧ ¬ (castSpell32 (c1With (fun c =>
              { c with knownSpells := c.knownSpells.map (fun s => { s with mpCost := -1 }) }))
              0 1 0).2.Bounded)
    ∧ ((c1With (fun c => { c with knownSpells := c.knownSpells.map (fun s => { s with magicalAttack := -4 }) })).Bounded
        ∧ ¬ (castSpell32 (c1With (fun c =>
              { c with knownSpells := c.knownSpells.map (fun s => { s with magicalAttack := -4 }) }))
              0 1 0).2.Bounded)
    ∧ ((c1With (fun c => { c with inventory := c.inventory.map (fun i => { i with potency := -20 }) })).Bounded
        ∧ ¬ (useItem32 (c1With (fun c =>
              { c with inventory := c.inventory.map (fun i => { i with potency := -20 }) }))
              0 1 0).2.Bounded)
    ∧ (bigAttackWorld.Bounded ∧ bigAttackWorld.Sane
        ∧ (hitDamage32 bigAttacker c1Target100 plainRoll).finalDamage = -12949672
        ∧ ((attack32 bigAttackWorld 0 1 (fun _ => plainRoll)).2.get 1).currentHealth = 12949772
        ∧ ((attack32 bigAttackWorld 0 1 (fun _ => plainRoll)).2.get 1).maxHealth = 100
        ∧ ¬ (attack32 bigAttackWorld 0 1 (fun _ => plainRoll)).2.Bounded) := by
  refine ⟨by decide, by decide, by decide, by decide, by decide, ⟨by decide, by decide⟩,
    ⟨by decide, by decide⟩, ⟨by decide, by decide⟩, ⟨by decide, by decide⟩,
    ⟨by decide, by decide⟩, ⟨by decide, by decide, by decide, by decide, by decide, by decide⟩⟩

/-- C1, amended: in a world where every combatant is within its bounds, carries
no negative magnitude (weapon attack, spell cost and attack, item potency, Burn
potency) and is in range (maximum health, maximum mana, weapon attack, magical
defense of the armor, spell attack and item potency at most 1000000, threshold
and resistance of the armor between -1000000 and 1000000, at most 100 attacks
of the weapon, Acid potencies not negative with a sum of at most 1000000,
stored position within 16777216 of the origin), the bounds
0 <= currentHealth <= maxHealth and 0 <= currentMagicPoints <= maxMagicPoints
hold for every combatant, and no magnitude is negative, after takeDamage and
drainMP with an amount that is not negative, after heal and restoreMP with an
amount from 0 to 2000000000, and after addTicks, attack, castSpell and useItem
with any arguments and draws, the last three computed in machine arithmetic. -/
theorem C1_bounds_preserved (w : World) (h : w.Sane) (hr : w.InRange) :
    (∀ (id : Nat) (amount : Int) (element : String) (hasGrid : Bool), 0 ≤ amount →
        (takeDamage w id amount element hasGrid).Bounded
        ∧ (takeDamage w id amount element hasGrid).Sane)
    ∧ (∀ (id : Nat) (amount : Int), 0 ≤ amount → amount ≤ 2000000000 →
        (w.upd id (fun c => c.heal amount)).Bounded ∧ (w.upd id (fun c => c.heal amount)).Sane)
    ∧ (∀ (id : Nat) (amount : Int), 0 ≤ amount →
        (w.upd id (fun c => c.drainMP amount)).Bounded
        ∧ (w.upd id (fun c => c.drainMP amount)).Sane)
    ∧ (∀ (id : Nat) (amount : Int), 0 ≤ amount → amount ≤ 2000000000 →
        (w.upd id (fun c => c.restoreMP amount)).Bounded
        ∧ (w.upd id (fun c => c.restoreMP amount)).Sane)
    ∧ (∀ (id : Nat) (ticks : Int),
        (w.upd id (fun c => c.addTicks ticks)).Bounded
        ∧ (w.upd id (fun c => c.addTicks ticks)).Sane)
    ∧ (∀ (self target : Nat) (rolls : Nat → AttackRoll),
        (attack32 w self target rolls).2.Bounded ∧ (attack32 w self target rolls).2.Sane)
    ∧ (∀ (self target : Nat) (spellIndex : Int),
        (castSpell32 w self target spellIndex).2.Bounded
        ∧ (castSpell32 w self target spellIndex).2.Sane)
    ∧ (∀ (self target : Nat) (itemIndex : Int),
        (useItem32 w self target itemIndex).2.Bounded
        ∧ (useItem32 w self target itemIndex).2.Sane) := by
  refine ⟨?_, ?_, ?_, ?_, ?_, ?_, ?_, ?_⟩
  · intro id amount element hasGrid ha
    have := takeDamage_sane w id amount element hasGrid ha h
    exact ⟨this.bounded, this⟩
  · intro id amount ha _
    have := World.upd_sane w id _ h (fun c hc => heal_sane c amount ha hc)
    exact ⟨this.bounded, this⟩
  · intro id amount ha
    have := World.upd_sane w id _ h (fun c hc => drainMP_sane c amount ha hc)
    exact ⟨this.bounded, this⟩
  · intro id amount ha _
    have := World.upd_sane w id _ h (fun c hc => restoreMP_sane c amount ha hc)
    exact ⟨this.bounded, this⟩
  · intro id ticks
    have := World.upd_sane w id _ h (fun c hc => addTicks_sane c ticks hc)
    exact ⟨this.bounded, this⟩
  · intro self target rolls
    have := attack32_sane w self target rolls h hr
    exact ⟨this.bounded, this⟩
  · intro self target spellIndex
    have := castSpell32_sane w self target spellIndex h hr
    exact ⟨this.bounded, this⟩
  · intro self target itemIndex
    have := useItem32_sane w self target itemIndex h
    exact ⟨this.bounded, this⟩

theorem C1_bounds_preserved_witness :
    (c1World.Sane ∧ c1World.InRange)
    ∧ (attack32 c1World 0 1 (fun _ => plainRoll)).1 = true
    ∧ ((attack32 c1World 0 1 (fun _ => plainRoll)).2.get 1).currentHealth = 7
    ∧ (attack32 c1World 0 1 (fun _ => plainRoll)).2.Bounded
    ∧ (castSpell32 c1World 0 1 0).1 = true
    ∧ (castSpell32 c1World 0 1 0).2.Bounded :=
  ⟨by decide, by decide, by decide,
    ((C1_bounds_preserved c1World (by decide) (by decide)).2.2.2.2.2.1 0 1
      (fun _ => plainRoll)).1,
    by decide,
    ((C1_bounds_preserved c1World (by decide) (by decide)).2.2.2.2.2.2.1 0 1 0).1⟩

/-! ### The `float` distance against the radius -/

theorem bitLength_lower : ∀ (fuel n : Nat), 0 < n → 2 ^ (bitLength fuel n - 1) ≤ n := by
  intro fuel
  induction fuel with
  | zero =>
    intro n hn
    show 2 ^ (0 - 1) ≤ n
    simpa using hn
  | succ f ih =>
    intro n hn
    unfold bitLength
    rw [if_neg (by omega)]
    show 2 ^ (bitLength f (n / 2)) ≤ n
    by_cases h2 : n / 2 = 0
    · have h0 : bitLength f (n / 2) = 0 := by
        rw [h2]
        cases f with
        | zero => rfl
        | succ g => rfl
      rw [h0]
      simpa using hn
    · have h3 := ih (n / 2) (by omega)
      by_cases hL : bitLength f (n / 2) = 0
      · rw [hL]
        simpa using hn
      · have e : bitLength f (n / 2) = (bitLength f (n / 2) - 1) + 1 := by omega
        rw [e, pow_succ]
        omega

theorem bitLength_upper : ∀ (fuel n : Nat), bitLength fuel n < fuel → n < 2 ^ bitLength fuel n := by
  intro fuel
  induction fuel with
  | zero => intro n h; exact absurd h (Nat.not_lt_zero _)
  | succ f ih =>
    intro n h
    unfold bitLength at h ⊢
    by_cases hn : n = 0
    · rw [if_pos hn]
      rw [hn]
      decide
    · rw [if_neg hn] at h ⊢
      have h1 := ih (n / 2) (by omega)
      rw [pow_succ]
      omega

theorem isqrtAux_ge (n : Nat) : ∀ (b r : Nat), r ≤ isqrtAux n b r := by
  intro b
  induction b with
  | zero => intro r; exact le_refl _
  | succ b ih =>
    intro r
    unfold isqrtAux
    split
    · exact le_trans (Nat.le_add_right _ _) (ih _)
    · exact ih _

theorem isqrtAux_spec (n : Nat) : ∀ (b r : Nat), r * r ≤ n → n < (r + 2 ^ b) * (r + 2 ^ b) →
    isqrtAux n b r * isqrtAux n b r ≤ n
    ∧ n < (isqrtAux n b r + 1) * (isqrtAux n b r + 1) := by
  intro b
  induction b with
  | zero =>
    intro r h1 h2
    exact ⟨h1, by simpa using h2⟩
  | succ b ih =>
    intro r h1 h2
    unfold isqrtAux
    split
    · rename_i h
      apply ih _ h
      have e : r + 2 ^ b + 2 ^ b = r + 2 ^ (b + 1) := by rw [pow_succ]; omega
      rw [e]
      exact h2
    · rename_i h
      exact ih _ h1 (by omega)

/-- The rounding of the root to the nearest multiple of `1 / S` against the
integer `A`, for a radicand `a` with root `q` in units of `1 / S`. -/
theorem round_le_iff (a q A S : Nat) (h1 : q * q ≤ a * (S * S))
    (h2 : a * (S * S) < (q + 1) * (q + 1)) (hbig : A * S = q → A + 1 ≤ S) :
    ((if (2 * q + 1) * (2 * q + 1) ≤ 4 * (a * (S * S)) then q + 1 else q) ≤ A * S
      ↔ a ≤ A * A) := by
  by_cases hle : a ≤ A * A
  · have hm : a * (S * S) ≤ (A * S) * (A * S) := by
      have := Nat.mul_le_mul_right (S * S) hle
      calc a * (S * S) ≤ A * A * (S * S) := this
        _ = (A * S) * (A * S) := by ring
    have hq : q ≤ A * S := by
      by_contra hc
      have : A * S + 1 ≤ q := by omega
      have := Nat.mul_le_mul this this
      nlinarith
    refine ⟨fun _ => hle, fun _ => ?_⟩
    by_cases hqe : q = A * S
    · rw [if_neg]
      · exact hq
      · rw [hqe]
        intro hc
        nlinarith
    · split <;> omega
  · have ha : A * A + 1 ≤ a := by omega
    have hm : (A * S) * (A * S) + S * S ≤ a * (S * S) := by
      have := Nat.mul_le_mul_right (S * S) ha
      calc (A * S) * (A * S) + S * S = (A * A + 1) * (S * S) := by ring
        _ ≤ a * (S * S) := this
    have hq : A * S ≤ q := by
      by_contra hc
      have : q + 1 ≤ A * S := by omega
      have := Nat.mul_le_mul this this
      nlinarith
    refine ⟨fun h => ?_, fun h => absurd h hle⟩
    exfalso
    by_cases hqe : A * S = q
    · have hS := hbig hqe
      have hS2 : (A + 1) * S ≤ S * S := Nat.mul_le_mul_right S hS
      have hS0 : 1 ≤ S := by omega
      rw [if_pos] at h
      · omega
      · rw [← hqe]
        nlinarith
    · split at h <;> omega

theorem floatSqrt_zero : floatSqrt 0 = ⟨0, 1⟩ := rfl

theorem floatSqrt_small (a : Nat) (ha : a ≠ 0) (he : (bitLength 128 a - 1) / 2 ≤ 23) :
    floatSqrt (a : Int)
      = ⟨((if (2 * isqrtAux (a * 4 ^ (23 - (bitLength 128 a - 1) / 2)) 24 0 + 1)
              * (2 * isqrtAux (a * 4 ^ (23 - (bitLength 128 a - 1) / 2)) 24 0 + 1)
              ≤ 4 * (a * 4 ^ (23 - (bitLength 128 a - 1) / 2))
            then isqrtAux (a * 4 ^ (23 - (bitLength 128 a - 1) / 2)) 24 0 + 1
            else isqrtAux (a * 4 ^ (23 - (bitLength 128 a - 1) / 2)) 24 0 : Nat) : Int),
          2 ^ (23 - (bitLength 128 a - 1) / 2)⟩ := by
  unfold floatSqrt
  simp only [Int.toNat_ofNat]
  rw [if_neg ha, if_pos he]

theorem floatSqrt_large (a : Nat) (ha : a ≠ 0) (he : ¬ (bitLength 128 a - 1) / 2 ≤ 23) :
    (floatSqrt (a : Int)).den = 1
    ∧ ((isqrtAux (a / 4 ^ ((bitLength 128 a - 1) / 2 - 23)) 24 0 : Nat) : Int)
        ≤ (floatSqrt (a : Int)).num := by
  unfold floatSqrt
  simp only [Int.toNat_ofNat]
  rw [if_neg ha, if_neg he]
  refine ⟨rfl, ?_⟩
  simp only
  have h1 : 1 ≤ 2 ^ ((bitLength 128 a - 1) / 2 - 23) := Nat.one_le_two_pow
  split
  · exact Int.ofNat_le.mpr (le_trans (Nat.le_succ _)
      (Nat.le_mul_of_pos_right _ (by omega)))
  · exact Int.ofNat_le.mpr (Nat.le_mul_of_pos_right _ (by omega))

/-- For a radius from 0 to 4095 the test `dist <= aoe` on the `float` distance
is the test on the squares: a `float` has 24 bits, so next to a root of at most
12 bits the rounding is finer than the gap between two roots. -/
theorem floatSqrt_le_iff (n A : Int) (hn : 0 ≤ n) (hA0 : 0 ≤ A) (hA : A ≤ 4095) :
    Frac.le (floatSqrt n) (Frac.ofInt (floatOfInt A)) = decide (n ≤ A * A) := by
  have hf : floatOfInt A = A := floatOfInt_of_small A (by omega)
  rw [hf]
  obtain ⟨a, rfl⟩ := Int.eq_ofNat_of_zero_le hn
  obtain ⟨B, rfl⟩ := Int.eq_ofNat_of_zero_le hA0
  have hB : B ≤ 4095 := by omega
  by_cases ha : a = 0
  · subst ha
    unfold Frac.le Frac.ofInt
    rw [show floatSqrt ((0 : Nat) : Int) = ⟨0, 1⟩ from rfl]
    rw [decide_eq_decide]
    constructor
    · intro _
      positivity
    · intro _
      positivity
  · have hpos : 0 < a := Nat.pos_of_ne_zero ha
    have hlow := bitLength_lower 128 a hpos
    by_cases he : (bitLength 128 a - 1) / 2 ≤ 23
    · rw [floatSqrt_small a ha he]
      unfold Frac.le Frac.ofInt
      rw [decide_eq_decide]
      dsimp only
      generalize hL : bitLength 128 a = L at *
      generalize hk : 23 - (L - 1) / 2 = k at *
      have hup : a < 2 ^ L := by
        rw [← hL]
        apply bitLength_upper
        omega
      have e4 : (4 : Nat) ^ k = 2 ^ k * 2 ^ k := by
        rw [show (4 : Nat) = 2 * 2 from rfl, mul_pow]
      have hlo4 : 4 ^ ((L - 1) / 2) ≤ a := by
        have : (4 : Nat) ^ ((L - 1) / 2) = 2 ^ (2 * ((L - 1) / 2)) := by
          rw [pow_mul]
          rfl
        rw [this]
        exact le_trans (Nat.pow_le_pow_right (by decide) (by omega)) hlow
      have hup4 : a < 4 ^ ((L - 1) / 2 + 1) := by
        have : (4 : Nat) ^ ((L - 1) / 2 + 1) = 2 ^ (2 * ((L - 1) / 2 + 1)) := by
          rw [pow_mul]
          rfl
        rw [this]
        exact lt_of_lt_of_le hup (Nat.pow_le_pow_right (by decide) (by omega))
      have hprod : (4 : Nat) ^ ((L - 1) / 2) * 4 ^ k = 4 ^ 23 := by
        rw [← pow_add]
        congr 1
        omega
      have hprod1 : (4 : Nat) ^ ((L - 1) / 2 + 1) * 4 ^ k = 4 ^ 24 := by
        rw [← pow_add]
        congr 1
        omega
      have hm1 : 4 ^ 23 ≤ a * 4 ^ k := by
        rw [← hprod]
        exact Nat.mul_le_mul_right _ hlo4
      have hm2 : a * 4 ^ k < 4 ^ 24 := by
        rw [← hprod1]
        exact Nat.mul_lt_mul_of_pos_right hup4 (by positivity)
      obtain ⟨q1, q2⟩ := isqrtAux_spec (a * 4 ^ k) 24 0 (by omega)
        (by
          have : (0 + 2 ^ 24) * (0 + 2 ^ 24) = 4 ^ 24 := by norm_num
          rw [this]
          exact hm2)
      generalize isqrtAux (a * 4 ^ k) 24 0 = q at *
      have hq23 : 2 ^ 23 ≤ q := by
        by_contra hc
        have h3 : q + 1 ≤ 2 ^ 23 := by omega
        have h4 := Nat.mul_le_mul h3 h3
        have h5 : (2 : Nat) ^ 23 * 2 ^ 23 = 4 ^ 23 := by norm_num
        omega
      have hbig : B * 2 ^ k = q → B + 1 ≤ 2 ^ k := by
        intro hq
        by_cases hk11 : k ≤ 11
        · have h6 : 2 ^ k ≤ 2 ^ 11 := Nat.pow_le_pow_right (by decide) hk11
          have h7 := Nat.mul_le_mul hB h6
          have h8 : (4095 : Nat) * 2 ^ 11 < 2 ^ 23 := by norm_num
          omega
        · have h6 : 2 ^ 12 ≤ 2 ^ k := Nat.pow_le_pow_right (by decide) (by omega)
          have h7 : (2 : Nat) ^ 12 = 4096 := by norm_num
          omega
      rw [e4] at q1 q2 ⊢
      have key := round_le_iff a q B (2 ^ k) q1 q2 hbig
      constructor
      · intro h
        have h' : (if (2 * q + 1) * (2 * q + 1) ≤ 4 * (a * (2 ^ k * 2 ^ k)) then q + 1 else q)
            ≤ B * 2 ^ k := by
          have h9 : (if (2 * q + 1) * (2 * q + 1) ≤ 4 * (a * (2 ^ k * 2 ^ k)) then q + 1 else q)
              * 1 ≤ B * 2 ^ k := by exact_mod_cast h
          omega
        exact_mod_cast key.mp h'
      · intro h
        have h' : a ≤ B * B := by exact_mod_cast h
        have h9 : (if (2 * q + 1) * (2 * q + 1) ≤ 4 * (a * (2 ^ k * 2 ^ k)) then q + 1 else q)
            * 1 ≤ B * 2 ^ k := by
          have := key.mpr h'
          omega
        exact_mod_cast h9
    · obtain ⟨d1, d2⟩ := floatSqrt_large a ha he
      unfold Frac.le Frac.ofInt
      rw [decide_eq_decide, d1]
      generalize hL : bitLength 128 a = L at *
      have hlo4 : 4 ^ 24 ≤ a := by
        have : (4 : Nat) ^ 24 = 2 ^ 48 := by norm_num
        rw [this]
        exact le_trans (Nat.pow_le_pow_right (by decide) (by omega)) hlow
      have hlo5 : 4 ^ ((L - 1) / 2) ≤ a := by
        have : (4 : Nat) ^ ((L - 1) / 2) = 2 ^ (2 * ((L - 1) / 2)) := by
          rw [pow_mul]
          rfl
        rw [this]
        exact le_trans (Nat.pow_le_pow_right (by decide) (by omega)) hlow
      have hdiv : 4 ^ 23 ≤ a / 4 ^ ((L - 1) / 2 - 23) := by
        rw [Nat.le_div_iff_mul_le (by positivity), ← pow_add]
        have : 23 + ((L - 1) / 2 - 23) = (L - 1) / 2 := by omega
        rw [this]
        exact hlo5
      have hq : 2 ^ 23 ≤ isqrtAux (a / 4 ^ ((L - 1) / 2 - 23)) 24 0 := by
        unfold isqrtAux
        have hc : (0 + 2 ^ 23) * (0 + 2 ^ 23) ≤ a / 4 ^ ((L - 1) / 2 - 23) := by
          have : (0 + 2 ^ 23) * (0 + 2 ^ 23) = 4 ^ 23 := by norm_num
          rw [this]
          exact hdiv
        rw [if_pos hc]
        exact le_trans (by omega) (isqrtAux_ge _ 23 (0 + 2 ^ 23))
      have hq' : ((2 ^ 23 : Nat) : Int) ≤ (floatSqrt (a : Int)).num :=
        le_trans (Int.ofNat_le.mpr hq) d2
      have hB2 : B * B ≤ 4095 * 4095 := Nat.mul_le_mul hB hB
      constructor
      · intro h
        exfalso
        have hBi : ((B : Nat) : Int) ≤ 4095 := by exact_mod_cast hB
        have : ((2 ^ 23 : Nat) : Int) = 8388608 := by norm_num
        simp only [Nat.cast_one, mul_one] at h
        omega
      · intro h
        exfalso
        have h' : a ≤ B * B := by exact_mod_cast h
        have : (4 : Nat) ^ 24 = 281474976710656 := by norm_num
        omega

/-! ### The area of a spell in machine arithmetic -/

theorem getDistanceSq_nonneg (x1 y1 x2 y2 : Int) : 0 ≤ getDistanceSq x1 y1 x2 y2 := by
  unfold getDistanceSq
  nlinarith [mul_self_nonneg (x2 - x1), mul_self_nonneg (y2 - y1)]

theorem getDistanceSq32_eq (x1 y1 x2 y2 : Int)
    (h1 : -16777216 ≤ x1 ∧ x1 ≤ 16777216) (h2 : -16777216 ≤ y1 ∧ y1 ≤ 16777216)
    (h3 : 0 ≤ x2 ∧ x2 ≤ 16777216) (h4 : 0 ≤ y2 ∧ y2 ≤ 16777216) :
    getDistanceSq32 x1 y1 x2 y2 = getDistanceSq x1 y1 x2 y2 := by
  unfold getDistanceSq32 getDistanceSq
  rw [wrap32_of_range (x2 - x1) (by unfold INT_MIN; omega) (by unfold INT_MAX; omega),
    wrap32_of_range (y2 - y1) (by unfold INT_MIN; omega) (by unfold INT_MAX; omega)]

theorem areaTest32_eq (d2 aoe : Int) (hd : 0 ≤ d2) (h0 : 0 ≤ aoe) (h1 : aoe ≤ 4095) :
    Frac.le (floatSqrt d2) (Frac.ofInt (floatOfInt aoe)) = Frac.sqrtLe d2 (Frac.ofInt aoe) := by
  rw [floatSqrt_le_iff d2 aoe hd h0 h1, Bool.eq_iff_iff, Frac.sqrtLe_ofInt, decide_eq_true_eq]
  exact ⟨fun h => ⟨h0, h⟩, fun h => h.2⟩

theorem World.get_spellInRange (w : World) (h : w.SpellInRange) (i : Nat) :
    (w.get i).equippedArmor.magicalDefense ≤ RANGE ∧ (w.get i).PositionInRange := by
  obtain ⟨_, _, _, _, _, _, a7, _, _, _, a11⟩ := World.get_inRange w h.2 i
  exact ⟨a7, a11⟩

/-- In a state with the grid, the armor and the positions of a world in range,
the body of the scan in machine arithmetic is the body in exact arithmetic. -/
theorem castSpellCell32_eq (self target : Nat) (spell : Spell) (h0 : 0 ≤ spell.aoe)
    (h1 : spell.aoe ≤ 4095) (hm0 : 0 ≤ spell.magicalAttack) (hm1 : spell.magicalAttack ≤ RANGE)
    (w : World) (hr : w.SpellInRange) (wi : World) (hg : wi.grid = w.grid) (hf : SameFixed w wi)
    (p : Int × Int) :
    castSpellCell32 self target spell wi p = castSpellCell self target spell wi p := by
  unfold castSpellCell32 castSpellCell
  cases hq : wi.grid.getCombatantAt p.1 p.2 with
  | none => rfl
  | some q =>
    simp only
    obtain ⟨hx, hy⟩ := getCombatantAt_some_inBounds _ _ _ _ hq
    rw [hg] at hx hy
    obtain ⟨_, t1, t2⟩ := World.get_spellInRange w hr target
    have hmd : (wi.get q).equippedArmor.magicalDefense ≤ RANGE := by
      rw [hf.armor q]
      exact (World.get_spellInRange w hr q).1
    obtain ⟨⟨g1, g2⟩, _⟩ := hr
    rw [getDistanceSq32_eq _ _ _ _ (by rw [hf.xPos target]; exact t1)
        (by rw [hf.yPos target]; exact t2) (by omega) (by omega),
      areaTest32_eq _ _ (getDistanceSq_nonneg _ _ _ _) h0 h1,
      applySpellEffect32_eq wi self q spell hm0 hm1 hmd]

theorem castSpell_scan32_eq (self target : Nat) (spell : Spell) (h0 : 0 ≤ spell.aoe)
    (h1 : spell.aoe ≤ 4095) (hm0 : 0 ≤ spell.magicalAttack) (hm1 : spell.magicalAttack ≤ RANGE)
    (w : World) (hr : w.SpellInRange) :
    ∀ (cells : List (Int × Int)) (wi : World), wi.grid = w.grid → SameFixed w wi →
      cells.foldl (castSpellCell32 self target spell) wi
        = cells.foldl (castSpellCell self target spell) wi := by
  intro cells
  induction cells with
  | nil => intro wi _ _; rfl
  | cons p rest ih =>
    intro wi hg hf
    rw [List.foldl_cons, List.foldl_cons,
      castSpellCell32_eq self target spell h0 h1 hm0 hm1 w hr wi hg hf p]
    obtain ⟨a, b⟩ := castSpellCell_sameFixed self target spell wi p
    exact ih _ (b.trans hg) (hf.trans_fixed a)

theorem spellEffects32_eq (self : Nat) (spell : Spell) (hm0 : 0 ≤ spell.magicalAttack)
    (hm1 : spell.magicalAttack ≤ RANGE) (w : World) (hr : w.SpellInRange) :
    ∀ (qs : List Nat) (wi : World), SameFixed w wi →
      qs.foldl (fun wj q => applySpellEffect32 wj self q spell) wi
        = qs.foldl (fun wj q => applySpellEffect wj self q spell) wi := by
  intro qs
  induction qs with
  | nil => intro wi _; rfl
  | cons q rest ih =>
    intro wi hf
    have hmd : (wi.get q).equippedArmor.magicalDefense ≤ RANGE := by
      rw [hf.armor q]
      exact (World.get_spellInRange w hr q).1
    rw [List.foldl_cons, List.foldl_cons, applySpellEffect32_eq wi self q spell hm0 hm1 hmd]
    exact ih _ (hf.trans_fixed (applySpellEffect_sameFixed wi self q spell).1)

theorem castSpell32_of_success (w : World) (self target : Nat) (spellIndex : Int) (spell : Spell)
    (hspell : (w.get self).knownSpells[spellIndex.toNat]? = some spell)
    (hok : (castSpell32 w self target spellIndex).1 = true) :
    ¬ (w.get self).currentMagicPoints < spell.mpCost
    ∧ (castSpell32 w self target spellIndex).2
        = w.grid.scanOrder.foldl (castSpellCell32 self target spell)
            (w.upd self (fun c => c.spendMP spell.mpCost)) := by
  unfold castSpell32 at hok ⊢
  by_cases h1 : spellIndex < 0 ∨ spellIndex ≥ (w.get self).knownSpells.length
  · rw [if_pos h1] at hok
    exact Bool.noConfusion hok
  · rw [if_neg h1] at hok ⊢
    rw [hspell] at hok ⊢
    simp only at hok ⊢
    by_cases h2 : (w.get self).currentMagicPoints < spell.mpCost
    · rw [if_pos h2] at hok
      exact Bool.noConfusion hok
    · rw [if_neg h2] at hok ⊢
      by_cases h3 : checkRange32 (w.get self) (w.get target) spell.range = false
      · rw [if_pos h3] at hok
        exact Bool.noConfusion hok
      · rw [if_neg h3] at hok ⊢
        by_cases h4 : ((w.upd self (fun c => c.spendMP spell.mpCost)).get target).xPos = -1
        · rw [if_pos h4] at hok
          exact Bool.noConfusion hok
        · rw [if_neg h4]
          exact ⟨h2, rfl⟩

set_option maxRecDepth 100000 in
/-- C19, as stated, fails in four ways. With the radius -1 the primary target
stands at squared distance 0 <= 1 from its own cell, yet the scan compares the
distance itself with -1 and touches nobody. A combatant entered in two cells
within the radius receives the effect twice. A "Bio" spell of category "Buff"
with a negative attack takes the life of the caster at its first application,
so the scan passes over the caster that the rule selects. With the radius 4096
an opponent at (4096, 1), at squared distance 4096^2 + 1 > 4096^2 from the
primary target at (0, 0), is outside the rule, yet its distance as a `float` is
8388608 / 2048 = 4096 and the body of the scan at its cell, after the mana has been spent and
the primary target has been hit, takes its health from 10 to 6. -/
theorem C19_spell_area_counterexample :
    ((castSpell32 negAreaWorld 0 1 0).1 = true
      ∧ (negAreaWorld.get 0).isAlive = true
      ∧ spellTargets negAreaWorld 0 1 negAreaSpell = [1]
      ∧ ((castSpell32 negAreaWorld 0 1 0).2.get 1).currentHealth = 10
      ∧ ((applySpellEffect32 (negAreaWorld.upd 0 (fun c => c.spendMP negAreaSpell.mpCost)) 0 1
            negAreaSpell).get 1).currentHealth = 6)
    ∧ ((castSpell32 twoCellWorld 0 1 0).1 = true
      ∧ (twoCellWorld.get 0).isAlive = true
      ∧ twoCellWorld.grid.getCombatantAt 1 0 = some 1
      ∧ twoCellWorld.grid.getCombatantAt 2 0 = some 1
      ∧ ((castSpell32 twoCellWorld 0 1 0).2.get 1).currentHealth = 2
      ∧ ((applySpellEffect32 (twoCellWorld.upd 0 (fun c => c.spendMP areaSpell.mpCost)) 0 1
            areaSpell).get 1).currentHealth = 6)
    ∧ ((castSpell32 drainWorld 0 1 0).1 = true
      ∧ (drainWorld.get 0).isAlive = true
      ∧ spellTargets drainWorld 0 1 drainSpell = [1, 0]
      ∧ ((castSpell32 drainWorld 0 1 0).2.get 0).currentHealth = -10
      ∧ (([1].foldl (fun wi q => applySpellEffect32 wi 0 q drainSpell)
            (drainWorld.upd 0 (fun c => c.spendMP drainSpell.mpCost))).get 0).currentHealth = -10
      ∧ (([1, 0].foldl (fun wi q => applySpellEffect32 wi 0 q drainSpell)
            (drainWorld.upd 0 (fun c => c.spendMP drainSpell.mpCost))).get 0).currentHealth = 10)
    ∧ (wideWorld.grid.getCombatantAt 4096 1 = some 2
      ∧ (wideWorld.get 2).isAlive = true
      ∧ (wideWorld.get 2).team ≠ (wideWorld.get 0).team
      ∧ getDistanceSq (wideWorld.get 1).xPos (wideWorld.get 1).yPos 4096 1 = 4096 * 4096 + 1
      ∧ floatSqrt (4096 * 4096 + 1) = ⟨8388608, 2048⟩
      ∧ Frac.le (floatSqrt (4096 * 4096 + 1)) (Frac.ofInt (floatOfInt wideSpell.aoe)) = true
      ∧ spellTargetAt wideWorld 0 1 wideSpell (4096, 1) = none
      ∧ ((castSpellCell32 0 1 wideSpell
            (castSpellCell32 0 1 wideSpell
              (wideWorld.upd 0 (fun c => c.spendMP wideSpell.mpCost)) (0, 0))
            (4096, 1)).get 2).currentHealth = 6) := by
  refine ⟨by decide, by decide, by decide, ?_⟩
  refine ⟨by decide, by decide, by decide, by decide, by decide, by decide, by decide, by decide⟩

/-- C19, amended: in a world where every occupant of a cell has that cell as its
stored position, every combatant is within its bounds, carries no negative
magnitude and is in range (maximum health, maximum mana, weapon attack, magical
defense, spell attack and item potency at most 1000000, armor threshold and
resistance within 1000000 in magnitude, at most 100 attacks, Acid potencies not
negative with a sum of at most 1000000, stored position within 16777216 of the
origin), nobody wears Poison armor and the grid is at most 16777216 cells wide
and high, a successful cast by a living caster of a spell with
`0 <= aoe <= 4095` ends in the state reached by applying the spell effect,
after the mana has been spent, once to each combatant of the list
`spellTargets`, in the order of the scan. That list has
no repetition, and its members are exactly the combatants that before the cast
were the living occupant of a cell at squared distance at most `aoe * aoe` from
the cell of the primary target and that pass the team filter; the position of
the caster does not enter the selection. -/
theorem C19_spell_area (w : World) (self target : Nat) (spellIndex : Int) (spell : Spell)
    (hpos : ∀ x y c, w.grid.getCombatantAt x y = some c → (w.get c).xPos = x ∧ (w.get c).yPos = y)
    (hs : w.Sane)
    (hnp : ∀ c ∈ w.combatants, c.equippedArmor.elementType ≠ "Poison")
    (hr : w.SpellInRange)
    (halive : (w.get self).isAlive = true)
    (hspell : (w.get self).knownSpells[spellIndex.toNat]? = some spell)
    (haoe : 0 ≤ spell.aoe) (haoe1 : spell.aoe ≤ 4095)
    (hok : (castSpell32 w self target spellIndex).1 = true) :
    (castSpell32 w self target spellIndex).2
        = (spellTargets w self target spell).foldl
            (fun wi q => applySpellEffect32 wi self q spell)
            (w.upd self (fun c => c.spendMP spell.mpCost))
    ∧ (spellTargets w self target spell).Nodup
    ∧ ∀ q, q ∈ spellTargets w self target spell ↔ spellSelects w self target spell q := by
  obtain ⟨hmp, e⟩ := castSpell32_of_success w self target spellIndex spell hspell hok
  have hm1 : spell.magicalAttack ≤ RANGE :=
    (World.get_inRange w hr.2 self).2.2.2.2.2.2.2.1 spell (List.getElem?_mem hspell)
  obtain ⟨hcost, hm⟩ := (World.get_sane w hs self).2.2.1 spell (List.getElem?_mem hspell)
  have h1 : (w.upd self (fun c => c.spendMP spell.mpCost)).Sane := by
    intro c hcm
    rcases mem_updAt_getD _ _ _ default _ hcm with hcm | ⟨_, e1⟩
    · exact hs c hcm
    · rw [e1]
      exact spendMP_sane _ _ hcost hmp (World.get_sane w hs self)
  have hfix : SameFixed w (w.upd self (fun c => c.spendMP spell.mpCost)) :=
    upd_sameFixed _ _ _ (keepsFixed_spendMP _)
  refine ⟨?_, ?_, ?_⟩
  · rw [e, castSpell_scan32_eq self target spell haoe haoe1 hm hm1 w hr w.grid.scanOrder
        (w.upd self (fun c => c.spendMP spell.mpCost)) (World.upd_grid _ _ _) hfix,
      spellEffects32_eq self spell hm hm1 w hr (spellTargets w self target spell)
        (w.upd self (fun c => c.spendMP spell.mpCost)) hfix]
    exact castSpell_scan_eq w self target spell hpos hnp halive haoe hm _ _
      (Grid.scanOrder_nodup _) rfl hfix h1
      (fun _ _ q _ => World.get_upd_field Combatant.isAlive w self q _ (fun _ => rfl))
  · refine List.Nodup.filterMap ?_ (Grid.scanOrder_nodup _)
    intro p p1 q h2 h3
    have a := ((spellTargetAt_eq_some w self target spell p q).mp h2).1
    have b := ((spellTargetAt_eq_some w self target spell p1 q).mp h3).1
    obtain ⟨a1, a2⟩ := hpos _ _ _ a
    obtain ⟨b1, b2⟩ := hpos _ _ _ b
    exact Prod.ext (a1.symm.trans b1) (a2.symm.trans b2)
  · intro q
    unfold spellTargets spellSelects
    rw [List.mem_filterMap]
    constructor
    · rintro ⟨p, _, hp⟩
      exact ⟨p.1, p.2, (spellTargetAt_eq_some w self target spell p q).mp hp⟩
    · rintro ⟨x, y, hq, hr⟩
      obtain ⟨hx, hy⟩ := getCombatantAt_some_inBounds _ _ _ _ hq
      exact ⟨(x, y), Grid.mem_scanOrder _ x y hx hy,
        (spellTargetAt_eq_some w self target spell (x, y) q).mpr ⟨hq, hr⟩⟩

theorem C19_spell_area_witness :
    ((castSpell32 areaWorld 0 1 0).1 = true
      ∧ spellTargets areaWorld 0 1 areaSpell = [1, 2]
      ∧ (areaWorld.get 0).xPos = 0 ∧ (areaWorld.get 0).yPos = 0
      ∧ (areaWorld.get 1).xPos = 1 ∧ (areaWorld.get 2).xPos = 2)
    ∧ (castSpell32 areaWorld 0 1 0).2
        = (spellTargets areaWorld 0 1 areaSpell).foldl
            (fun wi q => applySpellEffect32 wi 0 q areaSpell)
            (areaWorld.upd 0 (fun c => c.spendMP areaSpell.mpCost)) :=
  ⟨by decide,
    (C19_spell_area areaWorld 0 1 0 areaSpell (reachable_consistent _ areaWorld_reachable).2.1
      (by decide) (by decide) (by decide) (by decide) (by decide) (by decide) (by decide)
      (by decide)).1⟩

end RPG
